import Mathlib

/-!
# Camera_Lidar_Fusion: `camFusion_Student.cpp`

A shallow embedding of the association and time-to-collision routines of
`src/SFND_3D_Object_Tracking/src/camFusion_Student.cpp`.

Conventions of the embedding.

* `double` and `float` values are rationals (`ℚ`); overflow, underflow and
  non-finite inputs are not modelled.  A result that the code produces by a
  division is a `Dbl`, which keeps NaN and the infinities apart from numbers.
* Rounding to `float` (`fl32`) and to `double` (`fl64`) is round-to-nearest,
  ties to even.  It is applied in `shrinkRect` and in
  `clusterKptMatchesWithROI_binary64`, where the values that are truncated or
  compared depend on it; the other definitions compute in exact arithmetic.
* `int` values are unbounded integers.
* A `std::vector` is a `List`; an iterator into it is a position.
* A run that reads outside a vector (an index that is out of range, or the
  iterator `end() - 1` of an empty vector) or converts a non-finite double to
  `int` has undefined behaviour; the embedding returns `none` there.
-/

namespace CamFusion

/-! ## Numeric conversions -/

/-- Conversion of a floating value to `int` as C++ does it implicitly:
the fractional part is discarded (truncation toward zero). -/
def truncToInt (q : ℚ) : Int :=
  if 0 ≤ q then ⌊q⌋ else ⌈q⌉

/-- OpenCV `cvRound`, which `cv::saturate_cast<int>(float)` uses: the nearest
integer, a tie going to the even neighbour. -/
def cvRound (q : ℚ) : Int :=
  let f : Int := ⌊q⌋
  let r : ℚ := q - f
  if r < 1 / 2 then f
  else if 1 / 2 < r then f + 1
  else if f % 2 = 0 then f else f + 1

/-- Rounding of a real value to the nearest value with `p` significant binary
digits, a tie going to the even significand (IEEE round-to-nearest-even with an
unbounded exponent range). -/
def roundToPrecision (p : Nat) (q : ℚ) : ℚ :=
  if q = 0 then 0
  else
    let e : Int := Int.log 2 |q|
    let ulp : ℚ := (2 : ℚ) ^ (e - ((p : Int) - 1))
    (if q < 0 then -1 else 1) * ((cvRound (|q| / ulp) : Int) : ℚ) * ulp

/-- Rounding to `float` (binary32: 24 significant digits). -/
def fl32 (q : ℚ) : ℚ := roundToPrecision 24 q

/-- Rounding to `double` (binary64: 53 significant digits). -/
def fl64 (q : ℚ) : ℚ := roundToPrecision 53 q

/-- Value of a floating-point expression that ends in a division: NaN, an
infinity with its sign, or a finite number. -/
inductive Dbl where
  | nan : Dbl
  | inf (negative : Bool) : Dbl
  | fin (v : ℚ) : Dbl
  deriving DecidableEq

namespace Dbl

/-- IEEE negation. -/
def neg : Dbl → Dbl
  | nan => nan
  | inf s => inf (!s)
  | fin v => fin (-v)

/-- IEEE multiplication (signed zeros not modelled). -/
def mul : Dbl → Dbl → Dbl
  | nan, _ => nan
  | _, nan => nan
  | inf s, inf t => inf (s != t)
  | inf s, fin v => if v = 0 then nan else inf (s != decide (v < 0))
  | fin v, inf t => if v = 0 then nan else inf (decide (v < 0) != t)
  | fin v, fin w => fin (v * w)

/-- IEEE division (signed zeros not modelled: a zero divisor counts as `+0`). -/
def div : Dbl → Dbl → Dbl
  | nan, _ => nan
  | _, nan => nan
  | inf _, inf _ => nan
  | inf s, fin w => inf (s != decide (w < 0))
  | fin _, inf _ => fin 0
  | fin v, fin w =>
    if w = 0 then (if v = 0 then nan else inf (decide (v < 0)))
    else fin (v / w)

/-- The value is NaN. -/
def isNaN : Dbl → Bool
  | nan => true
  | _ => false

end Dbl

/-! ## Data model -/

/-- Modelled from the spec: `LidarPoint` of `dataStructures.h`, a 3D position
`(x, y, z)` and a reflectivity `r`. -/
structure LidarPoint where
  x : ℚ
  y : ℚ
  z : ℚ
  r : ℚ
  deriving DecidableEq

/-- OpenCV `cv::Point` (integer pixel coordinates). -/
structure Point where
  x : Int
  y : Int
  deriving DecidableEq

/-- OpenCV `cv::Point2f`. -/
structure Point2f where
  x : ℚ
  y : ℚ
  deriving DecidableEq

/-- OpenCV `cv::Rect` (integer rectangle). -/
structure Rect where
  x : Int
  y : Int
  width : Int
  height : Int
  deriving DecidableEq

/-- OpenCV `cv::KeyPoint`; only the position is used. -/
structure KeyPoint where
  pt : Point2f
  deriving DecidableEq

/-- OpenCV `cv::DMatch`; only the two indices are used. -/
structure DMatch where
  queryIdx : Int
  trainIdx : Int
  deriving DecidableEq

/-- Modelled from the spec: `BoundingBox` of `dataStructures.h`, with its
identifier, its image rectangle and its three membership vectors. -/
structure BoundingBox where
  boxID : Int
  roi : Rect
  lidarPoints : List LidarPoint
  keypoints : List KeyPoint
  kptMatches : List DMatch
  deriving DecidableEq

/-- Modelled from the spec: `DataFrame` of `dataStructures.h`, the keypoints
and the bounding boxes of one frame. -/
structure DataFrame where
  keypoints : List KeyPoint
  boundingBoxes : List BoundingBox

/-- The three calibration matrices, with the shapes the spec fixes. -/
structure Calibration where
  P_rect_xx : Fin 3 → Fin 4 → ℚ
  R_rect_xx : Fin 4 → Fin 4 → ℚ
  RT : Fin 4 → Fin 4 → ℚ

/-- OpenCV `Rect::contains`: left and top edges inclusive, right and bottom
edges exclusive. -/
def Rect.contains (r : Rect) (pt : Point) : Bool :=
  decide (r.x ≤ pt.x) && decide (pt.x < r.x + r.width) &&
    decide (r.y ≤ pt.y) && decide (pt.y < r.y + r.height)

/-- Conversion `cv::Point2f → cv::Point` (OpenCV `saturate_cast` on both
coordinates), used when a `Point2f` is passed to `Rect::contains`. -/
def Point2f.toPoint (p : Point2f) : Point :=
  { x := cvRound p.x, y := cvRound p.y }

/-- Element access `v[i]` with an `int` index: undefined outside the vector. -/
def vecAt {α : Type} (v : List α) (i : Int) : Option α :=
  if 0 ≤ i then v[i.toNat]? else none

/-- The iterator range `begin() .. end() - 1`: every element but the last.
Evaluating `end() - 1` on an empty vector is undefined. -/
def beginToEndMinusOne {α : Type} (v : List α) : Option (List α) :=
  match v with
  | [] => none
  | _ :: _ => some v.dropLast

/-! ## `clusterLidarWithROI` -/

/-- Product of an `m × 4` matrix with a `4 × n` matrix. -/
def matMul {m n : Nat} (A : Fin m → Fin 4 → ℚ) (B : Fin 4 → Fin n → ℚ) :
    Fin m → Fin n → ℚ :=
  fun i j => A i 0 * B 0 j + A i 1 * B 1 j + A i 2 * B 2 j + A i 3 * B 3 j

/-- The homogeneous column vector `X` assembled from a Lidar point. -/
def homogeneous (p : LidarPoint) : Fin 4 → Fin 1 → ℚ :=
  fun i _ => if i = 0 then p.x else if i = 1 then p.y else if i = 2 then p.z else 1

/-- Lines 24-34: `Y = P_rect_xx * R_rect_xx * RT * X`, then the pixel
`(Y0 / Y2, Y1 / Y2)` converted to `int`.  With `Y2 = 0` the quotient is not
finite and its conversion to `int` is undefined. -/
def projectToPixel (calib : Calibration) (p : LidarPoint) : Option Point :=
  let Y := matMul (matMul (matMul calib.P_rect_xx calib.R_rect_xx) calib.RT) (homogeneous p)
  if Y 2 0 = 0 then none
  else some { x := truncToInt (Y 0 0 / Y 2 0), y := truncToInt (Y 1 0 / Y 2 0) }

/-- Lines 40-44 (and 145-150): the shrunk rectangle.  `shrinkFactor` is a
`float` (the argument is converted to it); `shrinkFactor * width` and
`width * (1 - shrinkFactor)` are `float` operations on the `int` field
converted to `float`; the division by `2.0` and the addition of `roi.x` are
`double` operations; each result is stored into an `int` field. -/
def shrinkRect (roi : Rect) (shrinkFactor : ℚ) : Rect :=
  { x := truncToInt (fl64 (roi.x + fl32 (fl32 shrinkFactor * fl32 roi.width) / 2))
    y := truncToInt (fl64 (roi.y + fl32 (fl32 shrinkFactor * fl32 roi.height) / 2))
    width := truncToInt (fl32 (fl32 roi.width * fl32 (1 - fl32 shrinkFactor)))
    height := truncToInt (fl32 (fl32 roi.height * fl32 (1 - fl32 shrinkFactor))) }

/-- Lines 36-52: the positions of all boxes whose shrunk rectangle contains the
pixel, in box order. -/
def enclosingBoxes (boundingBoxes : List BoundingBox) (shrinkFactor : ℚ) (pt : Point) :
    List Nat :=
  (List.range boundingBoxes.length).filter fun i =>
    match boundingBoxes[i]? with
    | some b => (shrinkRect b.roi shrinkFactor).contains pt
    | none => false

/-- Lines 55-59: the point is pushed to the box when exactly one box encloses
its pixel. -/
def assignLidarPoint (boundingBoxes : List BoundingBox) (shrinkFactor : ℚ)
    (p : LidarPoint) (pt : Point) : List BoundingBox :=
  match enclosingBoxes boundingBoxes shrinkFactor pt with
  | [i] => boundingBoxes.modify (fun b => { b with lidarPoints := b.lidarPoints ++ [p] }) i
  | _ => boundingBoxes

/-- Lines 15-62: the loop over all Lidar points; the result is the vector of
boxes after the call. -/
def clusterLidarWithROI (boundingBoxes : List BoundingBox) (lidarPoints : List LidarPoint)
    (shrinkFactor : ℚ) (calib : Calibration) : Option (List BoundingBox) :=
  match lidarPoints with
  | [] => some boundingBoxes
  | p :: rest =>
    match projectToPixel calib p with
    | none => none
    | some pt =>
      clusterLidarWithROI (assignLidarPoint boundingBoxes shrinkFactor p pt) rest
        shrinkFactor calib

/-- Box position `b` exists and its shrunk rectangle contains the projected
pixel of `p`. -/
def inShrunkROI (boundingBoxes : List BoundingBox) (shrinkFactor : ℚ) (calib : Calibration)
    (b : Nat) (p : LidarPoint) : Bool :=
  match boundingBoxes[b]?, projectToPixel calib p with
  | some box, some pt => (shrinkRect box.roi shrinkFactor).contains pt
  | _, _ => false

/-- Box `b` is the only box of the vector whose shrunk rectangle contains the
projected pixel of `p`. -/
def onlyEnclosingBox (boundingBoxes : List BoundingBox) (shrinkFactor : ℚ)
    (calib : Calibration) (b : Nat) (p : LidarPoint) : Prop :=
  inShrunkROI boundingBoxes shrinkFactor calib b p = true ∧
    ∀ b', b' < boundingBoxes.length →
      inShrunkROI boundingBoxes shrinkFactor calib b' p = true → b' = b

instance onlyEnclosingBox_decidable (boxes : List BoundingBox) (s : ℚ) (calib : Calibration)
    (b : Nat) (p : LidarPoint) : Decidable (onlyEnclosingBox boxes s calib b p) :=
  inferInstanceAs (Decidable (_ ∧ _))

/-! ## `clusterKptMatchesWithROI` -/

/-- Difference of two `cv::Point2f`. -/
def Point2f.sub (a b : Point2f) : Point2f :=
  { x := a.x - b.x, y := a.y - b.y }

/-- Comparison `t < d` of a finite value with a floating value; false against
NaN. -/
def Dbl.finLt (t : ℚ) : Dbl → Bool
  | Dbl.nan => false
  | Dbl.inf negative => !negative
  | Dbl.fin v => decide (t < v)

/-- Lines 154-166: the displacement of every match whose current keypoint lies
in the shrunk rectangle, in match order.  `norm` stands for `cv::norm` on
`cv::Point2f` (the Euclidean length, which is not rational in general). -/
def roiDistances (norm : Point2f → ℚ) (smallerBox_c : Rect)
    (kptsPrev kptsCurr : List KeyPoint) : List DMatch → Option (List ℚ)
  | [] => some []
  | m :: rest =>
    match vecAt kptsCurr m.trainIdx with
    | none => none
    | some currKeyPoint =>
      if smallerBox_c.contains currKeyPoint.pt.toPoint then
        match vecAt kptsPrev m.queryIdx with
        | none => none
        | some prevKeyPoint =>
          match roiDistances norm smallerBox_c kptsPrev kptsCurr rest with
          | none => none
          | some ds => some (norm (currKeyPoint.pt.sub prevKeyPoint.pt) :: ds)
      else roiDistances norm smallerBox_c kptsPrev kptsCurr rest

/-- Lines 171-189: the second loop, which pushes the current keypoint and the
match of every in-rectangle match whose displacement is below the augmented
mean. -/
def keepInliers (norm : Point2f → ℚ) (smallerBox_c : Rect) (augmentedMean : Dbl)
    (kptsPrev kptsCurr : List KeyPoint) (boundingBox : BoundingBox) :
    List DMatch → Option BoundingBox
  | [] => some boundingBox
  | m :: rest =>
    match vecAt kptsCurr m.trainIdx with
    | none => none
    | some currKeyPoint =>
      if smallerBox_c.contains currKeyPoint.pt.toPoint then
        match vecAt kptsPrev m.queryIdx with
        | none => none
        | some prevKeyPoint =>
          if Dbl.finLt (norm (currKeyPoint.pt.sub prevKeyPoint.pt)) augmentedMean then
            keepInliers norm smallerBox_c augmentedMean kptsPrev kptsCurr
              { boundingBox with
                keypoints := boundingBox.keypoints ++ [currKeyPoint]
                kptMatches := boundingBox.kptMatches ++ [m] } rest
          else keepInliers norm smallerBox_c augmentedMean kptsPrev kptsCurr boundingBox rest
      else keepInliers norm smallerBox_c augmentedMean kptsPrev kptsCurr boundingBox rest

/-- Line 169: `accumulate(...) / pair_num`; with no distance it is `0.0 / 0`. -/
def euclideanDistanceMean (euclideanDistance : List ℚ) : Dbl :=
  Dbl.div (Dbl.fin euclideanDistance.sum) (Dbl.fin (euclideanDistance.length : ℚ))

/-- Lines 139-191 in exact arithmetic: the box after the call when the sum, the
mean and the product by 1.3 of lines 169 and 182 are not rounded (the
`std::cout` line is left out).  `clusterKptMatchesWithROI_binary64` is the same
function with the `double` rounding of these lines. -/
def clusterKptMatchesWithROI (norm : Point2f → ℚ) (boundingBox : BoundingBox)
    (kptsPrev kptsCurr : List KeyPoint) (kptMatches : List DMatch) : Option BoundingBox :=
  let smallerBox_c := shrinkRect boundingBox.roi (15 / 100)
  match roiDistances norm smallerBox_c kptsPrev kptsCurr kptMatches with
  | none => none
  | some euclideanDistance =>
    keepInliers norm smallerBox_c
      (Dbl.mul (euclideanDistanceMean euclideanDistance) (Dbl.fin (13 / 10)))
      kptsPrev kptsCurr boundingBox kptMatches

/-- A floating value rounded to `double`; NaN and the infinities are kept. -/
def Dbl.round64 : Dbl → Dbl
  | Dbl.fin v => Dbl.fin (fl64 v)
  | d => d

/-- Line 169, `std::accumulate(begin, end, 0.0)` on `double` values: every
addition is rounded. -/
def accumulateDouble (v : List ℚ) : ℚ :=
  v.foldl (fun a x => fl64 (a + x)) 0

/-- Line 169 in `double`: the accumulated sum divided by `pair_num`, rounded;
with no distance it is `0.0 / 0`. -/
def euclideanDistanceMeanDouble (euclideanDistance : List ℚ) : Dbl :=
  Dbl.round64 (Dbl.div (Dbl.fin (accumulateDouble euclideanDistance))
    (Dbl.fin (euclideanDistance.length : ℚ)))

/-- Line 182 in `double`: the mean times the `double` nearest to 1.3,
rounded. -/
def euclideanDistanceMean_Augment (euclideanDistance : List ℚ) : Dbl :=
  Dbl.round64 (Dbl.mul (euclideanDistanceMeanDouble euclideanDistance) (Dbl.fin (fl64 (13 / 10))))

/-- Lines 139-191 with the `double` arithmetic of lines 169 and 182: the box
after the call (the `std::cout` line is left out).  The distances are the
`double` values `norm` returns. -/
def clusterKptMatchesWithROI_binary64 (norm : Point2f → ℚ) (boundingBox : BoundingBox)
    (kptsPrev kptsCurr : List KeyPoint) (kptMatches : List DMatch) : Option BoundingBox :=
  let smallerBox_c := shrinkRect boundingBox.roi (15 / 100)
  match roiDistances norm smallerBox_c kptsPrev kptsCurr kptMatches with
  | none => none
  | some euclideanDistance =>
    keepInliers norm smallerBox_c (euclideanDistanceMean_Augment euclideanDistance)
      kptsPrev kptsCurr boundingBox kptMatches

/-! ## `computeTTCCamera` -/

/-- The checked access `v.at(i)`: no value outside the vector (the call
throws). -/
def vecAtChecked {α : Type} (v : List α) (i : Int) : Option α :=
  vecAt v i

/-- Value of `std::numeric_limits<double>::epsilon()`. -/
def dblEpsilon : ℚ := 1 / 2 ^ 52

/-- Lines 204-218: the inner loop for one outer match; the ratios it pushes,
in order. -/
def innerRatios (norm : Point2f → ℚ) (kptsPrev kptsCurr : List KeyPoint)
    (kpOuterCurr kpOuterPrev : KeyPoint) : List DMatch → Option (List ℚ)
  | [] => some []
  | m2 :: rest =>
    match vecAtChecked kptsCurr m2.trainIdx, vecAtChecked kptsPrev m2.queryIdx with
    | some kpInnerCurr, some kpInnerPrev =>
      match innerRatios norm kptsPrev kptsCurr kpOuterCurr kpOuterPrev rest with
      | none => none
      | some rs =>
        let distCurr := norm (kpOuterCurr.pt.sub kpInnerCurr.pt)
        let distPrev := norm (kpOuterPrev.pt.sub kpInnerPrev.pt)
        if dblEpsilon < distPrev ∧ 100 ≤ distCurr then some (distCurr / distPrev :: rs)
        else some rs
    | _, _ => none

/-- Lines 199-219 once the range of the outer loop is fixed: `outer` is what is
left of that range and `all` the corresponding tail of the whole vector, so
that the inner loop runs over what follows the outer match up to `end()`. -/
def outerRatios (norm : Point2f → ℚ) (kptsPrev kptsCurr : List KeyPoint) :
    List DMatch → List DMatch → Option (List ℚ)
  | [], _ => some []
  | _ :: _, [] => some []
  | m1 :: outerRest, _ :: allRest =>
    match vecAtChecked kptsCurr m1.trainIdx, vecAtChecked kptsPrev m1.queryIdx with
    | some kpOuterCurr, some kpOuterPrev =>
      match innerRatios norm kptsPrev kptsCurr kpOuterCurr kpOuterPrev allRest with
      | none => none
      | some rs =>
        match outerRatios norm kptsPrev kptsCurr outerRest allRest with
        | none => none
        | some more => some (rs ++ more)
    | _, _ => none

/-- Lines 198-219: the vector `distRatios` after the two loops. -/
def distRatios (norm : Point2f → ℚ) (kptsPrev kptsCurr : List KeyPoint)
    (kptMatches : List DMatch) : Option (List ℚ) :=
  match beginToEndMinusOne kptMatches with
  | none => none
  | some outer => outerRatios norm kptsPrev kptsCurr outer kptMatches

/-- Lines 227-229: the median of the sorted ratios. -/
def medDistRatio (ratios : List ℚ) : ℚ :=
  let sorted := ratios.insertionSort (· ≤ ·)
  let medIndex := sorted.length / 2
  if sorted.length % 2 = 0 then (sorted.getD (medIndex - 1) 0 + sorted.getD medIndex 0) / 2
  else sorted.getD medIndex 0

/-- Lines 195-232: the value stored in `TTC`. -/
def computeTTCCamera (norm : Point2f → ℚ) (kptsPrev kptsCurr : List KeyPoint)
    (kptMatches : List DMatch) (frameRate : ℚ) : Option Dbl :=
  match distRatios norm kptsPrev kptsCurr kptMatches with
  | none => none
  | some ratios =>
    if ratios.length = 0 then some Dbl.nan
    else
      let dT := Dbl.div (Dbl.fin 1) (Dbl.fin frameRate)
      some (Dbl.div (Dbl.neg dT) (Dbl.fin (1 - medDistRatio ratios)))

/-! ## `computeTTCLidar` -/

/-- Lines 244 and 248: the `x` of the points with `abs(y) < lane_wide / 2`,
where `lane_wide / 2` is the integer `2`. -/
def egoLaneX (points : List LidarPoint) : List ℚ :=
  (points.filter fun p => decide (|p.y| < 2)).map fun p => p.x

/-- Lines 242-249, for one of the two vectors: the `x` values pushed by the loop
over `begin() .. end() - 1`. -/
def collectedEgoLaneX (lidarPoints : List LidarPoint) : Option (List ℚ) :=
  match beginToEndMinusOne lidarPoints with
  | none => none
  | some visited => some (egoLaneX visited)

/-- Lines 256-264: a loop `acc += v[i]` from the value `acc` holds on entry. -/
def accumulateFrom (acc : ℚ) (v : List ℚ) : ℚ :=
  v.foldl (fun a x => a + x) acc

/-- Lines 256-273, for one of the two accumulators: the sum accumulated from
the value the variable holds on entry, divided by the size. -/
def laneStatistic (acc0 : ℚ) (xs : List ℚ) : ℚ :=
  accumulateFrom acc0 xs / (xs.length : ℚ)

/-- Lines 235-279: the value stored in `TTC`.  `min_px` and `min_cx` are
declared without an initial value (line 251) and are first used by `+=`; the
values they hold at that moment are the parameters `min_px0` and `min_cx0`. -/
def computeTTCLidar (min_px0 min_cx0 : ℚ) (lidarPointsPrev lidarPointsCurr : List LidarPoint)
    (frameRate : ℚ) : Option Dbl :=
  match collectedEgoLaneX lidarPointsPrev, collectedEgoLaneX lidarPointsCurr with
  | some ppx, some pcx =>
    if 0 < ppx.length ∧ 0 < pcx.length then
      let min_px := laneStatistic min_px0 ppx
      let min_cx := laneStatistic min_cx0 pcx
      let dt := Dbl.div (Dbl.fin 1) (Dbl.fin frameRate)
      some (Dbl.div (Dbl.mul (Dbl.fin min_cx) dt) (Dbl.fin (min_px - min_cx)))
    else some Dbl.nan
  | _, _ => none

/-! ## `matchBoundingBoxes` -/

/-- Construction `cv::Point(pt.x, pt.y)` from two `float` arguments: each is
converted to `int` by truncation. -/
def Point2f.truncate (p : Point2f) : Point :=
  { x := truncToInt p.x, y := truncToInt p.y }

/-- Lines 304-320: the positions of the boxes whose (original) rectangle
contains the pixel, in box order. -/
def boxesContaining (boundingBoxes : List BoundingBox) (pt : Point) : List Nat :=
  (List.range boundingBoxes.length).filter fun i =>
    match boundingBoxes[i]? with
    | some b => b.roi.contains pt
    | none => false

/-- The table `pt_counts[p][c]`, read as a function of the two positions. -/
abbrev Counts := Nat → Nat → Int

/-- Line 328: `pt_counts[id_prev][id_curr] += 1`. -/
def Counts.increment (T : Counts) (id_prev id_curr : Nat) : Counts :=
  fun i j => if i = id_prev ∧ j = id_curr then T i j + 1 else T i j

/-- Lines 295-332: the body of the loop over the matches, for one match. -/
def voteMatch (prevFrame currFrame : DataFrame) (T : Counts) (m : DMatch) : Option Counts :=
  match vecAt prevFrame.keypoints m.queryIdx, vecAt currFrame.keypoints m.trainIdx with
  | some query, some train =>
    let query_id := boxesContaining prevFrame.boundingBoxes query.pt.truncate
    let train_id := boxesContaining currFrame.boundingBoxes train.pt.truncate
    if query_id ≠ [] ∧ train_id ≠ [] then
      some (query_id.foldl
        (fun T1 id_prev => train_id.foldl (fun T2 id_curr => T2.increment id_prev id_curr) T1) T)
    else some T
  | _, _ => none

/-- The loop over a range of matches, from the table `T`. -/
def voteMatches (prevFrame currFrame : DataFrame) (T : Counts) : List DMatch → Option Counts
  | [] => some T
  | m :: rest =>
    match voteMatch prevFrame currFrame T m with
    | none => none
    | some T1 => voteMatches prevFrame currFrame T1 rest

/-- Lines 289-333: the table `pt_counts` when the loop over
`matches.begin() .. matches.end() - 1` is done. -/
def voteTable (matchList : List DMatch) (prevFrame currFrame : DataFrame) : Option Counts :=
  match beginToEndMinusOne matchList with
  | none => none
  | some visited => voteMatches prevFrame currFrame (fun _ _ => 0) visited

/-- Lines 337-346: the pair `(max_count, id_max)` after the loop over `j < c`. -/
def rowMax (T : Counts) (i c : Nat) : Int × Nat :=
  (List.range c).foldl
    (fun (acc : Int × Nat) j => if acc.1 < T i j then (T i j, j) else acc) (0, 0)

/-- A `std::map<int, int>`, read as a lookup function. -/
abbrev BoxMap := Int → Option Int

/-- The assignment `m[k] = v`. -/
def BoxMap.set (m : BoxMap) (k v : Int) : BoxMap :=
  fun k' => if k' = k then some v else m k'

/-- Lines 335-348: `bbBestMatches[i] = id_max` for every row. -/
def writeBestMatches (T : Counts) (p c : Nat) (bbBestMatches : BoxMap) : BoxMap :=
  (List.range p).foldl
    (fun (m : BoxMap) (i : Nat) => m.set (i : Int) ((rowMax T i c).2 : Int)) bbBestMatches

/-- Lines 282-349: the map `bbBestMatches` after the call; `matchList` is the
parameter `matches`. -/
def matchBoundingBoxes (matchList : List DMatch) (bbBestMatches : BoxMap)
    (prevFrame currFrame : DataFrame) : Option BoxMap :=
  let p := prevFrame.boundingBoxes.length
  let c := currFrame.boundingBoxes.length
  match voteTable matchList prevFrame currFrame with
  | none => none
  | some pt_counts => some (writeBestMatches pt_counts p c bbBestMatches)

/-! ## Vocabulary of the claims -/

/-- A match is valid for two keypoint vectors when both indices are in range
(spec, section 3). -/
def DMatch.valid (m : DMatch) (kptsPrev kptsCurr : List KeyPoint) : Prop :=
  0 ≤ m.queryIdx ∧ m.queryIdx < kptsPrev.length ∧ 0 ≤ m.trainIdx ∧ m.trainIdx < kptsCurr.length

instance DMatch.valid_decidable (m : DMatch) (kptsPrev kptsCurr : List KeyPoint) :
    Decidable (m.valid kptsPrev kptsCurr) :=
  inferInstanceAs (Decidable (_ ∧ _))

/-- The keypoint `kps[idx]` exists and its pixel, as `matchBoundingBoxes`
builds it, lies in the original rectangle of box `b` of `boxes`. -/
def keypointInBox (kps : List KeyPoint) (boxes : List BoundingBox) (idx : Int) (b : Nat) : Bool :=
  match vecAt kps idx, boxes[b]? with
  | some kp, some box => box.roi.contains kp.pt.truncate
  | _, _ => false

/-- The match has its previous keypoint in previous box `i` and its current
keypoint in current box `j`. -/
def supportsPair (prevFrame currFrame : DataFrame) (i j : Nat) (m : DMatch) : Bool :=
  keypointInBox prevFrame.keypoints prevFrame.boundingBoxes m.queryIdx i &&
    keypointInBox currFrame.keypoints currFrame.boundingBoxes m.trainIdx j

/-- Number of matches of a list that support the pair `(i, j)`. -/
def supportCount (prevFrame currFrame : DataFrame) (i j : Nat) (ms : List DMatch) : Int :=
  ((ms.countP (supportsPair prevFrame currFrame i j) : Nat) : Int)

/-- Scenario S5, first kind of match: previous keypoint in box `A` only, current
keypoint in box `X` only. -/
def inAOnlyAndXOnly (prevFrame currFrame : DataFrame) (A X : Nat) (m : DMatch) : Prop :=
  (∀ i, i < prevFrame.boundingBoxes.length →
    (keypointInBox prevFrame.keypoints prevFrame.boundingBoxes m.queryIdx i = true ↔ i = A)) ∧
  (∀ j, j < currFrame.boundingBoxes.length →
    (keypointInBox currFrame.keypoints currFrame.boundingBoxes m.trainIdx j = true ↔ j = X))

instance inAOnlyAndXOnly_decidable (prevFrame currFrame : DataFrame) (A X : Nat) (m : DMatch) :
    Decidable (inAOnlyAndXOnly prevFrame currFrame A X m) :=
  inferInstanceAs (Decidable (_ ∧ _))

/-- Scenario S5, second kind of match: previous keypoint in both `A` and `B`
(and in no other box), current keypoint in box `Y` only. -/
def inABAndYOnly (prevFrame currFrame : DataFrame) (A B Y : Nat) (m : DMatch) : Prop :=
  (∀ i, i < prevFrame.boundingBoxes.length →
    (keypointInBox prevFrame.keypoints prevFrame.boundingBoxes m.queryIdx i = true ↔
      (i = A ∨ i = B))) ∧
  (∀ j, j < currFrame.boundingBoxes.length →
    (keypointInBox currFrame.keypoints currFrame.boundingBoxes m.trainIdx j = true ↔ j = Y))

instance inABAndYOnly_decidable (prevFrame currFrame : DataFrame) (A B Y : Nat) (m : DMatch) :
    Decidable (inABAndYOnly prevFrame currFrame A B Y m) :=
  inferInstanceAs (Decidable (_ ∧ _))

/-- The current keypoint of the match exists and lies in the rectangle of the
box shrunk by 0.15, as `clusterKptMatchesWithROI` tests it. -/
def currKeypointInShrunkROI (boundingBox : BoundingBox) (kptsCurr : List KeyPoint)
    (m : DMatch) : Bool :=
  match vecAt kptsCurr m.trainIdx with
  | some kp => (shrinkRect boundingBox.roi (15 / 100)).contains kp.pt.toPoint
  | none => false

/-- The displacement `d_m` of a match: the distance between its current and
its previous keypoint (`0` when a keypoint is missing). -/
def matchDisplacement (norm : Point2f → ℚ) (kptsPrev kptsCurr : List KeyPoint)
    (m : DMatch) : ℚ :=
  match vecAt kptsCurr m.trainIdx, vecAt kptsPrev m.queryIdx with
  | some kc, some kp => norm (kc.pt.sub kp.pt)
  | _, _ => 0

/-- The arithmetic mean of the displacement over the matches whose current
keypoint lies in the shrunk rectangle. -/
def meanDisplacementInROI (norm : Point2f → ℚ) (boundingBox : BoundingBox)
    (kptsPrev kptsCurr : List KeyPoint) (ms : List DMatch) : ℚ :=
  ((ms.filter (currKeypointInShrunkROI boundingBox kptsCurr)).map
      (matchDisplacement norm kptsPrev kptsCurr)).sum /
    ((ms.filter (currKeypointInShrunkROI boundingBox kptsCurr)).length : ℚ)

/-- The point lies in the ego lane: `|y| < 2`. -/
def inEgoLane (p : LidarPoint) : Bool :=
  decide (|p.y| < 2)

/-- The arithmetic mean of `x` over all ego-lane points of a list. -/
def laneMeanX (points : List LidarPoint) : ℚ :=
  ((points.filter inEgoLane).map fun p => p.x).sum / ((points.filter inEgoLane).length : ℚ)

/-- The spec's words (section 4.5): `mean_curr * (1 / frameRate) /
(mean_prev - mean_curr)` with the means taken over all ego-lane points. -/
def ttcLidarMandated (prev curr : List LidarPoint) (frameRate : ℚ) : ℚ :=
  laneMeanX curr * (1 / frameRate) / (laneMeanX prev - laneMeanX curr)

/-- The point with its `x` coordinate multiplied by `k`. -/
def LidarPoint.scaleX (k : ℚ) (p : LidarPoint) : LidarPoint :=
  { p with x := k * p.x }

/-- The keypoint moved by the offset `(du, dv)`. -/
def KeyPoint.translate (du dv : ℚ) (kp : KeyPoint) : KeyPoint :=
  { pt := { x := kp.pt.x + du, y := kp.pt.y + dv } }

/-- Everything of a box but its `lidarPoints`: identifier, rectangle, keypoints
and keypoint matches. -/
def BoundingBox.frame (b : BoundingBox) : Int × Rect × List KeyPoint × List DMatch :=
  (b.boxID, b.roi, b.keypoints, b.kptMatches)

/-- The current and the previous keypoint of a match, when both exist. -/
def matchKeypoints (kptsPrev kptsCurr : List KeyPoint) (m : DMatch) :
    Option (KeyPoint × KeyPoint) :=
  match vecAt kptsCurr m.trainIdx, vecAt kptsPrev m.queryIdx with
  | some kc, some kp => some (kc, kp)
  | _, _ => none

/-- The ratio `d_curr / d_prev` of a pair of matches whose keypoints exist,
when `d_prev > epsilon` and `d_curr ≥ 100`; no ratio otherwise. -/
def pairRatio (norm : Point2f → ℚ) (kptsPrev kptsCurr : List KeyPoint) (m1 m2 : DMatch) :
    Option ℚ :=
  match matchKeypoints kptsPrev kptsCurr m1, matchKeypoints kptsPrev kptsCurr m2 with
  | some a, some b =>
    if dblEpsilon < norm (a.2.pt.sub b.2.pt) ∧ 100 ≤ norm (a.1.pt.sub b.1.pt) then
      some (norm (a.1.pt.sub b.1.pt) / norm (a.2.pt.sub b.2.pt))
    else none
  | _, _ => none

/-- The unordered pairs of distinct positions below `n`, each once as `(i, j)`
with `i < j`, by ascending `i` and then ascending `j`. -/
def pairPositions (n : Nat) : List (Nat × Nat) :=
  (List.range n).flatMap fun i => (List.range' (i + 1) (n - (i + 1))).map fun j => (i, j)

/-- The spec's words (section 4.6, step 1): the ratio recorded for every
unordered pair of distinct positions of the match list. -/
def mandatedRatios (norm : Point2f → ℚ) (kptsPrev kptsCurr : List KeyPoint)
    (ms : List DMatch) : List ℚ :=
  (pairPositions ms.length).filterMap fun ij =>
    match ms[ij.1]?, ms[ij.2]? with
    | some m1, some m2 => pairRatio norm kptsPrev kptsCurr m1 m2
    | _, _ => none

/-- What `f` yields on every element paired with every later element of a
list. -/
def pairsBy {α β : Type} (f : α → α → Option β) : List α → List β
  | [] => []
  | a :: t => t.filterMap (f a) ++ pairsBy f t

/-- The value `r` is the median of `rs`: the middle element of the sorted
values for an odd count, the mean of the two middle elements for an even
count. -/
def IsMedianOf (r : ℚ) (rs : List ℚ) : Prop :=
  ∃ sorted : List ℚ, sorted.Perm rs ∧ sorted.Sorted (fun a b => a ≤ b) ∧
    r = if sorted.length % 2 = 1 then sorted.getD (sorted.length / 2) 0
      else (sorted.getD (sorted.length / 2 - 1) 0 + sorted.getD (sorted.length / 2) 0) / 2

/-- The threshold of line 182 as the function computes it in `double`, from
the matches whose current keypoint lies in the shrunk rectangle: the rounded
product of 1.3 and the rounded mean of the rounded running sum. -/
def computedInlierThreshold (norm : Point2f → ℚ) (boundingBox : BoundingBox)
    (kptsPrev kptsCurr : List KeyPoint) (ms : List DMatch) : ℚ :=
  fl64 (fl64 (accumulateDouble
      ((ms.filter (currKeypointInShrunkROI boundingBox kptsCurr)).map
        (matchDisplacement norm kptsPrev kptsCurr)) /
      ((ms.filter (currKeypointInShrunkROI boundingBox kptsCurr)).length : ℚ)) *
    fl64 (13 / 10))

/-- The empty `std::map`. -/
def BoxMap.empty : BoxMap := fun _ => none

/-! ## Concrete scenarios -/

/-- A calibration under which the point `(x, y, z)` has the pixel
`(x / z, y / z)`. -/
def pinholeCalib : Calibration :=
  { P_rect_xx := fun i j => if i.val = j.val then 1 else 0
    R_rect_xx := fun i j => if i.val = j.val then 1 else 0
    RT := fun i j => if i.val = j.val then 1 else 0 }

/-- An empty box with the given identifier and rectangle. -/
def emptyBox (boxID x y width height : Int) : BoundingBox :=
  { boxID := boxID, roi := { x := x, y := y, width := width, height := height },
    lidarPoints := [], keypoints := [], kptMatches := [] }

/-- Scenario S6: two overlapping boxes. -/
def s6Boxes : List BoundingBox :=
  [emptyBox 1 0 0 200 200, emptyBox 2 50 50 200 200]

/-- Scenario S6: a point of box 1 only, the ambiguous point with pixel
`(100, 100)`, a point of no box and a point of box 2 only. -/
def s6Points : List LidarPoint :=
  [{ x := 20, y := 20, z := 1, r := 0 }, { x := 100, y := 100, z := 1, r := 0 },
   { x := 300, y := 300, z := 1, r := 0 }, { x := 230, y := 230, z := 1, r := 0 }]

/-- A keypoint at the given position. -/
def keyPointAt (x y : ℚ) : KeyPoint :=
  { pt := { x := x, y := y } }

/-- Scenario S5, previous frame: boxes `A` (position 0) and `B` (position 1);
keypoint 0 lies in `A` only, keypoint 1 in both, keypoint 2 in neither. -/
def s5Prev : DataFrame :=
  { keypoints := [keyPointAt 10 10, keyPointAt 60 60, keyPointAt 500 500]
    boundingBoxes := [emptyBox 0 0 0 100 100, emptyBox 1 50 50 100 100] }

/-- Scenario S5, current frame: boxes `X` (position 0) and `Y` (position 1);
keypoint 0 lies in `X` only, keypoint 1 in `Y` only, keypoint 2 in neither. -/
def s5Curr : DataFrame :=
  { keypoints := [keyPointAt 20 20, keyPointAt 210 210, keyPointAt 500 500]
    boundingBoxes := [emptyBox 0 0 0 100 100, emptyBox 1 200 200 50 50] }

/-- Scenario S5: eight matches of the first kind and two of the second, one of
the latter coming last. -/
def s5Matches : List DMatch :=
  [{ queryIdx := 0, trainIdx := 0 }, { queryIdx := 0, trainIdx := 0 },
   { queryIdx := 1, trainIdx := 1 }, { queryIdx := 0, trainIdx := 0 },
   { queryIdx := 0, trainIdx := 0 }, { queryIdx := 0, trainIdx := 0 },
   { queryIdx := 0, trainIdx := 0 }, { queryIdx := 0, trainIdx := 0 },
   { queryIdx := 0, trainIdx := 0 }, { queryIdx := 1, trainIdx := 1 }]

/-- Two matches between keypoints that lie in no box of either frame. -/
def unsupportedMatches : List DMatch :=
  [{ queryIdx := 2, trainIdx := 2 }, { queryIdx := 2, trainIdx := 2 }]

/-- A stand-in for `cv::norm` in the examples: it is the Euclidean length on
the axis-parallel vectors the examples use. -/
def axisNorm (p : Point2f) : ℚ :=
  |p.x| + |p.y|

/-- Keypoints of a previous frame, for `clusterKptMatchesWithROI`. -/
def flowPrev : List KeyPoint :=
  [keyPointAt 10 10, keyPointAt 20 20, keyPointAt 30 30, keyPointAt 300 300]

/-- Keypoints of the current frame: displacements 1, 1 and 10 inside the box,
and one keypoint outside it. -/
def flowCurr : List KeyPoint :=
  [keyPointAt 11 10, keyPointAt 21 20, keyPointAt 40 30, keyPointAt 301 300]

/-- One match per keypoint. -/
def flowMatches : List DMatch :=
  [{ queryIdx := 0, trainIdx := 0 }, { queryIdx := 1, trainIdx := 1 },
   { queryIdx := 2, trainIdx := 2 }, { queryIdx := 3, trainIdx := 3 }]

/-- A Lidar point with the given `x` and `y` (and `z = 0`, `r = 0`). -/
def lidarAt (x y : ℚ) : LidarPoint :=
  { x := x, y := y, z := 0, r := 0 }

/-- Scenario S1, previous scan. -/
def s1Prev : List LidarPoint := [lidarAt 8 0]

/-- Scenario S1, current scan. -/
def s1Curr : List LidarPoint := [lidarAt (15 / 2) 0]

/-- Scenario S3, previous scan: the point of S1 and a point outside the lane. -/
def s3Prev : List LidarPoint := [lidarAt 8 0, lidarAt 8 3]

/-- Scenario S3, current scan. -/
def s3Curr : List LidarPoint := [lidarAt (15 / 2) 0, lidarAt (15 / 2) 3]

/-- A target that recedes from 7.0 to 7.2, two ego-lane points in each scan. -/
def recedingPrev : List LidarPoint := [lidarAt 7 0, lidarAt 7 0]

/-- The current scan of the receding target. -/
def recedingCurr : List LidarPoint := [lidarAt (36 / 5) 0, lidarAt (36 / 5) 0]

/-- A target that approaches from 8.0 to 7.5, two ego-lane points in each
scan. -/
def approachPrev : List LidarPoint := [lidarAt 8 0, lidarAt 8 0]

/-- The current scan of the approaching target. -/
def approachCurr : List LidarPoint := [lidarAt (15 / 2) 0, lidarAt (15 / 2) 0]

/-- Scenario S4, previous frame: two keypoints on the circle of radius 100
around the image centre `(500, 300)`, on its horizontal diameter. -/
def zoomPrev : List KeyPoint := [keyPointAt 400 300, keyPointAt 600 300]

/-- Scenario S4, current frame: the same keypoints on the circle of radius
110. -/
def zoomCurr : List KeyPoint := [keyPointAt 390 300, keyPointAt 610 300]

/-- Scenario S4: one match per keypoint. -/
def zoomMatches : List DMatch :=
  [{ queryIdx := 0, trainIdx := 0 }, { queryIdx := 1, trainIdx := 1 }]

/-- The rectangle `(0, 0, 10, 10)`. -/
def tenRect : Rect := { x := 0, y := 0, width := 10, height := 10 }

/-- The pixel `(0, 5)`, on the left edge of `tenRect`. -/
def leftEdgePixel : Point := { x := 0, y := 5 }

/-- The pixel `(9, 5)`, in the last column of `tenRect`. -/
def rightEdgePixel : Point := { x := 9, y := 5 }

/-- Scenario S4 with the two matches in the other order. -/
def zoomMatchesSwapped : List DMatch :=
  [{ queryIdx := 1, trainIdx := 1 }, { queryIdx := 0, trainIdx := 0 }]

/-- The `float` nearest to 0.1. -/
def tenthFloat : ℚ := fl32 (1 / 10)

/-- The rectangle `(-16, 0, 200, 100)`. -/
def offsetRect : Rect := { x := -16, y := 0, width := 200, height := 100 }

/-- Keypoints of a previous frame, for the threshold of
`clusterKptMatchesWithROI`. -/
def tiePrev : List KeyPoint := [keyPointAt 20 20, keyPointAt 20 40]

/-- Keypoints of the current frame: displacement 7 for keypoint 0 and 5.25 for
keypoint 1. -/
def tieCurr : List KeyPoint := [keyPointAt 27 20, keyPointAt (101 / 4) 40]

/-- One match with displacement 7 and twelve with displacement 5.25: the mean
is `70 / 13` and 1.3 times the mean is exactly 7. -/
def tieMatches : List DMatch :=
  { queryIdx := 0, trainIdx := 0 } ::
    List.replicate 12 { queryIdx := 1, trainIdx := 1 }

/-! # Theorems -/

/-! ## Lemmas on `clusterLidarWithROI` -/

theorem singleton_iff_of_nodup {l : List Nat} (hl : l.Nodup) (a : Nat) :
    l = [a] ↔ a ∈ l ∧ ∀ x ∈ l, x = a := by
  constructor
  · rintro rfl
    simp
  · rintro ⟨ha, hall⟩
    match l, hl, ha, hall with
    | [x], _, ha, _ => rw [List.mem_singleton.1 ha]
    | x :: y :: t, hl, _, hall =>
      exfalso
      have hx : x = a := hall x (by simp)
      have hy : y = a := hall y (by simp)
      rw [List.nodup_cons] at hl
      exact hl.1 (by simp [hx, hy])

theorem enclosingBoxes_nodup (boxes : List BoundingBox) (s : ℚ) (pt : Point) :
    (enclosingBoxes boxes s pt).Nodup :=
  (List.nodup_range _).filter _

theorem mem_enclosingBoxes {boxes : List BoundingBox} {s : ℚ} {pt : Point} {i : Nat} :
    i ∈ enclosingBoxes boxes s pt ↔
      ∃ b, boxes[i]? = some b ∧ (shrinkRect b.roi s).contains pt = true := by
  unfold enclosingBoxes
  rw [List.mem_filter, List.mem_range]
  constructor
  · rintro ⟨_, h⟩
    cases hb : boxes[i]? with
    | none => simp [hb] at h
    | some b => exact ⟨b, rfl, by simpa [hb] using h⟩
  · rintro ⟨b, hb, hc⟩
    refine ⟨?_, by simp [hb, hc]⟩
    by_contra hlt
    rw [List.getElem?_eq_none (by omega)] at hb
    cases hb

theorem inShrunkROI_iff_mem {boxes : List BoundingBox} {s : ℚ} {calib : Calibration}
    {p : LidarPoint} {pt : Point} (hpt : projectToPixel calib p = some pt) (b : Nat) :
    inShrunkROI boxes s calib b p = true ↔ b ∈ enclosingBoxes boxes s pt := by
  rw [mem_enclosingBoxes]
  unfold inShrunkROI
  cases hb : boxes[b]? with
  | none => simp [hpt]
  | some box => simp [hpt]

theorem enclosingBoxes_eq_singleton_iff {boxes : List BoundingBox} {s : ℚ}
    (calib : Calibration) {p : LidarPoint} {pt : Point}
    (hpt : projectToPixel calib p = some pt) (b : Nat) :
    enclosingBoxes boxes s pt = [b] ↔ onlyEnclosingBox boxes s calib b p := by
  rw [singleton_iff_of_nodup (enclosingBoxes_nodup boxes s pt), onlyEnclosingBox,
    inShrunkROI_iff_mem hpt]
  constructor
  · rintro ⟨h1, h2⟩
    exact ⟨h1, fun b' _ hb' => h2 b' ((inShrunkROI_iff_mem hpt b').1 hb')⟩
  · rintro ⟨h1, h2⟩
    refine ⟨h1, fun b' hb' => h2 b' ?_ ((inShrunkROI_iff_mem hpt b').2 hb')⟩
    obtain ⟨box, hbox, _⟩ := mem_enclosingBoxes.1 hb'
    by_contra hlt
    rw [List.getElem?_eq_none (by omega)] at hbox
    cases hbox

theorem getElem?_roi_of_map_eq {boxes boxes' : List BoundingBox}
    (h : boxes'.map (fun b => b.roi) = boxes.map (fun b => b.roi)) (i : Nat) :
    (boxes'[i]?).map (fun b => b.roi) = (boxes[i]?).map (fun b => b.roi) := by
  have := congrArg (fun l => l[i]?) h
  simpa [List.getElem?_map] using this

theorem inShrunkROI_congr {boxes boxes' : List BoundingBox}
    (h : boxes'.map (fun b => b.roi) = boxes.map (fun b => b.roi)) (s : ℚ)
    (calib : Calibration) (b : Nat) (p : LidarPoint) :
    inShrunkROI boxes' s calib b p = inShrunkROI boxes s calib b p := by
  have hb := getElem?_roi_of_map_eq h b
  unfold inShrunkROI
  cases h1 : boxes'[b]? <;> cases h2 : boxes[b]? <;> simp [h1, h2] at hb ⊢
  cases projectToPixel calib p <;> simp [hb]

theorem onlyEnclosingBox_congr {boxes boxes' : List BoundingBox}
    (h : boxes'.map (fun b => b.roi) = boxes.map (fun b => b.roi)) (s : ℚ)
    (calib : Calibration) (b : Nat) (p : LidarPoint) :
    onlyEnclosingBox boxes' s calib b p ↔ onlyEnclosingBox boxes s calib b p := by
  have hlen : boxes'.length = boxes.length := by
    simpa using congrArg List.length h
  unfold onlyEnclosingBox
  simp only [inShrunkROI_congr h, hlen]

theorem assignLidarPoint_roi (boxes : List BoundingBox) (s : ℚ) (p : LidarPoint) (pt : Point) :
    (assignLidarPoint boxes s p pt).map (fun b => b.roi) = boxes.map (fun b => b.roi) := by
  unfold assignLidarPoint
  split
  · apply List.ext_getElem?
    intro n
    simp only [List.getElem?_map, List.getElem?_modify]
    split <;> cases boxes[n]? <;> simp
  · rfl

theorem assignLidarPoint_getElem? (boxes : List BoundingBox) (s : ℚ) {calib : Calibration}
    {p : LidarPoint} {pt : Point} (hpt : projectToPixel calib p = some pt) (b : Nat) :
    ((assignLidarPoint boxes s p pt)[b]?).map (fun x => x.lidarPoints) =
      (boxes[b]?).map (fun x => x.lidarPoints ++
        [p].filter (fun q => decide (onlyEnclosingBox boxes s calib b q))) := by
  unfold assignLidarPoint
  split
  · rename_i i hi
    have hi' := (enclosingBoxes_eq_singleton_iff calib hpt i).1 hi
    rw [List.getElem?_modify]
    by_cases hib : i = b
    · subst hib
      cases boxes[i]? <;> simp [hi']
    · have hnot : ¬ onlyEnclosingBox boxes s calib b p := by
        intro hb
        have := (enclosingBoxes_eq_singleton_iff calib hpt b).2 hb
        rw [hi] at this
        simp at this
        exact hib this
      cases boxes[b]? <;> simp [hib, hnot]
  · rename_i hne
    have hnot : ¬ onlyEnclosingBox boxes s calib b p := by
      intro hb
      exact hne b ((enclosingBoxes_eq_singleton_iff calib hpt b).2 hb)
    cases boxes[b]? <;> simp [hnot]

theorem clusterLidarWithROI_spec_aux (s : ℚ) (calib : Calibration) (boxes : List BoundingBox) :
    ∀ (pts : List LidarPoint) (cur : List BoundingBox),
      cur.map (fun b => b.roi) = boxes.map (fun b => b.roi) →
      (∀ p ∈ pts, projectToPixel calib p ≠ none) →
      ∃ out, clusterLidarWithROI cur pts s calib = some out ∧
        out.map (fun b => b.roi) = boxes.map (fun b => b.roi) ∧
        ∀ b, (out[b]?).map (fun x => x.lidarPoints) =
          (cur[b]?).map (fun x => x.lidarPoints ++
            pts.filter (fun q => decide (onlyEnclosingBox boxes s calib b q))) := by
  intro pts
  induction pts with
  | nil =>
    intro cur hcur _
    refine ⟨cur, rfl, hcur, fun b => ?_⟩
    cases cur[b]? <;> simp
  | cons p rest ih =>
    intro cur hcur hproj
    obtain ⟨pt, hpt⟩ := Option.ne_none_iff_exists'.1 (hproj p (by simp))
    have hroi := (assignLidarPoint_roi cur s p pt).trans hcur
    obtain ⟨out, hout, hroi', hlp⟩ :=
      ih (assignLidarPoint cur s p pt) hroi (fun q hq => hproj q (by simp [hq]))
    refine ⟨out, ?_, hroi', fun b => ?_⟩
    · rw [clusterLidarWithROI]
      simp only [hpt]
      exact hout
    · rw [hlp b]
      have hstep := assignLidarPoint_getElem? cur s hpt b
      have hdec : decide (onlyEnclosingBox cur s calib b p) =
          decide (onlyEnclosingBox boxes s calib b p) :=
        decide_eq_decide.2 (onlyEnclosingBox_congr hcur s calib b p)
      cases h1 : (assignLidarPoint cur s p pt)[b]? <;> cases h2 : cur[b]? <;>
        simp [h1, h2] at hstep ⊢
      rw [hstep, List.filter_cons]
      simp only [List.filter_cons, List.filter_nil, hdec]
      by_cases hP : onlyEnclosingBox boxes s calib b p <;> simp [hP]


theorem inShrunkROI_lt {boxes : List BoundingBox} {s : ℚ} {calib : Calibration} {b : Nat}
    {p : LidarPoint} (h : inShrunkROI boxes s calib b p = true) : b < boxes.length := by
  by_contra hb
  have hnone : boxes[b]? = none := List.getElem?_eq_none (by omega)
  simp [inShrunkROI, hnone] at h

/-! ## Claims on `clusterLidarWithROI` -/

/-- C1: when every point has a defined pixel, `clusterLidarWithROI` returns, and
for every box position `b` the new `lidarPoints` of box `b` are the old ones
followed by exactly those input points, in input order, for which `b` is the
only box whose shrunk rectangle contains the projected pixel.  A point is
appended to at most one box, and a point whose pixel lies in no shrunk
rectangle, or in those of two different boxes, is appended to none. -/
theorem clusterLidarWithROI_unique_box (boxes : List BoundingBox) (pts : List LidarPoint)
    (s : ℚ) (calib : Calibration) (hproj : ∀ p ∈ pts, projectToPixel calib p ≠ none) :
    ∃ out, clusterLidarWithROI boxes pts s calib = some out ∧
      (∀ b, (out[b]?).map (fun x => x.lidarPoints) =
        (boxes[b]?).map (fun x => x.lidarPoints ++
          pts.filter (fun q => decide (onlyEnclosingBox boxes s calib b q)))) ∧
      (∀ q b b1, onlyEnclosingBox boxes s calib b q → onlyEnclosingBox boxes s calib b1 q →
        b = b1) ∧
      (∀ q, (∀ b, inShrunkROI boxes s calib b q = false) →
        ∀ b, ¬ onlyEnclosingBox boxes s calib b q) ∧
      (∀ q b1 b2, b1 ≠ b2 → inShrunkROI boxes s calib b1 q = true →
        inShrunkROI boxes s calib b2 q = true → ∀ b, ¬ onlyEnclosingBox boxes s calib b q) := by
  obtain ⟨out, hout, _, hlp⟩ := clusterLidarWithROI_spec_aux s calib boxes pts boxes rfl hproj
  refine ⟨out, hout, hlp, ?_, ?_, ?_⟩
  · intro q b b1 hb hb1
    exact hb1.2 b (inShrunkROI_lt hb.1) hb.1
  · intro q hnone b hb
    have h1 := hb.1
    rw [hnone b] at h1
    exact Bool.false_ne_true h1
  · intro q b1 b2 hne h1 h2 b hb
    have e1 := hb.2 b1 (inShrunkROI_lt h1) h1
    have e2 := hb.2 b2 (inShrunkROI_lt h2) h2
    exact hne (e1.trans e2.symm)

/-- Witness of C1 on scenario S6 (shrink factor 1/10). -/
theorem clusterLidarWithROI_unique_box_witness :
    (∀ p ∈ s6Points, projectToPixel pinholeCalib p ≠ none) ∧
    ∃ out, clusterLidarWithROI s6Boxes s6Points (1 / 10) pinholeCalib = some out ∧
      (∀ b, (out[b]?).map (fun x => x.lidarPoints) =
        (s6Boxes[b]?).map (fun x => x.lidarPoints ++
          s6Points.filter (fun q => decide (onlyEnclosingBox s6Boxes (1 / 10) pinholeCalib b q)))) ∧
      (∀ q b b1, onlyEnclosingBox s6Boxes (1 / 10) pinholeCalib b q →
        onlyEnclosingBox s6Boxes (1 / 10) pinholeCalib b1 q → b = b1) ∧
      (∀ q, (∀ b, inShrunkROI s6Boxes (1 / 10) pinholeCalib b q = false) →
        ∀ b, ¬ onlyEnclosingBox s6Boxes (1 / 10) pinholeCalib b q) ∧
      (∀ q b1 b2, b1 ≠ b2 → inShrunkROI s6Boxes (1 / 10) pinholeCalib b1 q = true →
        inShrunkROI s6Boxes (1 / 10) pinholeCalib b2 q = true →
        ∀ b, ¬ onlyEnclosingBox s6Boxes (1 / 10) pinholeCalib b q) :=
  ⟨by decide!, clusterLidarWithROI_unique_box s6Boxes s6Points (1 / 10) pinholeCalib (by decide!)⟩

/-! ## Lemmas on `matchBoundingBoxes` -/

theorem vecAt_of_bounds {α : Type} (v : List α) (i : Int) (h0 : 0 ≤ i) (h1 : i < v.length) :
    ∃ a, vecAt v i = some a := by
  have hlt : i.toNat < v.length := by omega
  exact ⟨v[i.toNat], by simp [vecAt, h0, List.getElem?_eq_getElem hlt]⟩

theorem increment_foldl_inner (a : Nat) (l : List Nat) (hl : l.Nodup) (T : Counts) (i j : Nat) :
    (l.foldl (fun (T2 : Counts) id_curr => T2.increment a id_curr) T) i j =
      T i j + if i = a ∧ j ∈ l then 1 else 0 := by
  induction l generalizing T with
  | nil => simp
  | cons x t ih =>
    rw [List.nodup_cons] at hl
    rw [List.foldl_cons, ih hl.2]
    simp only [Counts.increment, List.mem_cons]
    have hx := hl.1
    by_cases hi : i = a <;> by_cases hj : j = x <;> by_cases hjt : j ∈ t <;> simp_all

theorem increment_foldl_outer (q t : List Nat) (hq : q.Nodup) (ht : t.Nodup) (T : Counts)
    (i j : Nat) :
    (q.foldl (fun (T1 : Counts) id_prev =>
        t.foldl (fun (T2 : Counts) id_curr => T2.increment id_prev id_curr) T1) T) i j =
      T i j + if i ∈ q ∧ j ∈ t then 1 else 0 := by
  induction q generalizing T with
  | nil => simp
  | cons x r ih =>
    rw [List.nodup_cons] at hq
    rw [List.foldl_cons, ih hq.2, increment_foldl_inner x t ht]
    simp only [List.mem_cons]
    have hx := hq.1
    by_cases hi : i = x <;> by_cases hir : i ∈ r <;> by_cases hj : j ∈ t <;> simp_all

theorem mem_boxesContaining {boxes : List BoundingBox} {pt : Point} {i : Nat} :
    i ∈ boxesContaining boxes pt ↔ ∃ b, boxes[i]? = some b ∧ b.roi.contains pt = true := by
  unfold boxesContaining
  rw [List.mem_filter, List.mem_range]
  constructor
  · rintro ⟨_, h⟩
    cases hb : boxes[i]? with
    | none => simp [hb] at h
    | some b => exact ⟨b, rfl, by simpa [hb] using h⟩
  · rintro ⟨b, hb, hc⟩
    refine ⟨?_, by simp [hb, hc]⟩
    by_contra hlt
    rw [List.getElem?_eq_none (by omega)] at hb
    cases hb

theorem boxesContaining_nodup (boxes : List BoundingBox) (pt : Point) :
    (boxesContaining boxes pt).Nodup :=
  (List.nodup_range _).filter _

theorem keypointInBox_iff_mem {kps : List KeyPoint} {boxes : List BoundingBox} {idx : Int}
    {kp : KeyPoint} (h : vecAt kps idx = some kp) (b : Nat) :
    keypointInBox kps boxes idx b = true ↔ b ∈ boxesContaining boxes kp.pt.truncate := by
  rw [mem_boxesContaining]
  unfold keypointInBox
  cases hb : boxes[b]? <;> simp [h]

theorem voteMatch_count {prevFrame currFrame : DataFrame} {T T1 : Counts} {m : DMatch}
    (h : voteMatch prevFrame currFrame T m = some T1) (i j : Nat) :
    T1 i j = T i j + if supportsPair prevFrame currFrame i j m = true then 1 else 0 := by
  unfold voteMatch at h
  cases hq : vecAt prevFrame.keypoints m.queryIdx with
  | none => simp [hq] at h
  | some query =>
    cases ht : vecAt currFrame.keypoints m.trainIdx with
    | none => simp [hq, ht] at h
    | some train =>
      simp only [hq, ht] at h
      have hsup : supportsPair prevFrame currFrame i j m = true ↔
          (i ∈ boxesContaining prevFrame.boundingBoxes query.pt.truncate ∧
            j ∈ boxesContaining currFrame.boundingBoxes train.pt.truncate) := by
        simp only [supportsPair, Bool.and_eq_true, keypointInBox_iff_mem hq,
          keypointInBox_iff_mem ht]
      split at h
      · cases h
        rw [increment_foldl_outer _ _ (boxesContaining_nodup _ _) (boxesContaining_nodup _ _)]
        simp only [hsup]
      · rename_i hne
        cases h
        have : ¬ (i ∈ boxesContaining prevFrame.boundingBoxes query.pt.truncate ∧
            j ∈ boxesContaining currFrame.boundingBoxes train.pt.truncate) := by
          rintro ⟨h1, h2⟩
          exact hne ⟨List.ne_nil_of_mem h1, List.ne_nil_of_mem h2⟩
        simp [hsup, this]

theorem voteMatches_count {prevFrame currFrame : DataFrame} :
    ∀ (ms : List DMatch) (T T1 : Counts),
      voteMatches prevFrame currFrame T ms = some T1 →
      ∀ i j, T1 i j = T i j + supportCount prevFrame currFrame i j ms := by
  intro ms
  induction ms with
  | nil =>
    intro T T1 h i j
    simp only [voteMatches, Option.some.injEq] at h
    subst h
    simp [supportCount]
  | cons m rest ih =>
    intro T T1 h i j
    rw [voteMatches] at h
    cases hm : voteMatch prevFrame currFrame T m with
    | none => simp [hm] at h
    | some T2 =>
      simp only [hm] at h
      rw [ih T2 T1 h i j, voteMatch_count hm i j]
      simp only [supportCount, List.countP_cons]
      split <;> simp
      ring

theorem voteMatches_total (prevFrame currFrame : DataFrame) :
    ∀ (ms : List DMatch) (T : Counts),
      (∀ m ∈ ms, m.valid prevFrame.keypoints currFrame.keypoints) →
      ∃ T1, voteMatches prevFrame currFrame T ms = some T1 := by
  intro ms
  induction ms with
  | nil => intro T _; exact ⟨T, rfl⟩
  | cons m rest ih =>
    intro T hv
    obtain ⟨h0, h1, h2, h3⟩ := hv m (by simp)
    obtain ⟨q, hq⟩ := vecAt_of_bounds prevFrame.keypoints m.queryIdx h0 h1
    obtain ⟨t, ht⟩ := vecAt_of_bounds currFrame.keypoints m.trainIdx h2 h3
    have : ∃ T2, voteMatch prevFrame currFrame T m = some T2 := by
      unfold voteMatch
      simp only [hq, ht]
      split <;> exact ⟨_, rfl⟩
    obtain ⟨T2, hT2⟩ := this
    obtain ⟨T1, hT1⟩ := ih T2 (fun x hx => hv x (by simp [hx]))
    exact ⟨T1, by rw [voteMatches]; simp only [hT2]; exact hT1⟩

theorem beginToEndMinusOne_of_ne_nil {α : Type} {v : List α} (h : v ≠ []) :
    beginToEndMinusOne v = some v.dropLast := by
  cases v with
  | nil => exact absurd rfl h
  | cons a t => rfl

theorem voteTable_spec {matchList : List DMatch} {prevFrame currFrame : DataFrame}
    (hne : matchList ≠ [])
    (hv : ∀ m ∈ matchList, m.valid prevFrame.keypoints currFrame.keypoints) :
    ∃ T, voteTable matchList prevFrame currFrame = some T ∧
      ∀ i j, T i j = supportCount prevFrame currFrame i j matchList.dropLast := by
  obtain ⟨T, hT⟩ := voteMatches_total prevFrame currFrame
    matchList.dropLast (fun _ _ => 0) (fun m hm => hv m (List.mem_of_mem_dropLast hm))
  refine ⟨T, ?_, fun i j => ?_⟩
  · unfold voteTable
    rw [beginToEndMinusOne_of_ne_nil hne]
    exact hT
  · rw [voteMatches_count _ _ _ hT i j]
    simp


theorem rowMax_succ (T : Counts) (i n : Nat) :
    rowMax T i (n + 1) =
      if (rowMax T i n).1 < T i n then (T i n, n) else rowMax T i n := by
  simp only [rowMax, List.range_succ, List.foldl_append, List.foldl_cons, List.foldl_nil]

theorem rowMax_spec (T : Counts) (i : Nat) (hT : ∀ j, 0 ≤ T i j) (n : Nat) :
    (∀ j1, j1 < n → T i j1 ≤ (rowMax T i n).1) ∧
    (∀ j2, j2 < (rowMax T i n).2 → T i j2 < (rowMax T i n).1) ∧
    (0 < n → (rowMax T i n).2 < n ∧ (rowMax T i n).1 = T i (rowMax T i n).2) ∧
    (n = 0 → rowMax T i n = (0, 0)) := by
  induction n with
  | zero =>
    refine ⟨fun _ h => absurd h (Nat.not_lt_zero _), ?_, fun h => absurd h (Nat.lt_irrefl _),
      fun _ => rfl⟩
    intro j2 h
    simp [rowMax] at h
  | succ n ih =>
    obtain ⟨ha, hc, hb, hz⟩ := ih
    rw [rowMax_succ]
    by_cases hlt : (rowMax T i n).1 < T i n
    · rw [if_pos hlt]
      refine ⟨?_, ?_, fun _ => ⟨Nat.lt_succ_self n, rfl⟩, fun h => absurd h (Nat.succ_ne_zero n)⟩
      · intro j1 hj1
        rcases Nat.lt_succ_iff_lt_or_eq.1 hj1 with h | h
        · exact le_of_lt (lt_of_le_of_lt (ha j1 h) hlt)
        · rw [h]
      · intro j2 hj2
        exact lt_of_le_of_lt (ha j2 hj2) hlt
    · rw [if_neg hlt]
      have hle : T i n ≤ (rowMax T i n).1 := not_lt.1 hlt
      refine ⟨?_, hc, fun _ => ?_, fun h => absurd h (Nat.succ_ne_zero n)⟩
      · intro j1 hj1
        rcases Nat.lt_succ_iff_lt_or_eq.1 hj1 with h | h
        · exact ha j1 h
        · rw [h]; exact hle
      · rcases Nat.eq_zero_or_pos n with h0 | hpos
        · have hz' := hz h0
          subst h0
          rw [hz'] at hle ⊢
          exact ⟨Nat.zero_lt_one, le_antisymm (hT 0) hle⟩
        · exact ⟨Nat.lt_succ_of_lt (hb hpos).1, (hb hpos).2⟩

theorem writeBestMatches_apply (T : Counts) (c : Nat) (bb : BoxMap) (p : Nat) (k : Int) :
    writeBestMatches T p c bb k =
      if 0 ≤ k ∧ k < p then some (((rowMax T k.toNat c).2 : Nat) : Int) else bb k := by
  induction p with
  | zero =>
    have : ¬ (0 ≤ k ∧ k < ((0 : Nat) : Int)) := by omega
    rw [if_neg this]
    rfl
  | succ p ih =>
    have hstep : writeBestMatches T (p + 1) c bb =
        (writeBestMatches T p c bb).set (p : Int) (((rowMax T p c).2 : Nat) : Int) := by
      simp only [writeBestMatches, List.range_succ, List.foldl_append, List.foldl_cons,
        List.foldl_nil]
    rw [hstep, BoxMap.set, ih]
    by_cases hk : k = (p : Int)
    · have : 0 ≤ k ∧ k < ((p + 1 : Nat) : Int) := by omega
      rw [if_pos hk, if_pos this, hk, Int.toNat_ofNat]
    · rw [if_neg hk]
      by_cases hr : 0 ≤ k ∧ k < (p : Int)
      · have : 0 ≤ k ∧ k < ((p + 1 : Nat) : Int) := ⟨hr.1, by omega⟩
        rw [if_pos hr, if_pos this]
      · have : ¬ (0 ≤ k ∧ k < ((p + 1 : Nat) : Int)) := by omega
        rw [if_neg hr, if_neg this]

theorem supportCount_nonneg (prevFrame currFrame : DataFrame) (i j : Nat) (ms : List DMatch) :
    0 ≤ supportCount prevFrame currFrame i j ms := by
  simp [supportCount]

/-- What `matchBoundingBoxes` returns on a non-empty list of valid matches. -/
theorem matchBoundingBoxes_spec (matchList : List DMatch) (bb : BoxMap)
    (prevFrame currFrame : DataFrame) (hne : matchList ≠ [])
    (hv : ∀ m ∈ matchList, m.valid prevFrame.keypoints currFrame.keypoints) :
    ∃ T out, voteTable matchList prevFrame currFrame = some T ∧
      matchBoundingBoxes matchList bb prevFrame currFrame = some out ∧
      (∀ i j, T i j = supportCount prevFrame currFrame i j matchList.dropLast) ∧
      (∀ k : Int, out k =
        if 0 ≤ k ∧ k < prevFrame.boundingBoxes.length then
          some (((rowMax T k.toNat currFrame.boundingBoxes.length).2 : Nat) : Int)
        else bb k) := by
  obtain ⟨T, hT, hcount⟩ := voteTable_spec hne hv
  refine ⟨T, _, hT, ?_, hcount, fun k => writeBestMatches_apply T _ bb _ k⟩
  simp only [matchBoundingBoxes, hT]

/-- The keys `matchBoundingBoxes` writes and the value it writes for each. -/
theorem bestMatch_rows_aux (matchList : List DMatch) (bb : BoxMap)
    (prevFrame currFrame : DataFrame) (hne : matchList ≠ [])
    (hv : ∀ m ∈ matchList, m.valid prevFrame.keypoints currFrame.keypoints) :
    ∃ T out, voteTable matchList prevFrame currFrame = some T ∧
      matchBoundingBoxes matchList bb prevFrame currFrame = some out ∧
      (∀ i j, T i j = supportCount prevFrame currFrame i j matchList.dropLast) ∧
      (∀ k : Int, ¬ (0 ≤ k ∧ k < prevFrame.boundingBoxes.length) → out k = bb k) ∧
      (∀ i, i < prevFrame.boundingBoxes.length →
        ∃ j : Nat, out (i : Int) = some (j : Int) ∧
          (∀ j1, j1 < currFrame.boundingBoxes.length → T i j1 ≤ T i j) ∧
          (∀ j2, j2 < j → T i j2 < T i j) ∧
          (0 < currFrame.boundingBoxes.length → j < currFrame.boundingBoxes.length)) := by
  obtain ⟨T, out, hT, hout, hcount, hmap⟩ :=
    matchBoundingBoxes_spec matchList bb prevFrame currFrame hne hv
  refine ⟨T, out, hT, hout, hcount, fun k hk => by rw [hmap k, if_neg hk], fun i hi => ?_⟩
  have hnonneg : ∀ j, 0 ≤ T i j := fun j => by
    rw [hcount]; exact supportCount_nonneg _ _ _ _ _
  obtain ⟨ha, hc, hb, hz⟩ := rowMax_spec T i hnonneg currFrame.boundingBoxes.length
  refine ⟨(rowMax T i currFrame.boundingBoxes.length).2, ?_, ?_, ?_, fun h => (hb h).1⟩
  · have hr : 0 ≤ (i : Int) ∧ (i : Int) < prevFrame.boundingBoxes.length := by omega
    rw [hmap, if_pos hr, Int.toNat_ofNat]
  · intro j1 hj1
    have hpos : 0 < currFrame.boundingBoxes.length := by omega
    rw [← (hb hpos).2]
    exact ha j1 hj1
  · intro j2 hj2
    rcases Nat.eq_zero_or_pos currFrame.boundingBoxes.length with h0 | hpos
    · rw [hz h0] at hj2
      exact absurd hj2 (Nat.not_lt_zero _)
    · rw [← (hb hpos).2]
      exact hc j2 hj2

/-! ## Claims on `matchBoundingBoxes` -/

/-- C2: on a non-empty list of valid matches `matchBoundingBoxes` returns, the
keys it writes are exactly the previous-box positions, and for each of them the
value `j` satisfies `T[i][j] ≥ T[i][j']` for every current-box position `j'` and
`T[i][j''] < T[i][j]` for every `j'' < j`, where `T` is the vote table the
function accumulated; `j` is a current-box position whenever there is one. -/
theorem matchBoundingBoxes_argmax (matchList : List DMatch) (bb : BoxMap)
    (prevFrame currFrame : DataFrame) (hne : matchList ≠ [])
    (hv : ∀ m ∈ matchList, m.valid prevFrame.keypoints currFrame.keypoints) :
    ∃ T out, voteTable matchList prevFrame currFrame = some T ∧
      matchBoundingBoxes matchList bb prevFrame currFrame = some out ∧
      (∀ k : Int, ¬ (0 ≤ k ∧ k < prevFrame.boundingBoxes.length) → out k = bb k) ∧
      (∀ i, i < prevFrame.boundingBoxes.length →
        ∃ j : Nat, out (i : Int) = some (j : Int) ∧
          (∀ j1, j1 < currFrame.boundingBoxes.length → T i j1 ≤ T i j) ∧
          (∀ j2, j2 < j → T i j2 < T i j) ∧
          (0 < currFrame.boundingBoxes.length → j < currFrame.boundingBoxes.length)) := by
  obtain ⟨T, out, hT, hout, _, hkeys, hmax⟩ :=
    bestMatch_rows_aux matchList bb prevFrame currFrame hne hv
  exact ⟨T, out, hT, hout, hkeys, hmax⟩

/-- Witness of C2 on scenario S5. -/
theorem matchBoundingBoxes_argmax_witness :
    s5Matches ≠ [] ∧ (∀ m ∈ s5Matches, m.valid s5Prev.keypoints s5Curr.keypoints) ∧
    ∃ T out, voteTable s5Matches s5Prev s5Curr = some T ∧
      matchBoundingBoxes s5Matches BoxMap.empty s5Prev s5Curr = some out ∧
      (∀ k : Int, ¬ (0 ≤ k ∧ k < s5Prev.boundingBoxes.length) → out k = BoxMap.empty k) ∧
      (∀ i, i < s5Prev.boundingBoxes.length →
        ∃ j : Nat, out (i : Int) = some (j : Int) ∧
          (∀ j1, j1 < s5Curr.boundingBoxes.length → T i j1 ≤ T i j) ∧
          (∀ j2, j2 < j → T i j2 < T i j) ∧
          (0 < s5Curr.boundingBoxes.length → j < s5Curr.boundingBoxes.length)) :=
  ⟨by decide!, by decide!,
    matchBoundingBoxes_argmax s5Matches BoxMap.empty s5Prev s5Curr (by decide!) (by decide!)⟩

/-- C3, evaluated on scenario S5: both matches of the second kind support the
pair `(B, Y)`, but the vote table holds `1` there, the last match of the list
never being visited. -/
theorem voteTable_skips_last_match :
    (∀ m ∈ s5Matches, m.valid s5Prev.keypoints s5Curr.keypoints) ∧
    supportCount s5Prev s5Curr 1 1 s5Matches = 2 ∧
    (voteTable s5Matches s5Prev s5Curr).map (fun T => T 1 1) = some 1 := by
  decide!

/-- C4 fails: with two valid matches that support no pair of boxes, row 0 of the
vote table is all zero, and the map returned from the empty map has the entry
`0 ↦ 0`. -/
theorem matchBoundingBoxes_unsupported_row_mapped :
    (∀ m ∈ unsupportedMatches, m.valid s5Prev.keypoints s5Curr.keypoints) ∧
    (∀ j, j < s5Curr.boundingBoxes.length → ∀ m ∈ unsupportedMatches,
      supportsPair s5Prev s5Curr 0 j m = false) ∧
    (voteTable unsupportedMatches s5Prev s5Curr).map (fun T => [T 0 0, T 0 1]) = some [0, 0] ∧
    (matchBoundingBoxes unsupportedMatches BoxMap.empty s5Prev s5Curr).map (fun out => out 0) =
      some (some 0) := by
  decide!


theorem rowMax_of_row_zero (T : Counts) (i c : Nat) (hT : ∀ j, 0 ≤ T i j)
    (hz : ∀ j, j < c → T i j = 0) : (rowMax T i c).2 = 0 := by
  obtain ⟨_, hc, hb, h0⟩ := rowMax_spec T i hT c
  rcases Nat.eq_zero_or_pos c with hc0 | hpos
  · rw [h0 hc0]
  · by_contra hne
    have hpos' : 0 < (rowMax T i c).2 := Nat.pos_of_ne_zero hne
    have h1 := hc 0 hpos'
    rw [(hb hpos).2, hz 0 hpos, hz _ (hb hpos).1] at h1
    exact lt_irrefl _ h1

/-- C4 as amended: on a non-empty list of valid matches `matchBoundingBoxes`
writes an entry for every previous-box position, and for a position whose row
of the accumulated vote table is all zero the entry is `0`. -/
theorem matchBoundingBoxes_maps_every_row (matchList : List DMatch) (bb : BoxMap)
    (prevFrame currFrame : DataFrame) (hne : matchList ≠ [])
    (hv : ∀ m ∈ matchList, m.valid prevFrame.keypoints currFrame.keypoints) :
    ∃ T out, voteTable matchList prevFrame currFrame = some T ∧
      matchBoundingBoxes matchList bb prevFrame currFrame = some out ∧
      ∀ i, i < prevFrame.boundingBoxes.length →
        (∃ j : Nat, out (i : Int) = some (j : Int)) ∧
        ((∀ j, j < currFrame.boundingBoxes.length → T i j = 0) → out (i : Int) = some 0) := by
  obtain ⟨T, out, hT, hout, hcount, hmap⟩ :=
    matchBoundingBoxes_spec matchList bb prevFrame currFrame hne hv
  refine ⟨T, out, hT, hout, fun i hi => ?_⟩
  have hr : 0 ≤ (i : Int) ∧ (i : Int) < prevFrame.boundingBoxes.length := by omega
  have hval := hmap (i : Int)
  rw [if_pos hr, Int.toNat_ofNat] at hval
  refine ⟨⟨_, hval⟩, fun hz => ?_⟩
  have hnonneg : ∀ j, 0 ≤ T i j := fun j => by
    rw [hcount]; exact supportCount_nonneg _ _ _ _ _
  rw [hval, rowMax_of_row_zero T i _ hnonneg hz]
  rfl

/-- Witness of the amended C4 on two matches that support no pair of boxes. -/
theorem matchBoundingBoxes_maps_every_row_witness :
    unsupportedMatches ≠ [] ∧
    (∀ m ∈ unsupportedMatches, m.valid s5Prev.keypoints s5Curr.keypoints) ∧
    ∃ T out, voteTable unsupportedMatches s5Prev s5Curr = some T ∧
      matchBoundingBoxes unsupportedMatches BoxMap.empty s5Prev s5Curr = some out ∧
      ∀ i, i < s5Prev.boundingBoxes.length →
        (∃ j : Nat, out (i : Int) = some (j : Int)) ∧
        ((∀ j, j < s5Curr.boundingBoxes.length → T i j = 0) → out (i : Int) = some 0) :=
  ⟨by decide!, by decide!,
    matchBoundingBoxes_maps_every_row unsupportedMatches BoxMap.empty s5Prev s5Curr
      (by decide!) (by decide!)⟩

theorem countP_or_of_disjoint {α : Type} (p q : α → Bool) (hd : ∀ x, p x = true → q x = false)
    (l : List α) :
    l.countP (fun x => p x || q x) = l.countP p + l.countP q := by
  induction l with
  | nil => rfl
  | cons x t ih =>
    simp only [List.countP_cons, ih]
    cases hp : p x <;> cases hq : q x <;> simp
    · omega
    · omega
    · have := hd x hp
      rw [hq] at this
      cases this


theorem s5_kinds_disjoint {prevFrame currFrame : DataFrame} {A B X Y : Nat}
    (hX : X < currFrame.boundingBoxes.length) (hXY : X ≠ Y) {m : DMatch}
    (h1 : inAOnlyAndXOnly prevFrame currFrame A X m)
    (h2 : inABAndYOnly prevFrame currFrame A B Y m) : False :=
  hXY ((h2.2 X hX).1 ((h1.2 X hX).2 rfl))

theorem supportsPair_first_kind {prevFrame currFrame : DataFrame} {A X : Nat} {m : DMatch}
    (h : inAOnlyAndXOnly prevFrame currFrame A X m) {i j : Nat}
    (hi : i < prevFrame.boundingBoxes.length) (hj : j < currFrame.boundingBoxes.length) :
    supportsPair prevFrame currFrame i j m = true ↔ (i = A ∧ j = X) := by
  simp only [supportsPair, Bool.and_eq_true, h.1 i hi, h.2 j hj]

theorem supportsPair_second_kind {prevFrame currFrame : DataFrame} {A B Y : Nat} {m : DMatch}
    (h : inABAndYOnly prevFrame currFrame A B Y m) {i j : Nat}
    (hi : i < prevFrame.boundingBoxes.length) (hj : j < currFrame.boundingBoxes.length) :
    supportsPair prevFrame currFrame i j m = true ↔ ((i = A ∨ i = B) ∧ j = Y) := by
  simp only [supportsPair, Bool.and_eq_true, h.1 i hi, h.2 j hj]

/-- C5 (scenario S5): with distinct previous boxes `A`, `B` and distinct current
boxes `X`, `Y`, and ten valid matches of which eight have their previous
keypoint in `A` only and their current keypoint in `X` only and two have their
previous keypoint in `A` and `B` and their current keypoint in `Y` only,
`matchBoundingBoxes` returns a map with `A ↦ X` and `B ↦ Y`, in whatever order
the ten matches come and whatever the positions of the boxes. -/
theorem matchBoundingBoxes_scenario_S5 (matchList : List DMatch) (bb : BoxMap)
    (prevFrame currFrame : DataFrame) (A B X Y : Nat)
    (hA : A < prevFrame.boundingBoxes.length) (hB : B < prevFrame.boundingBoxes.length)
    (hAB : A ≠ B)
    (hX : X < currFrame.boundingBoxes.length) (hY : Y < currFrame.boundingBoxes.length)
    (hXY : X ≠ Y)
    (hv : ∀ m ∈ matchList, m.valid prevFrame.keypoints currFrame.keypoints)
    (hlen : matchList.length = 10)
    (h1 : matchList.countP (fun m => decide (inAOnlyAndXOnly prevFrame currFrame A X m)) = 8)
    (h2 : matchList.countP (fun m => decide (inABAndYOnly prevFrame currFrame A B Y m)) = 2) :
    ∃ out, matchBoundingBoxes matchList bb prevFrame currFrame = some out ∧
      out (A : Int) = some (X : Int) ∧ out (B : Int) = some (Y : Int) := by
  have hne : matchList ≠ [] := by
    intro h
    rw [h] at hlen
    cases hlen
  obtain ⟨T, out, _, hout, hcount, _, hmax⟩ :=
    bestMatch_rows_aux matchList bb prevFrame currFrame hne hv
  -- every match is of exactly one of the two kinds
  have hd : ∀ m, decide (inAOnlyAndXOnly prevFrame currFrame A X m) = true →
      decide (inABAndYOnly prevFrame currFrame A B Y m) = false := by
    intro m hm
    rw [decide_eq_true_eq] at hm
    rw [decide_eq_false_iff_not]
    exact fun h => s5_kinds_disjoint hX hXY hm h
  have hall : ∀ m ∈ matchList, (decide (inAOnlyAndXOnly prevFrame currFrame A X m) ||
      decide (inABAndYOnly prevFrame currFrame A B Y m)) = true := by
    apply List.countP_eq_length.1
    rw [countP_or_of_disjoint _ _ hd, h1, h2, hlen]
  have hkind : ∀ m ∈ matchList.dropLast, inAOnlyAndXOnly prevFrame currFrame A X m ∨
      inABAndYOnly prevFrame currFrame A B Y m := by
    intro m hm
    have := hall m (List.mem_of_mem_dropLast hm)
    simpa using this
  have hsum : matchList.dropLast.countP
        (fun m => decide (inAOnlyAndXOnly prevFrame currFrame A X m)) +
      matchList.dropLast.countP
        (fun m => decide (inABAndYOnly prevFrame currFrame A B Y m)) = 9 := by
    rw [← countP_or_of_disjoint _ _ hd]
    have hlen9 : matchList.dropLast.length = 9 := by rw [List.length_dropLast, hlen]
    rw [← hlen9]
    exact List.countP_eq_length.2
      (fun m hm => hall m (List.mem_of_mem_dropLast hm))
  have hle1 := (List.dropLast_sublist matchList).countP_le
    (fun m => decide (inAOnlyAndXOnly prevFrame currFrame A X m))
  have hle2 := (List.dropLast_sublist matchList).countP_le
    (fun m => decide (inABAndYOnly prevFrame currFrame A B Y m))
  rw [h1] at hle1
  rw [h2] at hle2
  -- the entries of the vote table
  have hAX : T A X = ((matchList.dropLast.countP
      (fun m => decide (inAOnlyAndXOnly prevFrame currFrame A X m)) : Nat) : Int) := by
    rw [hcount, supportCount]
    congr 1
    apply List.countP_congr
    intro m hm
    rw [decide_eq_true_eq]
    rcases hkind m hm with hk | hk
    · rw [supportsPair_first_kind hk hA hX]
      exact ⟨fun _ => hk, fun _ => ⟨rfl, rfl⟩⟩
    · rw [supportsPair_second_kind hk hA hX]
      exact ⟨fun h => absurd h.2 hXY, fun h => (s5_kinds_disjoint hX hXY h hk).elim⟩
  have hAj : ∀ j, j < currFrame.boundingBoxes.length → j ≠ X →
      T A j ≤ ((matchList.dropLast.countP
        (fun m => decide (inABAndYOnly prevFrame currFrame A B Y m)) : Nat) : Int) := by
    intro j hj hjX
    rw [hcount, supportCount]
    apply Int.ofNat_le.2
    apply List.countP_mono_left
    intro m hm hs
    rw [decide_eq_true_eq]
    rcases hkind m hm with hk | hk
    · rw [supportsPair_first_kind hk hA hj] at hs
      exact absurd hs.2 hjX
    · exact hk
  have hBY : T B Y = ((matchList.dropLast.countP
      (fun m => decide (inABAndYOnly prevFrame currFrame A B Y m)) : Nat) : Int) := by
    rw [hcount, supportCount]
    congr 1
    apply List.countP_congr
    intro m hm
    rw [decide_eq_true_eq]
    rcases hkind m hm with hk | hk
    · rw [supportsPair_first_kind hk hB hY]
      exact ⟨fun h => absurd h.1.symm hAB, fun h => (s5_kinds_disjoint hX hXY hk h).elim⟩
    · rw [supportsPair_second_kind hk hB hY]
      exact ⟨fun _ => hk, fun _ => ⟨Or.inr rfl, rfl⟩⟩
  have hBj : ∀ j, j < currFrame.boundingBoxes.length → j ≠ Y → T B j = 0 := by
    intro j hj hjY
    rw [hcount, supportCount]
    apply Int.natCast_eq_zero.2
    apply List.countP_eq_zero.2
    intro m hm hs
    rcases hkind m hm with hk | hk
    · rw [supportsPair_first_kind hk hB hj] at hs
      exact hAB hs.1.symm
    · rw [supportsPair_second_kind hk hB hj] at hs
      exact hjY hs.2
  refine ⟨out, hout, ?_, ?_⟩
  · obtain ⟨j, hj, hge, _, hlt⟩ := hmax A hA
    have hjc := hlt (Nat.lt_of_le_of_lt (Nat.zero_le X) hX)
    have hXj := hge X hX
    by_cases hjX : j = X
    · rw [hj, hjX]
    · have := hAj j hjc hjX
      omega
  · obtain ⟨j, hj, hge, _, hlt⟩ := hmax B hB
    have hjc := hlt (Nat.lt_of_le_of_lt (Nat.zero_le Y) hY)
    have hYj := hge Y hY
    by_cases hjY : j = Y
    · rw [hj, hjY]
    · have := hBj j hjc hjY
      omega

/-- Witness of C5 on scenario S5, with `A`, `B` at positions 0, 1 and `X`, `Y`
at positions 0, 1. -/
theorem matchBoundingBoxes_scenario_S5_witness :
    (0 < s5Prev.boundingBoxes.length ∧ 1 < s5Prev.boundingBoxes.length ∧
      0 < s5Curr.boundingBoxes.length ∧ 1 < s5Curr.boundingBoxes.length) ∧
    (∀ m ∈ s5Matches, m.valid s5Prev.keypoints s5Curr.keypoints) ∧
    s5Matches.length = 10 ∧
    s5Matches.countP (fun m => decide (inAOnlyAndXOnly s5Prev s5Curr 0 0 m)) = 8 ∧
    s5Matches.countP (fun m => decide (inABAndYOnly s5Prev s5Curr 0 1 1 m)) = 2 ∧
    ∃ out, matchBoundingBoxes s5Matches BoxMap.empty s5Prev s5Curr = some out ∧
      out ((0 : Nat) : Int) = some ((0 : Nat) : Int) ∧
      out ((1 : Nat) : Int) = some ((1 : Nat) : Int) :=
  ⟨by decide!, by decide!, by decide!, by decide!, by decide!,
    matchBoundingBoxes_scenario_S5 s5Matches BoxMap.empty s5Prev s5Curr 0 1 0 1
      (by decide!) (by decide!) (by decide!) (by decide!) (by decide!) (by decide!)
      (by decide!) (by decide!) (by decide!) (by decide!)⟩


/-! ## Lemmas on `clusterKptMatchesWithROI` -/

theorem roiDistances_spec (norm : Point2f → ℚ) (boundingBox : BoundingBox)
    (kptsPrev kptsCurr : List KeyPoint) :
    ∀ ms : List DMatch, (∀ m ∈ ms, m.valid kptsPrev kptsCurr) →
      roiDistances norm (shrinkRect boundingBox.roi (15 / 100)) kptsPrev kptsCurr ms =
        some ((ms.filter (currKeypointInShrunkROI boundingBox kptsCurr)).map
          (matchDisplacement norm kptsPrev kptsCurr)) := by
  intro ms
  induction ms with
  | nil => intro _; rfl
  | cons m rest ih =>
    intro hv
    obtain ⟨h0, h1, h2, h3⟩ := hv m (by simp)
    obtain ⟨kp, hkp⟩ := vecAt_of_bounds kptsPrev m.queryIdx h0 h1
    obtain ⟨kc, hkc⟩ := vecAt_of_bounds kptsCurr m.trainIdx h2 h3
    have ih' := ih (fun x hx => hv x (by simp [hx]))
    rw [roiDistances]
    simp only [hkc, hkp, ih']
    by_cases hin : (shrinkRect boundingBox.roi (15 / 100)).contains kc.pt.toPoint = true
    · have : currKeypointInShrunkROI boundingBox kptsCurr m = true := by
        simp [currKeypointInShrunkROI, hkc, hin]
      simp [hin, List.filter_cons, this, matchDisplacement, hkc, hkp]
    · have : currKeypointInShrunkROI boundingBox kptsCurr m = false := by
        simp [currKeypointInShrunkROI, hkc, hin]
      simp [hin, List.filter_cons, this]

theorem keepInliers_spec (norm : Point2f → ℚ) (boundingBox : BoundingBox) (aug : Dbl)
    (kptsPrev kptsCurr : List KeyPoint) :
    ∀ (ms : List DMatch) (cur : BoundingBox), cur.roi = boundingBox.roi →
      (∀ m ∈ ms, m.valid kptsPrev kptsCurr) →
      ∃ out, keepInliers norm (shrinkRect boundingBox.roi (15 / 100)) aug kptsPrev kptsCurr
          cur ms = some out ∧
        out.roi = boundingBox.roi ∧
        out.kptMatches = cur.kptMatches ++ ms.filter (fun m =>
          currKeypointInShrunkROI boundingBox kptsCurr m &&
            Dbl.finLt (matchDisplacement norm kptsPrev kptsCurr m) aug) := by
  intro ms
  induction ms with
  | nil =>
    intro cur hroi _
    exact ⟨cur, rfl, hroi, by simp⟩
  | cons m rest ih =>
    intro cur hroi hv
    obtain ⟨h0, h1, h2, h3⟩ := hv m (by simp)
    obtain ⟨kp, hkp⟩ := vecAt_of_bounds kptsPrev m.queryIdx h0 h1
    obtain ⟨kc, hkc⟩ := vecAt_of_bounds kptsCurr m.trainIdx h2 h3
    have hrest : ∀ x ∈ rest, x.valid kptsPrev kptsCurr := fun x hx => hv x (by simp [hx])
    have hd : matchDisplacement norm kptsPrev kptsCurr m = norm (kc.pt.sub kp.pt) := by
      simp [matchDisplacement, hkc, hkp]
    rw [keepInliers]
    simp only [hkc, hkp]
    by_cases hin : (shrinkRect boundingBox.roi (15 / 100)).contains kc.pt.toPoint = true
    · have hroiIn : currKeypointInShrunkROI boundingBox kptsCurr m = true := by
        simp [currKeypointInShrunkROI, hkc, hin]
      by_cases hlt : Dbl.finLt (norm (kc.pt.sub kp.pt)) aug = true
      · obtain ⟨out, hout, hr, hk⟩ := ih
          { cur with keypoints := cur.keypoints ++ [kc], kptMatches := cur.kptMatches ++ [m] }
          hroi hrest
        refine ⟨out, ?_, hr, ?_⟩
        · simp only [hin, hlt, if_true]
          exact hout
        · rw [hk, List.filter_cons]
          simp [hroiIn, hd, hlt]
      · obtain ⟨out, hout, hr, hk⟩ := ih cur hroi hrest
        refine ⟨out, ?_, hr, ?_⟩
        · simp only [hin, hlt, if_true]
          exact hout
        · rw [hk, List.filter_cons]
          simp [hroiIn, hd, hlt]
    · have hroiOut : currKeypointInShrunkROI boundingBox kptsCurr m = false := by
        simp [currKeypointInShrunkROI, hkc, hin]
      obtain ⟨out, hout, hr, hk⟩ := ih cur hroi hrest
      refine ⟨out, ?_, hr, ?_⟩
      · simp only [hin]
        exact hout
      · rw [hk, List.filter_cons]
        simp [hroiOut]

/-- The matches `clusterKptMatchesWithROI` appends on valid matches, in exact
arithmetic. -/
theorem appended_kptMatches_aux (norm : Point2f → ℚ) (boundingBox : BoundingBox)
    (kptsPrev kptsCurr : List KeyPoint) (kptMatches : List DMatch)
    (hv : ∀ m ∈ kptMatches, m.valid kptsPrev kptsCurr) :
    ∃ out, clusterKptMatchesWithROI norm boundingBox kptsPrev kptsCurr kptMatches = some out ∧
      out.kptMatches = boundingBox.kptMatches ++ kptMatches.filter (fun m =>
        currKeypointInShrunkROI boundingBox kptsCurr m &&
          decide (matchDisplacement norm kptsPrev kptsCurr m <
            13 / 10 * meanDisplacementInROI norm boundingBox kptsPrev kptsCurr kptMatches)) := by
  obtain ⟨out, hout, _, hk⟩ := keepInliers_spec norm boundingBox
    (Dbl.mul (euclideanDistanceMean
      ((kptMatches.filter (currKeypointInShrunkROI boundingBox kptsCurr)).map
        (matchDisplacement norm kptsPrev kptsCurr))) (Dbl.fin (13 / 10)))
    kptsPrev kptsCurr kptMatches boundingBox rfl hv
  refine ⟨out, ?_, ?_⟩
  · unfold clusterKptMatchesWithROI
    simp only [roiDistances_spec norm boundingBox kptsPrev kptsCurr kptMatches hv]
    exact hout
  · rw [hk]
    congr 1
    apply List.filter_congr
    intro m hm
    by_cases hin : currKeypointInShrunkROI boundingBox kptsCurr m = true
    · have hmem : m ∈ kptMatches.filter (currKeypointInShrunkROI boundingBox kptsCurr) :=
        List.mem_filter.2 ⟨hm, hin⟩
      have hlen : ((kptMatches.filter (currKeypointInShrunkROI boundingBox kptsCurr)).length : ℚ)
          ≠ 0 := by
        have := List.length_pos_of_mem hmem
        exact_mod_cast Nat.pos_iff_ne_zero.1 this
      simp only [hin, Bool.true_and, euclideanDistanceMean, Dbl.div, Dbl.mul, Dbl.finLt,
        List.length_map, if_neg hlen, meanDisplacementInROI]
      rw [mul_comm]
    · simp [hin]

/-! ## Claims on `clusterKptMatchesWithROI` -/

/-- C6 fails: on thirteen in-rectangle matches, one with displacement 7 and
twelve with displacement 5.25, the mean is `70 / 13` and 1.3 times the mean is
exactly 7, so the match with displacement 7 is not strictly below it; the
threshold computed in `double` is `7.000000000000001` and the function appends
all thirteen matches. -/
theorem clusterKptMatchesWithROI_keeps_tie :
    (∀ m ∈ tieMatches, m.valid tiePrev tieCurr) ∧
    (∀ m ∈ tieMatches, currKeypointInShrunkROI (emptyBox 0 0 0 100 100) tieCurr m = true) ∧
    matchDisplacement axisNorm tiePrev tieCurr { queryIdx := 0, trainIdx := 0 } = 7 ∧
    13 / 10 * meanDisplacementInROI axisNorm (emptyBox 0 0 0 100 100) tiePrev tieCurr
      tieMatches = 7 ∧
    ¬ (matchDisplacement axisNorm tiePrev tieCurr { queryIdx := 0, trainIdx := 0 } <
      13 / 10 * meanDisplacementInROI axisNorm (emptyBox 0 0 0 100 100) tiePrev tieCurr
        tieMatches) ∧
    computedInlierThreshold axisNorm (emptyBox 0 0 0 100 100) tiePrev tieCurr tieMatches =
      7881299347898369 / 1125899906842624 ∧
    (clusterKptMatchesWithROI_binary64 axisNorm (emptyBox 0 0 0 100 100) tiePrev tieCurr
      tieMatches).map (fun b => b.kptMatches) = some tieMatches := by
  decide!

/-- C6 as amended: on valid matches `clusterKptMatchesWithROI` returns, and the
matches it appends to `kptMatches` are exactly, in input order, the matches
whose current keypoint lies in the rectangle shrunk by 0.15 and whose
displacement is strictly less than the threshold the function computes in
`double`: the rounded product of 1.3 and the rounded mean of the displacement
over all matches whose current keypoint lies in that rectangle.  When that
threshold is exactly 1.3 times the arithmetic mean, these are the matches with
displacement strictly less than 1.3 times the mean. -/
theorem clusterKptMatchesWithROI_binary64_inliers (norm : Point2f → ℚ)
    (boundingBox : BoundingBox) (kptsPrev kptsCurr : List KeyPoint) (kptMatches : List DMatch)
    (hv : ∀ m ∈ kptMatches, m.valid kptsPrev kptsCurr) :
    ∃ out, clusterKptMatchesWithROI_binary64 norm boundingBox kptsPrev kptsCurr kptMatches =
        some out ∧
      out.kptMatches = boundingBox.kptMatches ++ kptMatches.filter (fun m =>
        currKeypointInShrunkROI boundingBox kptsCurr m &&
          decide (matchDisplacement norm kptsPrev kptsCurr m <
            computedInlierThreshold norm boundingBox kptsPrev kptsCurr kptMatches)) ∧
      (computedInlierThreshold norm boundingBox kptsPrev kptsCurr kptMatches =
          13 / 10 * meanDisplacementInROI norm boundingBox kptsPrev kptsCurr kptMatches →
        out.kptMatches = boundingBox.kptMatches ++ kptMatches.filter (fun m =>
          currKeypointInShrunkROI boundingBox kptsCurr m &&
            decide (matchDisplacement norm kptsPrev kptsCurr m <
              13 / 10 * meanDisplacementInROI norm boundingBox kptsPrev kptsCurr
                kptMatches))) := by
  obtain ⟨out, hout, _, hk⟩ := keepInliers_spec norm boundingBox
    (euclideanDistanceMean_Augment
      ((kptMatches.filter (currKeypointInShrunkROI boundingBox kptsCurr)).map
        (matchDisplacement norm kptsPrev kptsCurr)))
    kptsPrev kptsCurr kptMatches boundingBox rfl hv
  have happ : out.kptMatches = boundingBox.kptMatches ++ kptMatches.filter (fun m =>
      currKeypointInShrunkROI boundingBox kptsCurr m &&
        decide (matchDisplacement norm kptsPrev kptsCurr m <
          computedInlierThreshold norm boundingBox kptsPrev kptsCurr kptMatches)) := by
    rw [hk]
    congr 1
    apply List.filter_congr
    intro m hm
    by_cases hin : currKeypointInShrunkROI boundingBox kptsCurr m = true
    · have hmem : m ∈ kptMatches.filter (currKeypointInShrunkROI boundingBox kptsCurr) :=
        List.mem_filter.2 ⟨hm, hin⟩
      have hlen : ((kptMatches.filter (currKeypointInShrunkROI boundingBox kptsCurr)).length : ℚ)
          ≠ 0 := by
        have := List.length_pos_of_mem hmem
        exact_mod_cast Nat.pos_iff_ne_zero.1 this
      simp only [hin, Bool.true_and, euclideanDistanceMean_Augment, euclideanDistanceMeanDouble,
        Dbl.div, Dbl.mul, Dbl.round64, Dbl.finLt, List.length_map, if_neg hlen,
        computedInlierThreshold]
    · simp [hin]
  refine ⟨out, ?_, happ, fun hexact => ?_⟩
  · unfold clusterKptMatchesWithROI_binary64
    simp only [roiDistances_spec norm boundingBox kptsPrev kptsCurr kptMatches hv]
    exact hout
  · rw [happ, hexact]

/-- Witness of the amended C6 on the thirteen matches of which one has
displacement 7 and twelve have displacement 5.25. -/
theorem clusterKptMatchesWithROI_binary64_inliers_witness :
    (∀ m ∈ tieMatches, m.valid tiePrev tieCurr) ∧
    ∃ out, clusterKptMatchesWithROI_binary64 axisNorm (emptyBox 0 0 0 100 100) tiePrev tieCurr
        tieMatches = some out ∧
      out.kptMatches = (emptyBox 0 0 0 100 100).kptMatches ++ tieMatches.filter (fun m =>
        currKeypointInShrunkROI (emptyBox 0 0 0 100 100) tieCurr m &&
          decide (matchDisplacement axisNorm tiePrev tieCurr m <
            computedInlierThreshold axisNorm (emptyBox 0 0 0 100 100) tiePrev tieCurr
              tieMatches)) ∧
      (computedInlierThreshold axisNorm (emptyBox 0 0 0 100 100) tiePrev tieCurr tieMatches =
          13 / 10 * meanDisplacementInROI axisNorm (emptyBox 0 0 0 100 100) tiePrev tieCurr
            tieMatches →
        out.kptMatches = (emptyBox 0 0 0 100 100).kptMatches ++ tieMatches.filter (fun m =>
          currKeypointInShrunkROI (emptyBox 0 0 0 100 100) tieCurr m &&
            decide (matchDisplacement axisNorm tiePrev tieCurr m <
              13 / 10 * meanDisplacementInROI axisNorm (emptyBox 0 0 0 100 100) tiePrev
                tieCurr tieMatches))) :=
  ⟨by decide!, clusterKptMatchesWithROI_binary64_inliers axisNorm (emptyBox 0 0 0 100 100)
    tiePrev tieCurr tieMatches (by decide!)⟩

/-! ## Lemmas on `computeTTCLidar` -/

/-- On non-empty lists, a list without ego-lane point makes the function store
NaN. -/
theorem computeTTCLidar_nan_of_no_lane_point (min_px0 min_cx0 : ℚ)
    (prev curr : List LidarPoint) (frameRate : ℚ) (hp : prev ≠ []) (hc : curr ≠ [])
    (h : prev.filter inEgoLane = [] ∨ curr.filter inEgoLane = []) :
    computeTTCLidar min_px0 min_cx0 prev curr frameRate = some Dbl.nan := by
  have hsub : ∀ l : List LidarPoint, l.filter inEgoLane = [] → egoLaneX l.dropLast = [] := by
    intro l hl
    have h1 : (l.dropLast.filter inEgoLane).Sublist (l.filter inEgoLane) :=
      (List.dropLast_sublist l).filter _
    rw [hl] at h1
    have h2 : l.dropLast.filter inEgoLane = [] := List.sublist_nil.1 h1
    unfold egoLaneX
    have h3 : (l.dropLast.filter fun p => decide (|p.y| < 2)) = [] := h2
    rw [h3]
    rfl
  simp only [computeTTCLidar, collectedEgoLaneX, beginToEndMinusOne_of_ne_nil hp,
    beginToEndMinusOne_of_ne_nil hc]
  rcases h with h | h
  · rw [hsub prev h]
    simp
  · rw [hsub curr h]
    simp

/-! ## Claims on `computeTTCLidar` -/

/-- C7, evaluated on scenario S1 (frame rate 10): each list holds one ego-lane
point and the mandated value is 1.5, but whatever `min_px` and `min_cx` hold on
entry the function stores NaN, the only point of each list never being
visited. -/
theorem computeTTCLidar_S1_is_nan (min_px0 min_cx0 : ℚ) :
    (s1Prev.filter inEgoLane).length = 1 ∧ (s1Curr.filter inEgoLane).length = 1 ∧
    ttcLidarMandated s1Prev s1Curr 10 = 3 / 2 ∧
    computeTTCLidar min_px0 min_cx0 s1Prev s1Curr 10 = some Dbl.nan :=
  ⟨by decide!, by decide!, by decide!, rfl⟩

/-- C8 fails: the prior scan has mean range 7.0 and the current one 7.2 (both
in the ego lane), and, the accumulators holding 0 on entry, the function stores
the number -3.6, not NaN. -/
theorem computeTTCLidar_receding_is_number :
    laneMeanX recedingPrev ≤ laneMeanX recedingCurr ∧
    (recedingPrev.filter inEgoLane).length = 2 ∧ (recedingCurr.filter inEgoLane).length = 2 ∧
    computeTTCLidar 0 0 recedingPrev recedingCurr 10 = some (Dbl.fin (-18 / 5)) := by
  decide!

/-- C8 as amended: the function applies no test to the sign of the denominator.
When it has collected at least one ego-lane `x` from each list and
`frameRate > 0`, the result is the floating quotient
`min_cx * dt / (min_px - min_cx)`: a finite number whenever `min_px` and `min_cx`
differ, a negative denominator (target not approaching) included, and NaN only
in the case `0 / 0`. -/
theorem computeTTCLidar_no_sign_test (min_px0 min_cx0 : ℚ) (prev curr : List LidarPoint)
    (frameRate : ℚ) (ppx pcx : List ℚ)
    (hp : collectedEgoLaneX prev = some ppx) (hc : collectedEgoLaneX curr = some pcx)
    (hpn : ppx ≠ []) (hcn : pcx ≠ []) (hfr : 0 < frameRate) :
    computeTTCLidar min_px0 min_cx0 prev curr frameRate =
        some (Dbl.div (Dbl.fin (laneStatistic min_cx0 pcx * (1 / frameRate)))
          (Dbl.fin (laneStatistic min_px0 ppx - laneStatistic min_cx0 pcx))) ∧
      (laneStatistic min_px0 ppx ≠ laneStatistic min_cx0 pcx →
        computeTTCLidar min_px0 min_cx0 prev curr frameRate =
          some (Dbl.fin (laneStatistic min_cx0 pcx * (1 / frameRate) /
            (laneStatistic min_px0 ppx - laneStatistic min_cx0 pcx)))) ∧
      (computeTTCLidar min_px0 min_cx0 prev curr frameRate = some Dbl.nan ↔
        (laneStatistic min_px0 ppx = laneStatistic min_cx0 pcx ∧
          laneStatistic min_cx0 pcx = 0)) := by
  have hlen : 0 < ppx.length ∧ 0 < pcx.length :=
    ⟨List.length_pos.2 hpn, List.length_pos.2 hcn⟩
  have hfr0 : frameRate ≠ 0 := ne_of_gt hfr
  have hval : computeTTCLidar min_px0 min_cx0 prev curr frameRate =
      some (Dbl.div (Dbl.fin (laneStatistic min_cx0 pcx * (1 / frameRate)))
        (Dbl.fin (laneStatistic min_px0 ppx - laneStatistic min_cx0 pcx))) := by
    simp only [computeTTCLidar, hp, hc, if_pos hlen, Dbl.div, Dbl.mul, if_neg hfr0]
  refine ⟨hval, fun hne => ?_, ?_⟩
  · rw [hval]
    have hden : laneStatistic min_px0 ppx - laneStatistic min_cx0 pcx ≠ 0 :=
      sub_ne_zero.2 hne
    simp only [Dbl.div, if_neg hden]
  · rw [hval]
    by_cases hden : laneStatistic min_px0 ppx - laneStatistic min_cx0 pcx = 0
    · have heq : laneStatistic min_px0 ppx = laneStatistic min_cx0 pcx := sub_eq_zero.1 hden
      by_cases hnum : laneStatistic min_cx0 pcx = 0
      · simp [Dbl.div, hden, hnum, heq]
      · simp [Dbl.div, hden, hnum, heq, hfr0]
    · have hneq : ¬ laneStatistic min_px0 ppx = laneStatistic min_cx0 pcx :=
        fun h => hden (sub_eq_zero.2 h)
      simp [Dbl.div, hden, hneq]

/-- Witness of the amended C8 on the receding target, the accumulators holding
0 on entry. -/
theorem computeTTCLidar_no_sign_test_witness :
    collectedEgoLaneX recedingPrev = some [7] ∧ collectedEgoLaneX recedingCurr = some [36 / 5] ∧
    (0 : ℚ) < 10 ∧
    (computeTTCLidar 0 0 recedingPrev recedingCurr 10 =
        some (Dbl.div (Dbl.fin (laneStatistic 0 [36 / 5] * (1 / 10)))
          (Dbl.fin (laneStatistic 0 [7] - laneStatistic 0 [36 / 5]))) ∧
      (laneStatistic 0 [7] ≠ laneStatistic 0 [36 / 5] →
        computeTTCLidar 0 0 recedingPrev recedingCurr 10 =
          some (Dbl.fin (laneStatistic 0 [36 / 5] * (1 / 10) /
            (laneStatistic 0 [7] - laneStatistic 0 [36 / 5])))) ∧
      (computeTTCLidar 0 0 recedingPrev recedingCurr 10 = some Dbl.nan ↔
        (laneStatistic 0 [7] = laneStatistic 0 [36 / 5] ∧ laneStatistic 0 [36 / 5] = 0))) :=
  ⟨by decide!, by decide!, by decide!,
    computeTTCLidar_no_sign_test 0 0 recedingPrev recedingCurr 10 [7] [36 / 5]
      (by decide!) (by decide!) (by decide!) (by decide!) (by decide!)⟩

/-- C9, evaluated on scenario S3 (frame rate 10, accumulators holding 0 on
entry): the function stores 1.5 for the two scans, and NaN for the same scans
with the points outside the ego lane removed. -/
theorem computeTTCLidar_S3_differs_from_filtered :
    s3Prev.filter inEgoLane = s1Prev ∧ s3Curr.filter inEgoLane = s1Curr ∧
    computeTTCLidar 0 0 s3Prev s3Curr 10 = some (Dbl.fin (3 / 2)) ∧
    computeTTCLidar 0 0 (s3Prev.filter inEgoLane) (s3Curr.filter inEgoLane) 10 =
      some Dbl.nan := by
  decide!

/-- C10, evaluated on an empty previous list: the function stores no value
(the loop bound `end() - 1` of an empty vector is undefined), whatever the
other arguments. -/
theorem computeTTCLidar_empty_prev_undefined (min_px0 min_cx0 : ℚ) (curr : List LidarPoint)
    (frameRate : ℚ) :
    computeTTCLidar min_px0 min_cx0 [] curr frameRate = none :=
  rfl


/-! ## Lemmas on the floating values -/

theorem Dbl.one_div_neg (f : ℚ) (hf : f ≠ 0) :
    Dbl.div (Dbl.fin 1) (Dbl.fin (-f)) = (Dbl.div (Dbl.fin 1) (Dbl.fin f)).neg := by
  have hf' : -f ≠ 0 := neg_ne_zero.2 hf
  simp only [Dbl.div, if_neg hf, if_neg hf', Dbl.neg]
  congr 1
  rw [div_neg]

theorem Dbl.neg_neg (a : Dbl) : a.neg.neg = a := by
  cases a <;> simp [Dbl.neg]

theorem Dbl.mul_fin_neg (c : ℚ) (d : Dbl) :
    Dbl.mul (Dbl.fin c) d.neg = (Dbl.mul (Dbl.fin c) d).neg := by
  cases d with
  | nan => rfl
  | inf t =>
    by_cases hc : c = 0
    · simp [Dbl.mul, Dbl.neg, hc]
    · simp only [Dbl.mul, Dbl.neg, if_neg hc]
      cases t <;> cases decide (c < 0) <;> rfl
  | fin v => simp [Dbl.mul, Dbl.neg]

theorem Dbl.neg_div_fin (a : Dbl) (w : ℚ) :
    Dbl.div a.neg (Dbl.fin w) = (Dbl.div a (Dbl.fin w)).neg := by
  cases a with
  | nan => rfl
  | inf s =>
    simp only [Dbl.div, Dbl.neg]
    cases s <;> cases decide (w < 0) <;> rfl
  | fin v =>
    by_cases hw : w = 0
    · by_cases hv : v = 0
      · simp [Dbl.div, Dbl.neg, hw, hv]
      · have hv' : -v ≠ 0 := neg_ne_zero.2 hv
        simp only [Dbl.div, Dbl.neg, hw, if_true, if_neg hv, if_neg hv']
        congr 1
        rcases lt_or_gt_of_ne hv with h | h
        · have h1 : ¬ (-v < 0) := by linarith
          simp [h, h1]
        · have h1 : -v < 0 := by linarith
          have h2 : ¬ (v < 0) := by linarith
          simp [h1, h2]
    · simp only [Dbl.div, Dbl.neg, if_neg hw]
      congr 1
      rw [neg_div]

/-! ## Lemmas on the frame rate -/

theorem computeTTCLidar_isSome_frameRate (g1 g2 : ℚ) (prev curr : List LidarPoint)
    (fr fr1 : ℚ) :
    (computeTTCLidar g1 g2 prev curr fr).isSome =
      (computeTTCLidar g1 g2 prev curr fr1).isSome := by
  unfold computeTTCLidar
  cases collectedEgoLaneX prev <;> cases collectedEgoLaneX curr <;> simp
  split <;> rfl

theorem computeTTCCamera_isSome_frameRate (norm : Point2f → ℚ)
    (kptsPrev kptsCurr : List KeyPoint) (ms : List DMatch) (fr fr1 : ℚ) :
    (computeTTCCamera norm kptsPrev kptsCurr ms fr).isSome =
      (computeTTCCamera norm kptsPrev kptsCurr ms fr1).isSome := by
  unfold computeTTCCamera
  cases distRatios norm kptsPrev kptsCurr ms <;> simp
  split <;> rfl

theorem computeTTCLidar_neg_frameRate (g1 g2 : ℚ) (prev curr : List LidarPoint)
    (fr : ℚ) (hfr : fr ≠ 0) :
    computeTTCLidar g1 g2 prev curr (-fr) =
      (computeTTCLidar g1 g2 prev curr fr).map Dbl.neg := by
  unfold computeTTCLidar
  cases collectedEgoLaneX prev <;> cases collectedEgoLaneX curr <;> simp only [Option.map]
  split
  · simp only [Dbl.one_div_neg fr hfr, Dbl.mul_fin_neg, Dbl.neg_div_fin]
  · rfl

theorem computeTTCCamera_neg_frameRate (norm : Point2f → ℚ)
    (kptsPrev kptsCurr : List KeyPoint) (ms : List DMatch) (fr : ℚ) (hfr : fr ≠ 0) :
    computeTTCCamera norm kptsPrev kptsCurr ms (-fr) =
      (computeTTCCamera norm kptsPrev kptsCurr ms fr).map Dbl.neg := by
  unfold computeTTCCamera
  cases distRatios norm kptsPrev kptsCurr ms <;> simp only [Option.map]
  split
  · rfl
  · simp only [Dbl.one_div_neg fr hfr, Dbl.neg_div_fin]


/-! ## Claims on determinism and on the frame rate -/

/-- C15, evaluated on a target that approaches from 8.0 to 7.5 (frame rate
10): with the same arguments `computeTTCLidar` stores 1.5 when `min_px` and
`min_cx` hold 0 on entry and 1.7 when they hold 1, so its result is not a
function of its arguments alone. -/
theorem computeTTCLidar_depends_on_uninitialised :
    computeTTCLidar 0 0 approachPrev approachCurr 10 = some (Dbl.fin (3 / 2)) ∧
    computeTTCLidar 1 1 approachPrev approachCurr 10 = some (Dbl.fin (17 / 10)) := by
  decide!

/-- C16 fails: with `frameRate = -10` both functions store a number (-1.5 for
the approaching Lidar target with zero accumulators, -1.0 for scenario S4). -/
theorem negative_frameRate_accepted :
    computeTTCLidar 0 0 approachPrev approachCurr (-10) = some (Dbl.fin (-3 / 2)) ∧
    (∀ m ∈ zoomMatches, m.valid zoomPrev zoomCurr) ∧
    computeTTCCamera axisNorm zoomPrev zoomCurr zoomMatches (-10) = some (Dbl.fin (-1)) := by
  decide!

/-- C16 as amended: neither function checks `frameRate`.  With
`frameRate ≤ 0` a call stores a value exactly when the same call with
`frameRate = 1` does, and with `frameRate < 0` the value stored is the value
for `-frameRate` with its sign flipped. -/
theorem frameRate_not_checked (norm : Point2f → ℚ) (kptsPrev kptsCurr : List KeyPoint)
    (kptMatches : List DMatch) (min_px0 min_cx0 : ℚ) (prev curr : List LidarPoint)
    (frameRate : ℚ) (_hfr : frameRate ≤ 0) :
    (computeTTCLidar min_px0 min_cx0 prev curr frameRate).isSome =
        (computeTTCLidar min_px0 min_cx0 prev curr 1).isSome ∧
      (computeTTCCamera norm kptsPrev kptsCurr kptMatches frameRate).isSome =
        (computeTTCCamera norm kptsPrev kptsCurr kptMatches 1).isSome ∧
      (frameRate < 0 →
        computeTTCLidar min_px0 min_cx0 prev curr frameRate =
            (computeTTCLidar min_px0 min_cx0 prev curr (-frameRate)).map Dbl.neg ∧
          computeTTCCamera norm kptsPrev kptsCurr kptMatches frameRate =
            (computeTTCCamera norm kptsPrev kptsCurr kptMatches (-frameRate)).map Dbl.neg) := by
  refine ⟨computeTTCLidar_isSome_frameRate _ _ _ _ _ _,
    computeTTCCamera_isSome_frameRate _ _ _ _ _ _, fun hneg => ?_⟩
  have hne : -frameRate ≠ 0 := neg_ne_zero.2 (ne_of_lt hneg)
  have h1 := computeTTCLidar_neg_frameRate min_px0 min_cx0 prev curr (-frameRate) hne
  have h2 := computeTTCCamera_neg_frameRate norm kptsPrev kptsCurr kptMatches (-frameRate) hne
  rw [neg_neg] at h1 h2
  exact ⟨h1, h2⟩

/-- Witness of the amended C16 at `frameRate = -10`. -/
theorem frameRate_not_checked_witness :
    (-10 : ℚ) ≤ 0 ∧
    ((computeTTCLidar 0 0 approachPrev approachCurr (-10)).isSome =
        (computeTTCLidar 0 0 approachPrev approachCurr 1).isSome ∧
      (computeTTCCamera axisNorm zoomPrev zoomCurr zoomMatches (-10)).isSome =
        (computeTTCCamera axisNorm zoomPrev zoomCurr zoomMatches 1).isSome ∧
      ((-10 : ℚ) < 0 →
        computeTTCLidar 0 0 approachPrev approachCurr (-10) =
            (computeTTCLidar 0 0 approachPrev approachCurr (-(-10))).map Dbl.neg ∧
          computeTTCCamera axisNorm zoomPrev zoomCurr zoomMatches (-10) =
            (computeTTCCamera axisNorm zoomPrev zoomCurr zoomMatches (-(-10))).map Dbl.neg)) :=
  ⟨by decide!, frameRate_not_checked axisNorm zoomPrev zoomCurr zoomMatches 0 0 approachPrev
    approachCurr (-10) (by decide!)⟩


/-! ## Lemmas on the scaling of `x` -/

theorem beginToEndMinusOne_map {α β : Type} (f : α → β) (l : List α) :
    beginToEndMinusOne (l.map f) = (beginToEndMinusOne l).map (List.map f) := by
  cases l with
  | nil => rfl
  | cons a t =>
    simp only [beginToEndMinusOne, List.map_cons, Option.map]
    rw [← List.map_cons, List.map_dropLast]

theorem egoLaneX_scaleX (k : ℚ) (l : List LidarPoint) :
    egoLaneX (l.map (LidarPoint.scaleX k)) = (egoLaneX l).map (fun x => k * x) := by
  unfold egoLaneX
  rw [List.filter_map, List.map_map, List.map_map]
  rfl

theorem collectedEgoLaneX_scaleX (k : ℚ) (l : List LidarPoint) :
    collectedEgoLaneX (l.map (LidarPoint.scaleX k)) =
      (collectedEgoLaneX l).map (List.map (fun x => k * x)) := by
  unfold collectedEgoLaneX
  rw [beginToEndMinusOne_map]
  cases beginToEndMinusOne l with
  | none => rfl
  | some v => simp [egoLaneX_scaleX]

theorem accumulateFrom_scale (k : ℚ) (xs : List ℚ) (a : ℚ) :
    accumulateFrom (k * a) (xs.map (fun x => k * x)) = k * accumulateFrom a xs := by
  induction xs generalizing a with
  | nil => rfl
  | cons x t ih =>
    simp only [accumulateFrom, List.map_cons, List.foldl_cons] at ih ⊢
    rw [← mul_add]
    exact ih (a + x)

theorem laneStatistic_scale (k : ℚ) (xs : List ℚ) :
    laneStatistic 0 (xs.map (fun x => k * x)) = k * laneStatistic 0 xs := by
  unfold laneStatistic
  have h := accumulateFrom_scale k xs 0
  rw [mul_zero] at h
  rw [h, List.length_map, mul_div_assoc]

theorem Dbl.scaled_quotient (k : ℚ) (hk : 0 < k) (c p : ℚ) (dt : Dbl) :
    Dbl.div (Dbl.mul (Dbl.fin (k * c)) dt) (Dbl.fin (k * p - k * c)) =
      Dbl.div (Dbl.mul (Dbl.fin c) dt) (Dbl.fin (p - c)) := by
  have hk0 : k ≠ 0 := ne_of_gt hk
  have hden : k * p - k * c = k * (p - c) := by ring
  have hsign : ∀ v : ℚ, decide (k * v < 0) = decide (v < 0) := by
    intro v
    apply decide_eq_decide.2
    constructor
    · intro h
      by_contra hv
      have : 0 ≤ k * v := mul_nonneg (le_of_lt hk) (not_lt.1 hv)
      linarith
    · intro h
      exact mul_neg_of_pos_of_neg hk h
  have hzero : ∀ v : ℚ, k * v = 0 ↔ v = 0 := by
    intro v
    constructor
    · intro h
      rcases mul_eq_zero.1 h with h1 | h1
      · exact absurd h1 hk0
      · exact h1
    · intro h
      rw [h, mul_zero]
  rw [hden]
  cases dt with
  | nan => rfl
  | inf t =>
    by_cases hc : c = 0
    · have hkc : k * c = 0 := (hzero c).2 hc
      simp [Dbl.mul, Dbl.div, hc]
    · have hkc : ¬ k * c = 0 := fun h => hc ((hzero c).1 h)
      simp only [Dbl.mul, Dbl.div, if_neg hc, if_neg hkc, hsign]
  | fin d =>
    simp only [Dbl.mul, Dbl.div]
    by_cases hpc : p - c = 0
    · have hkpc : k * (p - c) = 0 := (hzero _).2 hpc
      rw [if_pos hpc, if_pos hkpc]
      by_cases hcd : c * d = 0
      · have : k * c * d = 0 := by rw [mul_assoc, hcd, mul_zero]
        rw [if_pos hcd, if_pos this]
      · have hne : ¬ k * c * d = 0 := by
          rw [mul_assoc]
          exact fun h => hcd ((hzero _).1 h)
        rw [if_neg hcd, if_neg hne, mul_assoc, hsign]
    · have hkpc : ¬ k * (p - c) = 0 := fun h => hpc ((hzero _).1 h)
      rw [if_neg hpc, if_neg hkpc]
      congr 1
      rw [mul_assoc, mul_div_mul_left _ _ hk0]

/-- With accumulators that hold 0 on entry, multiplying every `x` of both
lists by `k > 0` leaves the value stored by `computeTTCLidar` unchanged. -/
theorem computeTTCLidar_scale_of_zero_start (k : ℚ) (hk : 0 < k)
    (prev curr : List LidarPoint) (frameRate : ℚ) :
    computeTTCLidar 0 0 (prev.map (LidarPoint.scaleX k)) (curr.map (LidarPoint.scaleX k))
        frameRate =
      computeTTCLidar 0 0 prev curr frameRate := by
  unfold computeTTCLidar
  rw [collectedEgoLaneX_scaleX, collectedEgoLaneX_scaleX]
  cases collectedEgoLaneX prev with
  | none => rfl
  | some ppx =>
    cases collectedEgoLaneX curr with
    | none => rfl
    | some pcx =>
      simp only [Option.map, List.length_map, laneStatistic_scale]
      split
      · rw [Dbl.scaled_quotient k hk]
      · rfl

/-! ## Claims on the scaling of `x` -/

/-- C14, evaluated on a target that approaches from 8.0 to 7.5 (frame rate 10)
with `min_px` and `min_cx` holding 1 on entry: the function stores 1.7 for the
scans and 1.6 for the same scans with every `x` doubled. -/
theorem computeTTCLidar_scaling_changes_result :
    computeTTCLidar 1 1 approachPrev approachCurr 10 = some (Dbl.fin (17 / 10)) ∧
    computeTTCLidar 1 1 (approachPrev.map (LidarPoint.scaleX 2))
      (approachCurr.map (LidarPoint.scaleX 2)) 10 = some (Dbl.fin (8 / 5)) := by
  decide!


/-! ## Lemmas on the translation of keypoints -/

theorem vecAt_map {α β : Type} (f : α → β) (v : List α) (i : Int) :
    vecAt (v.map f) i = (vecAt v i).map f := by
  unfold vecAt
  split
  · rw [List.getElem?_map]
  · rfl

theorem translate_sub (du dv : ℚ) (a b : KeyPoint) :
    (a.translate du dv).pt.sub (b.translate du dv).pt = a.pt.sub b.pt := by
  simp [KeyPoint.translate, Point2f.sub]

theorem innerRatios_translate (norm : Point2f → ℚ) (du dv : ℚ)
    (kptsPrev kptsCurr : List KeyPoint) (kc kp : KeyPoint) (rest : List DMatch) :
    innerRatios norm (kptsPrev.map (KeyPoint.translate du dv))
        (kptsCurr.map (KeyPoint.translate du dv)) (kc.translate du dv) (kp.translate du dv)
        rest =
      innerRatios norm kptsPrev kptsCurr kc kp rest := by
  induction rest with
  | nil => rfl
  | cons m t ih =>
    simp only [innerRatios, vecAtChecked, vecAt_map, ih]
    cases vecAt kptsCurr m.trainIdx <;> cases vecAt kptsPrev m.queryIdx <;>
      simp only [Option.map, translate_sub]

theorem outerRatios_translate (norm : Point2f → ℚ) (du dv : ℚ)
    (kptsPrev kptsCurr : List KeyPoint) :
    ∀ outer all : List DMatch,
      outerRatios norm (kptsPrev.map (KeyPoint.translate du dv))
          (kptsCurr.map (KeyPoint.translate du dv)) outer all =
        outerRatios norm kptsPrev kptsCurr outer all := by
  intro outer
  induction outer with
  | nil => intro all; simp [outerRatios]
  | cons m1 t ih =>
    intro all
    cases all with
    | nil => simp [outerRatios]
    | cons a rest =>
      simp only [outerRatios, vecAtChecked, vecAt_map, ih]
      cases vecAt kptsCurr m1.trainIdx <;> cases vecAt kptsPrev m1.queryIdx <;>
        simp only [Option.map, innerRatios_translate]

/-! ## Claims on the translation of keypoints -/

/-- C13: adding the same offset `(du, dv)` to every previous-frame and every
current-frame keypoint leaves what `computeTTCCamera` does unchanged: the same
value is stored (NaN in both cases, or the same value), or no value in both
cases. -/
theorem computeTTCCamera_translation_invariant (norm : Point2f → ℚ) (du dv : ℚ)
    (kptsPrev kptsCurr : List KeyPoint) (kptMatches : List DMatch) (frameRate : ℚ) :
    computeTTCCamera norm (kptsPrev.map (KeyPoint.translate du dv))
        (kptsCurr.map (KeyPoint.translate du dv)) kptMatches frameRate =
      computeTTCCamera norm kptsPrev kptsCurr kptMatches frameRate := by
  unfold computeTTCCamera distRatios
  cases beginToEndMinusOne kptMatches with
  | none => rfl
  | some outer => simp only [outerRatios_translate]


/-! ## Lemmas on what `clusterLidarWithROI` leaves unchanged -/

theorem assignLidarPoint_frame (boxes : List BoundingBox) (s : ℚ) (p : LidarPoint) (pt : Point) :
    (assignLidarPoint boxes s p pt).map BoundingBox.frame = boxes.map BoundingBox.frame := by
  unfold assignLidarPoint
  split
  · apply List.ext_getElem?
    intro n
    simp only [List.getElem?_map, List.getElem?_modify]
    split <;> cases boxes[n]? <;> simp [BoundingBox.frame]
  · rfl

theorem clusterLidarWithROI_frame (s : ℚ) (calib : Calibration) :
    ∀ (pts : List LidarPoint) (cur out : List BoundingBox),
      clusterLidarWithROI cur pts s calib = some out →
      out.map BoundingBox.frame = cur.map BoundingBox.frame := by
  intro pts
  induction pts with
  | nil =>
    intro cur out h
    simp only [clusterLidarWithROI, Option.some.injEq] at h
    rw [h]
  | cons p rest ih =>
    intro cur out h
    rw [clusterLidarWithROI] at h
    cases hpt : projectToPixel calib p with
    | none => simp [hpt] at h
    | some pt =>
      simp only [hpt] at h
      rw [ih _ _ h, assignLidarPoint_frame]

/-! ## Claims on what `clusterLidarWithROI` leaves unchanged -/

/-- C17: when every point has a defined pixel, `clusterLidarWithROI` returns a
vector of boxes of the same length in which every box keeps its `boxID`,
`roi`, `keypoints` and `kptMatches`, and whose `lidarPoints` are the previous
ones followed by a sublist of the input points (appended in input order). -/
theorem clusterLidarWithROI_mutates_only_lidarPoints (boxes : List BoundingBox)
    (pts : List LidarPoint) (s : ℚ) (calib : Calibration)
    (hproj : ∀ p ∈ pts, projectToPixel calib p ≠ none) :
    ∃ out, clusterLidarWithROI boxes pts s calib = some out ∧
      out.length = boxes.length ∧
      out.map BoundingBox.frame = boxes.map BoundingBox.frame ∧
      ∀ (b : Nat) (box box1 : BoundingBox), boxes[b]? = some box → out[b]? = some box1 →
        (box1.boxID = box.boxID ∧ box1.roi = box.roi ∧ box1.keypoints = box.keypoints ∧
          box1.kptMatches = box.kptMatches) ∧
        ∃ appended, box1.lidarPoints = box.lidarPoints ++ appended ∧
          appended.Sublist pts := by
  obtain ⟨out, hout, _, hlp⟩ := clusterLidarWithROI_spec_aux s calib boxes pts boxes rfl hproj
  have hframe := clusterLidarWithROI_frame s calib pts boxes out hout
  have hlen : out.length = boxes.length := by
    simpa using congrArg List.length hframe
  refine ⟨out, hout, hlen, hframe, fun b box box1 hb hb1 => ⟨?_, ?_⟩⟩
  · have h := congrArg (fun l => l[b]?) hframe
    simp only [List.getElem?_map, hb, hb1, Option.map, Option.some.injEq,
      BoundingBox.frame, Prod.mk.injEq] at h
    exact h
  · have h := hlp b
    simp only [hb, hb1, Option.map, Option.some.injEq] at h
    exact ⟨_, h, List.filter_sublist _⟩

/-- Witness of C17 on scenario S6 (shrink factor 1/10). -/
theorem clusterLidarWithROI_mutates_only_lidarPoints_witness :
    (∀ p ∈ s6Points, projectToPixel pinholeCalib p ≠ none) ∧
    ∃ out, clusterLidarWithROI s6Boxes s6Points (1 / 10) pinholeCalib = some out ∧
      out.length = s6Boxes.length ∧
      out.map BoundingBox.frame = s6Boxes.map BoundingBox.frame ∧
      ∀ (b : Nat) (box box1 : BoundingBox), s6Boxes[b]? = some box → out[b]? = some box1 →
        (box1.boxID = box.boxID ∧ box1.roi = box.roi ∧ box1.keypoints = box.keypoints ∧
          box1.kptMatches = box.kptMatches) ∧
        ∃ appended, box1.lidarPoints = box.lidarPoints ++ appended ∧
          appended.Sublist s6Points :=
  ⟨by decide!, clusterLidarWithROI_mutates_only_lidarPoints s6Boxes s6Points (1 / 10)
    pinholeCalib (by decide!)⟩

/-! ## Lemmas on the rounding -/

theorem cvRound_nonneg {q : ℚ} (h : 0 ≤ q) : 0 ≤ cvRound q := by
  have hf : (0 : Int) ≤ ⌊q⌋ := Int.floor_nonneg.2 h
  unfold cvRound
  simp only []
  split
  · exact hf
  · split
    · omega
    · split <;> omega

theorem cvRound_le_of_le_intCast {q : ℚ} {n : Int} (h : q ≤ (n : ℚ)) : cvRound q ≤ n := by
  have hfl : ⌊q⌋ ≤ n := by
    have h1 : (⌊q⌋ : ℚ) ≤ n := le_trans (Int.floor_le q) h
    exact_mod_cast h1
  rcases lt_or_eq_of_le hfl with hlt | heq
  · unfold cvRound
    simp only []
    split
    · omega
    · split
      · omega
      · split <;> omega
  · have hq : q = (n : ℚ) := by
      apply le_antisymm h
      have := Int.floor_le q
      rw [heq] at this
      exact this
    unfold cvRound
    simp only []
    rw [hq, Int.floor_intCast, sub_self]
    norm_num

theorem roundToPrecision_nonneg (p : Nat) {q : ℚ} (h : 0 ≤ q) : 0 ≤ roundToPrecision p q := by
  unfold roundToPrecision
  split
  · exact le_refl _
  · simp only []
    have hnot : ¬ q < 0 := not_lt.2 h
    rw [if_neg hnot, one_mul]
    apply mul_nonneg
    · have hdiv : 0 ≤ |q| / (2 : ℚ) ^ (Int.log 2 |q| - ((p : Int) - 1)) :=
        div_nonneg (abs_nonneg q) (le_of_lt (zpow_pos (by norm_num) _))
      exact_mod_cast cvRound_nonneg hdiv
    · exact le_of_lt (zpow_pos (by norm_num) _)

theorem roundToPrecision_le_one (p : Nat) {q : ℚ} (h0 : 0 ≤ q) (h1 : q < 1) :
    roundToPrecision p q ≤ 1 := by
  unfold roundToPrecision
  split
  · exact zero_le_one
  · rename_i hq
    simp only []
    have hpos : 0 < q := lt_of_le_of_ne h0 (Ne.symm hq)
    have hnot : ¬ q < 0 := not_lt.2 h0
    rw [if_neg hnot, one_mul, abs_of_pos hpos]
    have h2 : (1 : ℚ) < 2 := by norm_num
    have hulp : (0 : ℚ) < (2 : ℚ) ^ (Int.log 2 q - ((p : Int) - 1)) := zpow_pos (by norm_num) _
    have hlow : ((2 : ℕ) : ℚ) ^ Int.log 2 q ≤ q := Int.zpow_log_le_self (by norm_num) hpos
    have hupp : q < ((2 : ℕ) : ℚ) ^ (Int.log 2 q + 1) := Int.lt_zpow_succ_log_self (by norm_num) q
    have hcast : ((2 : ℕ) : ℚ) = 2 := by norm_num
    rw [hcast] at hlow hupp
    have he : Int.log 2 q < 0 := by
      have h3 : (2 : ℚ) ^ Int.log 2 q < (2 : ℚ) ^ (0 : Int) := by
        rw [zpow_zero]
        exact lt_of_le_of_lt hlow h1
      exact (zpow_lt_zpow_iff_right₀ h2).1 h3
    have hsplit : (2 : ℚ) ^ (Int.log 2 q + 1) =
        ((2 ^ p : Int) : ℚ) * (2 : ℚ) ^ (Int.log 2 q - ((p : Int) - 1)) := by
      have : Int.log 2 q + 1 = (p : Int) + (Int.log 2 q - ((p : Int) - 1)) := by ring
      rw [this, zpow_add₀ (by norm_num : (2 : ℚ) ≠ 0), zpow_natCast]
      push_cast
      rfl
    have hscaled : q / (2 : ℚ) ^ (Int.log 2 q - ((p : Int) - 1)) ≤ ((2 ^ p : Int) : ℚ) := by
      rw [div_le_iff₀ hulp, ← hsplit]
      exact le_of_lt hupp
    have hround := cvRound_le_of_le_intCast hscaled
    have hround' : ((cvRound (q / (2 : ℚ) ^ (Int.log 2 q - ((p : Int) - 1))) : Int) : ℚ) ≤
        ((2 ^ p : Int) : ℚ) := by exact_mod_cast hround
    calc ((cvRound (q / (2 : ℚ) ^ (Int.log 2 q - ((p : Int) - 1))) : Int) : ℚ) *
          (2 : ℚ) ^ (Int.log 2 q - ((p : Int) - 1))
        ≤ ((2 ^ p : Int) : ℚ) * (2 : ℚ) ^ (Int.log 2 q - ((p : Int) - 1)) :=
          mul_le_mul_of_nonneg_right hround' (le_of_lt hulp)
      _ = (2 : ℚ) ^ (Int.log 2 q + 1) := hsplit.symm
      _ ≤ (2 : ℚ) ^ (0 : Int) := zpow_le_zpow_right₀ (le_of_lt h2) (by omega)
      _ = 1 := zpow_zero _

/-! ## Lemmas on the shrunk rectangle -/

theorem truncToInt_of_nonneg {q : ℚ} (h : 0 ≤ q) : truncToInt q = ⌊q⌋ := by
  simp [truncToInt, h]

theorem truncToInt_intCast (n : Int) : truncToInt (n : ℚ) = n := by
  unfold truncToInt
  split <;> simp

theorem Rect.contains_iff (r : Rect) (pt : Point) :
    r.contains pt = true ↔
      (r.x ≤ pt.x ∧ pt.x < r.x + r.width ∧ r.y ≤ pt.y ∧ pt.y < r.y + r.height) := by
  simp only [Rect.contains, Bool.and_eq_true, decide_eq_true_eq]
  tauto

/-! ## Claims on the shrunk rectangle -/

/-- C18 fails: for the rectangle `(0, 0, 10, 10)` and `s` the `float` nearest
to 0.1 the integer rectangle tested is `(0, 0, 9, 9)`: the pixel `(0, 5)` is
accepted, although `x + s * w / 2` exceeds `u = 0`, and the pixel `(9, 5)` is
rejected, although `x + s * w / 2 ≤ 9 < x + s * w / 2 + w * (1 - s)`. -/
theorem shrinkRect_not_exact :
    (0 : ℚ) ≤ tenthFloat ∧ tenthFloat < 1 ∧
    shrinkRect tenRect tenthFloat = { x := 0, y := 0, width := 9, height := 9 } ∧
    (shrinkRect tenRect tenthFloat).contains leftEdgePixel = true ∧
    ¬ ((tenRect.x : ℚ) + tenthFloat * tenRect.width / 2 ≤ leftEdgePixel.x) ∧
    (shrinkRect tenRect tenthFloat).contains rightEdgePixel = false ∧
    ((tenRect.x : ℚ) + tenthFloat * tenRect.width / 2 ≤ rightEdgePixel.x ∧
      (rightEdgePixel.x : ℚ) <
        tenRect.x + tenthFloat * tenRect.width / 2 + tenRect.width * (1 - tenthFloat)) := by
  decide!

/-- C18 as amended: for `0 ≤ s < 1` the rectangle tested has integer fields.
Its origin is `x + (s * w) / 2`, `y + (s * h) / 2` and its size `w * (1 - s)`,
`h * (1 - s)` as the code computes them (`s` converted to `float`, the products
and `1 - s` rounded to `float`, the sums rounded to `double`), each truncated
toward zero when it is stored: a pixel `(u, v)` is accepted iff
`tx ≤ u < tx + tw` and `ty ≤ v < ty + th` for the truncated values.  For a
rectangle with non-negative coordinates and size the truncation rounds each
computed value down, and when the four computed values are the exact ones and
are integers the test is the one against the exact rectangle. -/
theorem shrinkRect_contains_iff (roi : Rect) (s : ℚ) (pt : Point) (hs0 : 0 ≤ s) (hs1 : s < 1) :
    ((shrinkRect roi s).contains pt = true ↔
      (truncToInt (fl64 (roi.x + fl32 (fl32 s * fl32 roi.width) / 2)) ≤ pt.x ∧
        pt.x < truncToInt (fl64 (roi.x + fl32 (fl32 s * fl32 roi.width) / 2)) +
          truncToInt (fl32 (fl32 roi.width * fl32 (1 - fl32 s))) ∧
        truncToInt (fl64 (roi.y + fl32 (fl32 s * fl32 roi.height) / 2)) ≤ pt.y ∧
        pt.y < truncToInt (fl64 (roi.y + fl32 (fl32 s * fl32 roi.height) / 2)) +
          truncToInt (fl32 (fl32 roi.height * fl32 (1 - fl32 s))))) ∧
    (0 ≤ roi.x → 0 ≤ roi.y → 0 ≤ roi.width → 0 ≤ roi.height →
      shrinkRect roi s =
        { x := ⌊fl64 (roi.x + fl32 (fl32 s * fl32 roi.width) / 2)⌋
          y := ⌊fl64 (roi.y + fl32 (fl32 s * fl32 roi.height) / 2)⌋
          width := ⌊fl32 (fl32 roi.width * fl32 (1 - fl32 s))⌋
          height := ⌊fl32 (fl32 roi.height * fl32 (1 - fl32 s))⌋ }) ∧
    (∀ X Y W H : Int,
      fl64 (roi.x + fl32 (fl32 s * fl32 roi.width) / 2) = roi.x + s * roi.width / 2 →
      (roi.x : ℚ) + s * roi.width / 2 = X →
      fl64 (roi.y + fl32 (fl32 s * fl32 roi.height) / 2) = roi.y + s * roi.height / 2 →
      (roi.y : ℚ) + s * roi.height / 2 = Y →
      fl32 (fl32 roi.width * fl32 (1 - fl32 s)) = roi.width * (1 - s) →
      (roi.width : ℚ) * (1 - s) = W →
      fl32 (fl32 roi.height * fl32 (1 - fl32 s)) = roi.height * (1 - s) →
      (roi.height : ℚ) * (1 - s) = H →
      ((shrinkRect roi s).contains pt = true ↔
        ((roi.x : ℚ) + s * roi.width / 2 ≤ pt.x ∧
          (pt.x : ℚ) < roi.x + s * roi.width / 2 + roi.width * (1 - s) ∧
          (roi.y : ℚ) + s * roi.height / 2 ≤ pt.y ∧
          (pt.y : ℚ) < roi.y + s * roi.height / 2 + roi.height * (1 - s)))) := by
  refine ⟨?_, ?_, ?_⟩
  · rw [Rect.contains_iff]
    rfl
  · intro hx hy hw hh
    have hx' : (0 : ℚ) ≤ roi.x := by exact_mod_cast hx
    have hy' : (0 : ℚ) ≤ roi.y := by exact_mod_cast hy
    have hw' : (0 : ℚ) ≤ roi.width := by exact_mod_cast hw
    have hh' : (0 : ℚ) ≤ roi.height := by exact_mod_cast hh
    have hs : 0 ≤ fl32 s := roundToPrecision_nonneg 24 hs0
    have h1s : 0 ≤ fl32 (1 - fl32 s) :=
      roundToPrecision_nonneg 24 (sub_nonneg.2 (roundToPrecision_le_one 24 hs0 hs1))
    have hfw : 0 ≤ fl32 roi.width := roundToPrecision_nonneg 24 hw'
    have hfh : 0 ≤ fl32 roi.height := roundToPrecision_nonneg 24 hh'
    have hpw : 0 ≤ fl32 (fl32 s * fl32 roi.width) :=
      roundToPrecision_nonneg 24 (mul_nonneg hs hfw)
    have hph : 0 ≤ fl32 (fl32 s * fl32 roi.height) :=
      roundToPrecision_nonneg 24 (mul_nonneg hs hfh)
    have e1 : 0 ≤ fl64 (roi.x + fl32 (fl32 s * fl32 roi.width) / 2) :=
      roundToPrecision_nonneg 53 (add_nonneg hx' (div_nonneg hpw (by norm_num)))
    have e2 : 0 ≤ fl64 (roi.y + fl32 (fl32 s * fl32 roi.height) / 2) :=
      roundToPrecision_nonneg 53 (add_nonneg hy' (div_nonneg hph (by norm_num)))
    have e3 : 0 ≤ fl32 (fl32 roi.width * fl32 (1 - fl32 s)) :=
      roundToPrecision_nonneg 24 (mul_nonneg hfw h1s)
    have e4 : 0 ≤ fl32 (fl32 roi.height * fl32 (1 - fl32 s)) :=
      roundToPrecision_nonneg 24 (mul_nonneg hfh h1s)
    unfold shrinkRect
    rw [truncToInt_of_nonneg e1, truncToInt_of_nonneg e2, truncToInt_of_nonneg e3,
      truncToInt_of_nonneg e4]
  · intro X Y W H cX hX cY hY cW hW cH hH
    rw [Rect.contains_iff]
    simp only [shrinkRect, cX, cY, cW, cH, hX, hY, hW, hH, truncToInt_intCast]
    constructor
    · rintro ⟨h1, h2, h3, h4⟩
      exact ⟨by exact_mod_cast h1, by exact_mod_cast h2, by exact_mod_cast h3,
        by exact_mod_cast h4⟩
    · rintro ⟨h1, h2, h3, h4⟩
      exact ⟨by exact_mod_cast h1, by exact_mod_cast h2, by exact_mod_cast h3,
        by exact_mod_cast h4⟩

/-- Witness of the amended C18 on the rectangle `(0, 0, 10, 10)`, `s = 0.1` and
the pixel `(0, 5)`; for the rectangle `(-16, 0, 200, 100)` and `s = 0.15` the
rectangle tested is `(0, 7, 170, 85)`. -/
theorem shrinkRect_contains_iff_witness :
    (0 : ℚ) ≤ 1 / 10 ∧ (1 / 10 : ℚ) < 1 ∧
    shrinkRect offsetRect (15 / 100) = { x := 0, y := 7, width := 170, height := 85 } ∧
    ((shrinkRect tenRect (1 / 10)).contains leftEdgePixel = true ↔
      (truncToInt (fl64 (tenRect.x + fl32 (fl32 (1 / 10) * fl32 tenRect.width) / 2)) ≤
          leftEdgePixel.x ∧
        leftEdgePixel.x <
          truncToInt (fl64 (tenRect.x + fl32 (fl32 (1 / 10) * fl32 tenRect.width) / 2)) +
            truncToInt (fl32 (fl32 tenRect.width * fl32 (1 - fl32 (1 / 10)))) ∧
        truncToInt (fl64 (tenRect.y + fl32 (fl32 (1 / 10) * fl32 tenRect.height) / 2)) ≤
          leftEdgePixel.y ∧
        leftEdgePixel.y <
          truncToInt (fl64 (tenRect.y + fl32 (fl32 (1 / 10) * fl32 tenRect.height) / 2)) +
            truncToInt (fl32 (fl32 tenRect.height * fl32 (1 - fl32 (1 / 10)))))) ∧
    shrinkRect tenRect (1 / 10) =
      { x := ⌊fl64 (tenRect.x + fl32 (fl32 (1 / 10) * fl32 tenRect.width) / 2)⌋
        y := ⌊fl64 (tenRect.y + fl32 (fl32 (1 / 10) * fl32 tenRect.height) / 2)⌋
        width := ⌊fl32 (fl32 tenRect.width * fl32 (1 - fl32 (1 / 10)))⌋
        height := ⌊fl32 (fl32 tenRect.height * fl32 (1 - fl32 (1 / 10)))⌋ } :=
  ⟨by decide!, by decide!, by decide!,
    (shrinkRect_contains_iff tenRect (1 / 10) leftEdgePixel (by decide!) (by decide!)).1,
    (shrinkRect_contains_iff tenRect (1 / 10) leftEdgePixel (by decide!) (by decide!)).2.1
      (by decide!) (by decide!) (by decide!) (by decide!)⟩

/-! ## Lemmas on the mean displacement -/

theorem matchDisplacement_nonneg (norm : Point2f → ℚ) (hnorm : ∀ v, 0 ≤ norm v)
    (kptsPrev kptsCurr : List KeyPoint) (m : DMatch) :
    0 ≤ matchDisplacement norm kptsPrev kptsCurr m := by
  unfold matchDisplacement
  split
  · exact hnorm _
  · exact le_refl _

theorem exists_lt_of_mean_pos (l : List ℚ) (hl : l ≠ [])
    (hpos : 0 < l.sum / (l.length : ℚ)) :
    ∃ x ∈ l, x < 13 / 10 * (l.sum / (l.length : ℚ)) := by
  by_contra hcon
  simp only [not_exists, not_and, not_lt] at hcon
  have hlen : (0 : ℚ) < (l.length : ℚ) := by
    exact_mod_cast List.length_pos.2 hl
  have h1 := List.card_nsmul_le_sum l _ hcon
  rw [nsmul_eq_mul] at h1
  have h2 : l.sum = (l.length : ℚ) * (l.sum / (l.length : ℚ)) := by
    field_simp
  have h3 : (l.length : ℚ) * (l.sum / (l.length : ℚ)) > 0 := mul_pos hlen hpos
  nlinarith

/-! ## Claims on the mean displacement -/

/-- C20: for a non-negative `norm`, valid matches and at least one match whose
current keypoint lies in the shrunk rectangle, `clusterKptMatchesWithROI`
appends at least one match if and only if the mean displacement of the
in-rectangle matches is strictly positive; when every in-rectangle match has
displacement zero, nothing is appended. -/
theorem clusterKptMatchesWithROI_keeps_iff_moving (norm : Point2f → ℚ)
    (hnorm : ∀ v, 0 ≤ norm v) (boundingBox : BoundingBox)
    (kptsPrev kptsCurr : List KeyPoint) (kptMatches : List DMatch)
    (hv : ∀ m ∈ kptMatches, m.valid kptsPrev kptsCurr)
    (hin : ∃ m ∈ kptMatches, currKeypointInShrunkROI boundingBox kptsCurr m = true) :
    ∃ out, clusterKptMatchesWithROI norm boundingBox kptsPrev kptsCurr kptMatches = some out ∧
      (boundingBox.kptMatches.length < out.kptMatches.length ↔
        0 < meanDisplacementInROI norm boundingBox kptsPrev kptsCurr kptMatches) ∧
      ((∀ m ∈ kptMatches, currKeypointInShrunkROI boundingBox kptsCurr m = true →
          matchDisplacement norm kptsPrev kptsCurr m = 0) →
        out.kptMatches = boundingBox.kptMatches) := by
  obtain ⟨out, hout, happ⟩ :=
    appended_kptMatches_aux norm boundingBox kptsPrev kptsCurr kptMatches hv
  have hiff : boundingBox.kptMatches.length < out.kptMatches.length ↔
      0 < meanDisplacementInROI norm boundingBox kptsPrev kptsCurr kptMatches := by
    rw [happ, List.length_append]
    constructor
    · intro hlt
      have hpos : 0 < (kptMatches.filter (fun m =>
          currKeypointInShrunkROI boundingBox kptsCurr m &&
            decide (matchDisplacement norm kptsPrev kptsCurr m <
              13 / 10 * meanDisplacementInROI norm boundingBox kptsPrev kptsCurr
                kptMatches))).length := by omega
      obtain ⟨m, hm⟩ := List.exists_mem_of_length_pos hpos
      have hm2 := (List.mem_filter.1 hm).2
      simp only [Bool.and_eq_true, decide_eq_true_eq] at hm2
      have := matchDisplacement_nonneg norm hnorm kptsPrev kptsCurr m
      linarith [hm2.2]
    · intro hmean
      obtain ⟨m0, hm0, hin0⟩ := hin
      have hne : (kptMatches.filter (currKeypointInShrunkROI boundingBox kptsCurr)).map
          (matchDisplacement norm kptsPrev kptsCurr) ≠ [] := by
        intro h
        have hmem : m0 ∈ kptMatches.filter (currKeypointInShrunkROI boundingBox kptsCurr) :=
          List.mem_filter.2 ⟨hm0, hin0⟩
        rw [List.map_eq_nil_iff] at h
        rw [h] at hmem
        cases hmem
      have hmean' : 0 < ((kptMatches.filter (currKeypointInShrunkROI boundingBox kptsCurr)).map
          (matchDisplacement norm kptsPrev kptsCurr)).sum /
          ((((kptMatches.filter (currKeypointInShrunkROI boundingBox kptsCurr)).map
            (matchDisplacement norm kptsPrev kptsCurr)).length : Nat) : ℚ) := by
        rw [List.length_map]
        exact hmean
      obtain ⟨x, hx, hxlt⟩ := exists_lt_of_mean_pos _ hne hmean'
      obtain ⟨m, hm, rfl⟩ := List.mem_map.1 hx
      rw [List.length_map] at hxlt
      have hmf := List.mem_filter.1 hm
      have hkeep : m ∈ kptMatches.filter (fun m =>
          currKeypointInShrunkROI boundingBox kptsCurr m &&
            decide (matchDisplacement norm kptsPrev kptsCurr m <
              13 / 10 * meanDisplacementInROI norm boundingBox kptsPrev kptsCurr
                kptMatches)) := by
        apply List.mem_filter.2
        refine ⟨hmf.1, ?_⟩
        simp only [Bool.and_eq_true, decide_eq_true_eq]
        exact ⟨hmf.2, hxlt⟩
      have := List.length_pos_of_mem hkeep
      omega
  refine ⟨out, hout, hiff, fun hzero => ?_⟩
  have hmean0 : meanDisplacementInROI norm boundingBox kptsPrev kptsCurr kptMatches = 0 := by
    unfold meanDisplacementInROI
    have : ((kptMatches.filter (currKeypointInShrunkROI boundingBox kptsCurr)).map
        (matchDisplacement norm kptsPrev kptsCurr)).sum = 0 := by
      apply List.sum_eq_zero
      intro x hx
      obtain ⟨m, hm, rfl⟩ := List.mem_map.1 hx
      have hmf := List.mem_filter.1 hm
      exact hzero m hmf.1 hmf.2
    rw [this, zero_div]
  have hnot : ¬ boundingBox.kptMatches.length < out.kptMatches.length := by
    rw [hiff, hmean0]
    exact lt_irrefl _
  rw [happ, List.length_append] at hnot
  have hnil : kptMatches.filter (fun m =>
      currKeypointInShrunkROI boundingBox kptsCurr m &&
        decide (matchDisplacement norm kptsPrev kptsCurr m <
          13 / 10 * meanDisplacementInROI norm boundingBox kptsPrev kptsCurr
            kptMatches)) = [] := by
    apply List.eq_nil_of_length_eq_zero
    omega
  rw [happ, hnil, List.append_nil]

/-- Witness of C20 on three in-rectangle matches with displacements 1, 1 and
10. -/
theorem clusterKptMatchesWithROI_keeps_iff_moving_witness :
    (∀ v, 0 ≤ axisNorm v) ∧
    (∀ m ∈ flowMatches, m.valid flowPrev flowCurr) ∧
    (∃ m ∈ flowMatches, currKeypointInShrunkROI (emptyBox 0 0 0 100 100) flowCurr m = true) ∧
    ∃ out, clusterKptMatchesWithROI axisNorm (emptyBox 0 0 0 100 100) flowPrev flowCurr
        flowMatches = some out ∧
      ((emptyBox 0 0 0 100 100).kptMatches.length < out.kptMatches.length ↔
        0 < meanDisplacementInROI axisNorm (emptyBox 0 0 0 100 100) flowPrev flowCurr
          flowMatches) ∧
      ((∀ m ∈ flowMatches, currKeypointInShrunkROI (emptyBox 0 0 0 100 100) flowCurr m = true →
          matchDisplacement axisNorm flowPrev flowCurr m = 0) →
        out.kptMatches = (emptyBox 0 0 0 100 100).kptMatches) :=
  ⟨fun v => add_nonneg (abs_nonneg v.x) (abs_nonneg v.y), by decide!, by decide!,
    clusterKptMatchesWithROI_keeps_iff_moving axisNorm
      (fun v => add_nonneg (abs_nonneg v.x) (abs_nonneg v.y)) (emptyBox 0 0 0 100 100)
      flowPrev flowCurr flowMatches (by decide!) (by decide!)⟩


/-! ## The mean displacement in `double` -/

theorem cvRound_ge_sub_half (y : ℚ) : y - 1 / 2 ≤ ((cvRound y : Int) : ℚ) := by
  have hfl : ((⌊y⌋ : Int) : ℚ) ≤ y := Int.floor_le y
  have hlt : y < ((⌊y⌋ : Int) : ℚ) + 1 := Int.lt_floor_add_one y
  unfold cvRound
  simp only []
  split
  · linarith
  · split
    · push_cast
      linarith
    · rename_i h1 h2
      split
      · linarith
      · push_cast
        linarith

theorem roundToPrecision_ge (p : Nat) {x : ℚ} (h : 0 ≤ x) :
    x * (1 - 1 / 2 ^ p) ≤ roundToPrecision p x := by
  unfold roundToPrecision
  split
  · rename_i hx
    rw [hx, zero_mul]
  · rename_i hx
    simp only []
    have hpos : 0 < x := lt_of_le_of_ne h (Ne.symm hx)
    have hnot : ¬ x < 0 := not_lt.2 h
    rw [if_neg hnot, one_mul, abs_of_pos hpos]
    have hulp : (0 : ℚ) < (2 : ℚ) ^ (Int.log 2 x - ((p : Int) - 1)) := zpow_pos (by norm_num) _
    have hlow : ((2 : ℕ) : ℚ) ^ Int.log 2 x ≤ x := Int.zpow_log_le_self (by norm_num) hpos
    have hcast : ((2 : ℕ) : ℚ) = 2 := by norm_num
    rw [hcast] at hlow
    have hsplit : (2 : ℚ) ^ (Int.log 2 x - ((p : Int) - 1)) =
        (2 : ℚ) ^ Int.log 2 x * (2 / 2 ^ p) := by
      have : Int.log 2 x - ((p : Int) - 1) = Int.log 2 x + (1 + -(p : Int)) := by ring
      rw [this, zpow_add₀ (by norm_num : (2 : ℚ) ≠ 0), zpow_add₀ (by norm_num : (2 : ℚ) ≠ 0),
        zpow_one, zpow_neg, zpow_natCast]
      rw [div_eq_mul_inv]
    have hulp_le : (2 : ℚ) ^ (Int.log 2 x - ((p : Int) - 1)) ≤ x * (2 / 2 ^ p) := by
      rw [hsplit]
      exact mul_le_mul_of_nonneg_right hlow (by positivity)
    have hr := cvRound_ge_sub_half (x / (2 : ℚ) ^ (Int.log 2 x - ((p : Int) - 1)))
    have hmul : (x / (2 : ℚ) ^ (Int.log 2 x - ((p : Int) - 1)) - 1 / 2) *
        (2 : ℚ) ^ (Int.log 2 x - ((p : Int) - 1)) ≤
        ((cvRound (x / (2 : ℚ) ^ (Int.log 2 x - ((p : Int) - 1))) : Int) : ℚ) *
          (2 : ℚ) ^ (Int.log 2 x - ((p : Int) - 1)) :=
      mul_le_mul_of_nonneg_right hr (le_of_lt hulp)
    have hexp : (x / (2 : ℚ) ^ (Int.log 2 x - ((p : Int) - 1)) - 1 / 2) *
        (2 : ℚ) ^ (Int.log 2 x - ((p : Int) - 1)) =
        x - (2 : ℚ) ^ (Int.log 2 x - ((p : Int) - 1)) / 2 := by
      field_simp
      ring
    rw [hexp] at hmul
    have : x * (1 - 1 / 2 ^ p) = x - x * (2 / 2 ^ p) / 2 := by ring
    rw [this]
    linarith


theorem fl64_nonneg {q : ℚ} (h : 0 ≤ q) : 0 ≤ fl64 q := roundToPrecision_nonneg 53 h

theorem fl64_ge {x : ℚ} (h : 0 ≤ x) : x * (1 - 1 / 2 ^ 53) ≤ fl64 x :=
  roundToPrecision_ge 53 h

theorem fl64_zero : fl64 0 = 0 := by
  unfold fl64 roundToPrecision
  rw [if_pos rfl]

/-- The rounded running sum of non-negative values loses at most the relative
error of one rounding per addition. -/
theorem foldl_fl64_ge : ∀ (ds : List ℚ), (∀ d ∈ ds, 0 ≤ d) → ∀ a0 : ℚ, 0 ≤ a0 →
    (a0 + ds.sum) * (1 - 1 / 2 ^ 53) ^ ds.length ≤
      ds.foldl (fun a x => fl64 (a + x)) a0 := by
  intro ds
  induction ds with
  | nil =>
    intro _ a0 _
    simp
  | cons d t ih =>
    intro hnn a0 ha
    have hd : 0 ≤ d := hnn d (by simp)
    have ht : ∀ x ∈ t, 0 ≤ x := fun x hx => hnn x (by simp [hx])
    have hts : 0 ≤ t.sum := List.sum_nonneg ht
    have hr : (a0 + d) * (1 - 1 / 2 ^ 53) ≤ fl64 (a0 + d) := fl64_ge (add_nonneg ha hd)
    have hr0 : 0 ≤ fl64 (a0 + d) := fl64_nonneg (add_nonneg ha hd)
    have h := ih ht (fl64 (a0 + d)) hr0
    rw [List.foldl_cons, List.sum_cons, List.length_cons, pow_succ]
    have hρ0 : (0 : ℚ) ≤ (1 - 1 / 2 ^ 53) ^ t.length := pow_nonneg (by norm_num) _
    have hstep : (a0 + (d + t.sum)) * (1 - 1 / 2 ^ 53) ≤ fl64 (a0 + d) + t.sum := by
      have : t.sum * (1 - 1 / 2 ^ 53) ≤ t.sum := by nlinarith
      linarith
    calc (a0 + (d + t.sum)) * ((1 - 1 / 2 ^ 53) ^ t.length * (1 - 1 / 2 ^ 53))
        = ((a0 + (d + t.sum)) * (1 - 1 / 2 ^ 53)) * (1 - 1 / 2 ^ 53) ^ t.length := by ring
      _ ≤ (fl64 (a0 + d) + t.sum) * (1 - 1 / 2 ^ 53) ^ t.length :=
        mul_le_mul_of_nonneg_right hstep hρ0
      _ ≤ _ := h

theorem foldl_fl64_nonneg : ∀ (ds : List ℚ), (∀ d ∈ ds, 0 ≤ d) → ∀ a0 : ℚ, 0 ≤ a0 →
    0 ≤ ds.foldl (fun a x => fl64 (a + x)) a0 := by
  intro ds
  induction ds with
  | nil =>
    intro _ a0 ha
    exact ha
  | cons d t ih =>
    intro hnn a0 ha
    rw [List.foldl_cons]
    exact ih (fun x hx => hnn x (by simp [hx])) _
      (fl64_nonneg (add_nonneg ha (hnn d (by simp))))

theorem accumulateDouble_zero : ∀ (ds : List ℚ), (∀ d ∈ ds, d = 0) →
    accumulateDouble ds = 0 := by
  intro ds
  unfold accumulateDouble
  induction ds with
  | nil =>
    intro _
    rfl
  | cons d t ih =>
    intro hz
    rw [List.foldl_cons, hz d (by simp), add_zero, fl64_zero]
    exact ih (fun x hx => hz x (by simp [hx]))

theorem exists_lt_of_mean_lt (l : List ℚ) (hl : l ≠ []) (t : ℚ)
    (ht : l.sum / (l.length : ℚ) < t) : ∃ x ∈ l, x < t := by
  by_contra hcon
  simp only [not_exists, not_and, not_lt] at hcon
  have hlen : (0 : ℚ) < (l.length : ℚ) := by
    exact_mod_cast List.length_pos.2 hl
  have h1 := List.card_nsmul_le_sum l _ hcon
  rw [nsmul_eq_mul] at h1
  have h2 : l.sum < (l.length : ℚ) * t := by
    rw [div_lt_iff₀ hlen] at ht
    linarith
  linarith

/-- Below `2 ^ 31` values, the threshold computed in `double` from a positive
mean exceeds the mean. -/
theorem mean_lt_binary64_threshold (l : List ℚ) (hnn : ∀ x ∈ l, 0 ≤ x)
    (hlen : l.length < 2 ^ 31) (hpos : 0 < l.sum / (l.length : ℚ)) :
    l.sum / (l.length : ℚ) <
      fl64 (fl64 (accumulateDouble l / (l.length : ℚ)) * fl64 (13 / 10)) := by
  have hn : (0 : ℚ) < (l.length : ℚ) := by
    rcases Nat.eq_zero_or_pos l.length with h0 | h0
    · rw [h0] at hpos
      simp at hpos
    · exact_mod_cast h0
  have hA : l.sum * (1 - 1 / 2 ^ 53) ^ l.length ≤ accumulateDouble l := by
    have := foldl_fl64_ge l hnn 0 (le_refl _)
    rwa [zero_add] at this
  have hA0 : 0 ≤ accumulateDouble l := foldl_fl64_nonneg l hnn 0 (le_refl _)
  have hq0 : 0 ≤ accumulateDouble l / (l.length : ℚ) := div_nonneg hA0 (le_of_lt hn)
  have hM := fl64_ge hq0
  have hM0 := fl64_nonneg hq0
  have hc : (13 / 10 : ℚ) ≤ fl64 (13 / 10) := by decide!
  have hc0 : (0 : ℚ) ≤ fl64 (13 / 10) := le_trans (by norm_num) hc
  have hT := fl64_ge (mul_nonneg hM0 hc0)
  have hB := one_add_mul_le_pow (show (-2 : ℚ) ≤ -(1 / 2 ^ 53) by norm_num) (l.length + 2)
  have hB2 : (1 - 1 / 2 ^ 21 : ℚ) ≤ (1 - 1 / 2 ^ 53) ^ (l.length + 2) := by
    have hcast : ((l.length + 2 : Nat) : ℚ) ≤ 2 ^ 32 := by
      have : l.length + 2 ≤ 2 ^ 32 := by omega
      exact_mod_cast this
    have e : (1 + -(1 / 2 ^ 53) : ℚ) = 1 - 1 / 2 ^ 53 := by ring
    rw [e] at hB
    refine le_trans ?_ hB
    have : ((l.length + 2 : Nat) : ℚ) * (1 / 2 ^ 53) ≤ 2 ^ 32 * (1 / 2 ^ 53) :=
      mul_le_mul_of_nonneg_right hcast (by norm_num)
    have e2 : (2 ^ 32 * (1 / 2 ^ 53) : ℚ) = 1 / 2 ^ 21 := by norm_num
    rw [e2] at this
    linarith
  -- the chain of the three roundings after the sum
  have hρ : (0 : ℚ) ≤ 1 - 1 / 2 ^ 53 := by norm_num
  have h1 : l.sum / (l.length : ℚ) * (1 - 1 / 2 ^ 53) ^ l.length ≤
      accumulateDouble l / (l.length : ℚ) := by
    rw [div_mul_eq_mul_div]
    exact div_le_div_of_nonneg_right hA (le_of_lt hn)
  have h2 : l.sum / (l.length : ℚ) * (1 - 1 / 2 ^ 53) ^ l.length * (1 - 1 / 2 ^ 53) ≤
      fl64 (accumulateDouble l / (l.length : ℚ)) :=
    le_trans (mul_le_mul_of_nonneg_right h1 hρ) hM
  have h3 : l.sum / (l.length : ℚ) * (1 - 1 / 2 ^ 53) ^ l.length * (1 - 1 / 2 ^ 53) * (13 / 10) ≤
      fl64 (accumulateDouble l / (l.length : ℚ)) * fl64 (13 / 10) :=
    mul_le_mul h2 hc (by norm_num) hM0
  have h4 : l.sum / (l.length : ℚ) * (1 - 1 / 2 ^ 53) ^ l.length * (1 - 1 / 2 ^ 53) * (13 / 10) *
      (1 - 1 / 2 ^ 53) ≤
      fl64 (fl64 (accumulateDouble l / (l.length : ℚ)) * fl64 (13 / 10)) :=
    le_trans (mul_le_mul_of_nonneg_right h3 hρ) hT
  have h5 : l.sum / (l.length : ℚ) * (1 - 1 / 2 ^ 53) ^ l.length * (1 - 1 / 2 ^ 53) * (13 / 10) *
      (1 - 1 / 2 ^ 53) =
      l.sum / (l.length : ℚ) * (13 / 10) * (1 - 1 / 2 ^ 53) ^ (l.length + 2) := by
    rw [pow_add]
    ring
  rw [h5] at h4
  have h6 : l.sum / (l.length : ℚ) * (13 / 10) * (1 - 1 / 2 ^ 21) ≤
      l.sum / (l.length : ℚ) * (13 / 10) * (1 - 1 / 2 ^ 53) ^ (l.length + 2) :=
    mul_le_mul_of_nonneg_left hB2 (mul_nonneg (le_of_lt hpos) (by norm_num))
  have h7 : l.sum / (l.length : ℚ) < l.sum / (l.length : ℚ) * (13 / 10) * (1 - 1 / 2 ^ 21) := by
    have : (1 : ℚ) < 13 / 10 * (1 - 1 / 2 ^ 21) := by norm_num
    calc l.sum / (l.length : ℚ) = l.sum / (l.length : ℚ) * 1 := (mul_one _).symm
      _ < l.sum / (l.length : ℚ) * (13 / 10 * (1 - 1 / 2 ^ 21)) :=
        mul_lt_mul_of_pos_left this hpos
      _ = _ := by ring
  linarith


/-- The matches `clusterKptMatchesWithROI_binary64` appends on valid
matches. -/
theorem appended_kptMatches_binary64_aux (norm : Point2f → ℚ) (boundingBox : BoundingBox)
    (kptsPrev kptsCurr : List KeyPoint) (kptMatches : List DMatch)
    (hv : ∀ m ∈ kptMatches, m.valid kptsPrev kptsCurr) :
    ∃ out, clusterKptMatchesWithROI_binary64 norm boundingBox kptsPrev kptsCurr kptMatches =
        some out ∧
      out.kptMatches = boundingBox.kptMatches ++ kptMatches.filter (fun m =>
        currKeypointInShrunkROI boundingBox kptsCurr m &&
          decide (matchDisplacement norm kptsPrev kptsCurr m <
            computedInlierThreshold norm boundingBox kptsPrev kptsCurr kptMatches)) := by
  obtain ⟨out, hout, _, hk⟩ := keepInliers_spec norm boundingBox
    (euclideanDistanceMean_Augment
      ((kptMatches.filter (currKeypointInShrunkROI boundingBox kptsCurr)).map
        (matchDisplacement norm kptsPrev kptsCurr)))
    kptsPrev kptsCurr kptMatches boundingBox rfl hv
  refine ⟨out, ?_, ?_⟩
  · unfold clusterKptMatchesWithROI_binary64
    simp only [roiDistances_spec norm boundingBox kptsPrev kptsCurr kptMatches hv]
    exact hout
  · rw [hk]
    congr 1
    apply List.filter_congr
    intro m hm
    by_cases hin : currKeypointInShrunkROI boundingBox kptsCurr m = true
    · have hmem : m ∈ kptMatches.filter (currKeypointInShrunkROI boundingBox kptsCurr) :=
        List.mem_filter.2 ⟨hm, hin⟩
      have hlen : ((kptMatches.filter (currKeypointInShrunkROI boundingBox kptsCurr)).length : ℚ)
          ≠ 0 := by
        have := List.length_pos_of_mem hmem
        exact_mod_cast Nat.pos_iff_ne_zero.1 this
      simp only [hin, Bool.true_and, euclideanDistanceMean_Augment, euclideanDistanceMeanDouble,
        Dbl.div, Dbl.mul, Dbl.round64, Dbl.finLt, List.length_map, if_neg hlen,
        computedInlierThreshold]
    · simp [hin]

/-- When every in-rectangle match has displacement zero, the threshold computed
in `double` is zero. -/
theorem computedInlierThreshold_zero (norm : Point2f → ℚ) (boundingBox : BoundingBox)
    (kptsPrev kptsCurr : List KeyPoint) (kptMatches : List DMatch)
    (hzero : ∀ m ∈ kptMatches, currKeypointInShrunkROI boundingBox kptsCurr m = true →
      matchDisplacement norm kptsPrev kptsCurr m = 0) :
    computedInlierThreshold norm boundingBox kptsPrev kptsCurr kptMatches = 0 := by
  unfold computedInlierThreshold
  rw [accumulateDouble_zero, zero_div, fl64_zero, zero_mul, fl64_zero]
  intro x hx
  obtain ⟨m, hm, rfl⟩ := List.mem_map.1 hx
  have hmf := List.mem_filter.1 hm
  exact hzero m hmf.1 hmf.2

/-- For a non-negative `norm`, valid matches of which at least one and fewer
than `2 ^ 31` are given, `clusterKptMatchesWithROI_binary64` appends at least
one match if and only if the mean displacement of the in-rectangle matches is
strictly positive; when every in-rectangle match has displacement zero, nothing
is appended.  The rounding of lines 169 and 182 does not change which of the
two cases occurs. -/
theorem keeps_iff_moving_binary64 (norm : Point2f → ℚ)
    (hnorm : ∀ v, 0 ≤ norm v) (boundingBox : BoundingBox)
    (kptsPrev kptsCurr : List KeyPoint) (kptMatches : List DMatch)
    (hv : ∀ m ∈ kptMatches, m.valid kptsPrev kptsCurr)
    (hin : ∃ m ∈ kptMatches, currKeypointInShrunkROI boundingBox kptsCurr m = true)
    (hlen : kptMatches.length < 2 ^ 31) :
    ∃ out, clusterKptMatchesWithROI_binary64 norm boundingBox kptsPrev kptsCurr kptMatches =
        some out ∧
      (boundingBox.kptMatches.length < out.kptMatches.length ↔
        0 < meanDisplacementInROI norm boundingBox kptsPrev kptsCurr kptMatches) ∧
      ((∀ m ∈ kptMatches, currKeypointInShrunkROI boundingBox kptsCurr m = true →
          matchDisplacement norm kptsPrev kptsCurr m = 0) →
        out.kptMatches = boundingBox.kptMatches) := by
  obtain ⟨out, hout, happ⟩ :=
    appended_kptMatches_binary64_aux norm boundingBox kptsPrev kptsCurr kptMatches hv
  have hnn : ∀ x ∈ (kptMatches.filter (currKeypointInShrunkROI boundingBox kptsCurr)).map
      (matchDisplacement norm kptsPrev kptsCurr), 0 ≤ x := by
    intro x hx
    obtain ⟨m, _, rfl⟩ := List.mem_map.1 hx
    exact matchDisplacement_nonneg norm hnorm kptsPrev kptsCurr m
  have hnil_of_zero : (∀ m ∈ kptMatches, currKeypointInShrunkROI boundingBox kptsCurr m = true →
      matchDisplacement norm kptsPrev kptsCurr m = 0) →
      kptMatches.filter (fun m =>
        currKeypointInShrunkROI boundingBox kptsCurr m &&
          decide (matchDisplacement norm kptsPrev kptsCurr m <
            computedInlierThreshold norm boundingBox kptsPrev kptsCurr kptMatches)) = [] := by
    intro hzero
    rw [computedInlierThreshold_zero norm boundingBox kptsPrev kptsCurr kptMatches hzero]
    apply List.filter_eq_nil_iff.2
    intro m hm
    simp only [Bool.and_eq_true, decide_eq_true_eq, not_and, not_lt]
    intro hroi
    rw [hzero m hm hroi]
  refine ⟨out, hout, ?_, fun hzero => ?_⟩
  · rw [happ, List.length_append]
    constructor
    · intro hlt
      by_contra hmean
      have hsum0 : ((kptMatches.filter (currKeypointInShrunkROI boundingBox kptsCurr)).map
          (matchDisplacement norm kptsPrev kptsCurr)).sum ≤ 0 := by
        by_contra hs
        apply hmean
        unfold meanDisplacementInROI
        obtain ⟨m0, hm0, hin0⟩ := hin
        have hmem : m0 ∈ kptMatches.filter (currKeypointInShrunkROI boundingBox kptsCurr) :=
          List.mem_filter.2 ⟨hm0, hin0⟩
        have hl : (0 : ℚ) <
            ((kptMatches.filter (currKeypointInShrunkROI boundingBox kptsCurr)).length : ℚ) := by
          exact_mod_cast List.length_pos_of_mem hmem
        exact div_pos (not_le.1 hs) hl
      have hzero : ∀ m ∈ kptMatches, currKeypointInShrunkROI boundingBox kptsCurr m = true →
          matchDisplacement norm kptsPrev kptsCurr m = 0 := by
        intro m hm hroi
        have hmem : matchDisplacement norm kptsPrev kptsCurr m ∈
            (kptMatches.filter (currKeypointInShrunkROI boundingBox kptsCurr)).map
              (matchDisplacement norm kptsPrev kptsCurr) :=
          List.mem_map.2 ⟨m, List.mem_filter.2 ⟨hm, hroi⟩, rfl⟩
        have hle := List.single_le_sum hnn _ hmem
        exact le_antisymm (le_trans hle hsum0)
          (matchDisplacement_nonneg norm hnorm kptsPrev kptsCurr m)
      rw [hnil_of_zero hzero] at hlt
      simp at hlt
    · intro hmean
      obtain ⟨m0, hm0, hin0⟩ := hin
      have hne : (kptMatches.filter (currKeypointInShrunkROI boundingBox kptsCurr)).map
          (matchDisplacement norm kptsPrev kptsCurr) ≠ [] := by
        intro h
        have hmem : m0 ∈ kptMatches.filter (currKeypointInShrunkROI boundingBox kptsCurr) :=
          List.mem_filter.2 ⟨hm0, hin0⟩
        rw [List.map_eq_nil_iff] at h
        rw [h] at hmem
        cases hmem
      have hmean' : 0 < ((kptMatches.filter (currKeypointInShrunkROI boundingBox kptsCurr)).map
          (matchDisplacement norm kptsPrev kptsCurr)).sum /
          ((((kptMatches.filter (currKeypointInShrunkROI boundingBox kptsCurr)).map
            (matchDisplacement norm kptsPrev kptsCurr)).length : Nat) : ℚ) := by
        rw [List.length_map]
        exact hmean
      have hshort : ((kptMatches.filter (currKeypointInShrunkROI boundingBox kptsCurr)).map
          (matchDisplacement norm kptsPrev kptsCurr)).length < 2 ^ 31 := by
        rw [List.length_map]
        exact lt_of_le_of_lt (List.length_filter_le _ _) hlen
      have hthr := mean_lt_binary64_threshold _ hnn hshort hmean'
      obtain ⟨x, hx, hxlt⟩ := exists_lt_of_mean_lt _ hne _ hthr
      obtain ⟨m, hm, rfl⟩ := List.mem_map.1 hx
      rw [List.length_map] at hxlt
      have hmf := List.mem_filter.1 hm
      have hkeep : m ∈ kptMatches.filter (fun m =>
          currKeypointInShrunkROI boundingBox kptsCurr m &&
            decide (matchDisplacement norm kptsPrev kptsCurr m <
              computedInlierThreshold norm boundingBox kptsPrev kptsCurr kptMatches)) := by
        apply List.mem_filter.2
        refine ⟨hmf.1, ?_⟩
        simp only [Bool.and_eq_true, decide_eq_true_eq]
        exact ⟨hmf.2, hxlt⟩
      have := List.length_pos_of_mem hkeep
      omega
  · rw [happ, hnil_of_zero hzero, List.append_nil]

/-! ## Lemmas on the pairs of `computeTTCCamera` -/

theorem mem_pairPositions (n i j : Nat) : (i, j) ∈ pairPositions n ↔ i < j ∧ j < n := by
  unfold pairPositions
  simp only [List.mem_flatMap, List.mem_range, List.mem_map, List.mem_range'_1, Prod.mk.injEq]
  constructor
  · rintro ⟨a, ha, b, ⟨hb1, hb2⟩, rfl, rfl⟩
    omega
  · rintro ⟨h1, h2⟩
    exact ⟨i, by omega, j, ⟨by omega, by omega⟩, rfl, rfl⟩

theorem pairPositions_nodup (n : Nat) : (pairPositions n).Nodup := by
  unfold pairPositions
  rw [List.nodup_flatMap]
  constructor
  · intro i _
    apply List.Nodup.map
    · intro a b h
      exact (Prod.mk.inj h).2
    · exact List.nodup_range' _ _
  · apply List.Pairwise.imp _ (List.nodup_range n)
    intro a b hab
    simp only [Function.onFun, List.disjoint_left, List.mem_map]
    rintro ⟨x, y⟩ ⟨j, _, hj⟩ ⟨j1, _, hj1⟩
    exact hab ((Prod.mk.inj hj).1.trans (Prod.mk.inj hj1).1.symm)

theorem filterMap_positions_tail {α β : Type} (h : α → Option β) :
    ∀ (t pre : List α),
      (List.range' pre.length t.length).filterMap
          (fun j => match (pre ++ t)[j]? with
            | some b => h b
            | none => none) =
        t.filterMap h := by
  intro t
  induction t with
  | nil => intro pre; rfl
  | cons b t ih =>
    intro pre
    have hb : (pre ++ b :: t)[pre.length]? = some b := by
      rw [List.getElem?_append_right (le_refl _)]
      simp
    have hassoc : pre ++ b :: t = (pre ++ [b]) ++ t := by simp
    have hlen : (pre ++ [b]).length = pre.length + 1 := by simp
    rw [List.length_cons, List.range'_succ, List.filterMap_cons, List.filterMap_cons]
    simp only [hb]
    have ih' := ih (pre ++ [b])
    rw [hlen, ← hassoc] at ih'
    rw [ih']

theorem pairsBy_positions_aux {α β : Type} (f : α → α → Option β) :
    ∀ (l pre : List α) (N : Nat), N = pre.length + l.length →
      pairsBy f l =
        ((List.range' pre.length l.length).flatMap
            (fun i => (List.range' (i + 1) (N - (i + 1))).map fun j => (i, j))).filterMap
          (fun ij => match (pre ++ l)[ij.1]?, (pre ++ l)[ij.2]? with
            | some a, some b => f a b
            | _, _ => none) := by
  intro l
  induction l with
  | nil => intro pre N _; rfl
  | cons a t ih =>
    intro pre N hN
    have ha : (pre ++ a :: t)[pre.length]? = some a := by
      rw [List.getElem?_append_right (le_refl _)]
      simp
    have hassoc : pre ++ a :: t = (pre ++ [a]) ++ t := by simp
    have hlen : (pre ++ [a]).length = pre.length + 1 := by simp
    have hN1 : N - (pre.length + 1) = t.length := by
      rw [List.length_cons] at hN
      omega
    have hN2 : N = (pre ++ [a]).length + t.length := by
      rw [List.length_cons] at hN
      rw [hlen]
      omega
    rw [pairsBy, List.length_cons, List.range'_succ, List.flatMap_cons, List.filterMap_append,
      List.filterMap_map, hN1]
    congr 1
    · have h1 := filterMap_positions_tail (f a) t (pre ++ [a])
      rw [hlen, ← hassoc] at h1
      rw [← h1]
      apply List.filterMap_congr
      intro j _
      simp only [Function.comp, ha]
      cases (pre ++ a :: t)[j]? <;> rfl
    · have h2 := ih (pre ++ [a]) N hN2
      rw [hlen, ← hassoc] at h2
      exact h2

theorem pairsBy_positions {α β : Type} (f : α → α → Option β) (l : List α) :
    pairsBy f l =
      (pairPositions l.length).filterMap
        (fun ij => match l[ij.1]?, l[ij.2]? with
          | some a, some b => f a b
          | _, _ => none) := by
  have h := pairsBy_positions_aux f l [] l.length (by simp)
  rw [h, pairPositions, List.range_eq_range']
  rfl

theorem matchKeypoints_of_valid {kptsPrev kptsCurr : List KeyPoint} {m : DMatch}
    (h : m.valid kptsPrev kptsCurr) :
    ∃ kc kp, vecAt kptsCurr m.trainIdx = some kc ∧ vecAt kptsPrev m.queryIdx = some kp ∧
      matchKeypoints kptsPrev kptsCurr m = some (kc, kp) := by
  obtain ⟨h0, h1, h2, h3⟩ := h
  obtain ⟨kp, hkp⟩ := vecAt_of_bounds kptsPrev m.queryIdx h0 h1
  obtain ⟨kc, hkc⟩ := vecAt_of_bounds kptsCurr m.trainIdx h2 h3
  exact ⟨kc, kp, hkc, hkp, by simp [matchKeypoints, hkc, hkp]⟩

theorem innerRatios_eq (norm : Point2f → ℚ) (kptsPrev kptsCurr : List KeyPoint)
    (m1 : DMatch) (kc kp : KeyPoint)
    (hm1 : matchKeypoints kptsPrev kptsCurr m1 = some (kc, kp)) :
    ∀ rest : List DMatch, (∀ m ∈ rest, m.valid kptsPrev kptsCurr) →
      innerRatios norm kptsPrev kptsCurr kc kp rest =
        some (rest.filterMap (pairRatio norm kptsPrev kptsCurr m1)) := by
  intro rest
  induction rest with
  | nil => intro _; rfl
  | cons m2 t ih =>
    intro hv
    obtain ⟨c2, p2, hc2, hp2, hk2⟩ := matchKeypoints_of_valid (hv m2 (by simp))
    have ih' := ih (fun x hx => hv x (by simp [hx]))
    rw [innerRatios]
    simp only [vecAtChecked, hc2, hp2, ih', List.filterMap_cons, pairRatio, hm1, hk2]
    split <;> rfl

theorem outerRatios_eq (norm : Point2f → ℚ) (kptsPrev kptsCurr : List KeyPoint) :
    ∀ l : List DMatch, l ≠ [] → (∀ m ∈ l, m.valid kptsPrev kptsCurr) →
      outerRatios norm kptsPrev kptsCurr l.dropLast l =
        some (pairsBy (pairRatio norm kptsPrev kptsCurr) l) := by
  intro l
  induction l with
  | nil => intro h; exact absurd rfl h
  | cons a t ih =>
    intro _ hv
    cases t with
    | nil => simp [outerRatios, pairsBy]
    | cons b t1 =>
      obtain ⟨kc, kp, hc, hp, hk⟩ := matchKeypoints_of_valid (hv a (by simp))
      have hrest : ∀ m ∈ b :: t1, m.valid kptsPrev kptsCurr :=
        fun x hx => hv x (List.mem_cons_of_mem a hx)
      have ih' := ih (List.cons_ne_nil b t1) hrest
      have hdrop : (a :: b :: t1).dropLast = a :: (b :: t1).dropLast := rfl
      rw [hdrop, outerRatios]
      simp only [vecAtChecked, hc, hp, innerRatios_eq norm kptsPrev kptsCurr a kc kp hk _ hrest,
        ih']
      rfl

theorem distRatios_eq (norm : Point2f → ℚ) (kptsPrev kptsCurr : List KeyPoint)
    (l : List DMatch) (hne : l ≠ []) (hv : ∀ m ∈ l, m.valid kptsPrev kptsCurr) :
    distRatios norm kptsPrev kptsCurr l = some (mandatedRatios norm kptsPrev kptsCurr l) := by
  unfold distRatios
  rw [beginToEndMinusOne_of_ne_nil hne]
  show outerRatios norm kptsPrev kptsCurr l.dropLast l = _
  rw [outerRatios_eq norm kptsPrev kptsCurr l hne hv, pairsBy_positions, mandatedRatios]
  congr 1
  apply List.filterMap_congr
  intro ij _
  cases l[ij.1]? <;> cases l[ij.2]? <;> rfl

theorem medDistRatio_isMedian (rs : List ℚ) : IsMedianOf (medDistRatio rs) rs := by
  refine ⟨rs.insertionSort (fun a b => a ≤ b), List.perm_insertionSort _ rs,
    List.sorted_insertionSort _ rs, ?_⟩
  unfold medDistRatio
  by_cases h : (rs.insertionSort (fun a b => a ≤ b)).length % 2 = 0
  · have h1 : ¬ (rs.insertionSort (fun a b => a ≤ b)).length % 2 = 1 := by omega
    rw [if_pos h, if_neg h1]
  · have h1 : (rs.insertionSort (fun a b => a ≤ b)).length % 2 = 1 := by omega
    rw [if_neg h, if_pos h1]


theorem computeTTCCamera_of_ratios (norm : Point2f → ℚ) (kptsPrev kptsCurr : List KeyPoint)
    (ms : List DMatch) (frameRate : ℚ) (rs : List ℚ)
    (hrs : distRatios norm kptsPrev kptsCurr ms = some rs) :
    computeTTCCamera norm kptsPrev kptsCurr ms frameRate =
      if rs.length = 0 then some Dbl.nan
      else some (Dbl.div (Dbl.neg (Dbl.div (Dbl.fin 1) (Dbl.fin frameRate)))
        (Dbl.fin (1 - medDistRatio rs))) := by
  simp only [computeTTCCamera, hrs]

/-- On a non-empty list of valid matches without any qualifying pair,
`computeTTCCamera` stores NaN. -/
theorem computeTTCCamera_nan_of_no_ratio (norm : Point2f → ℚ)
    (kptsPrev kptsCurr : List KeyPoint) (ms : List DMatch) (frameRate : ℚ) (hne : ms ≠ [])
    (hv : ∀ m ∈ ms, m.valid kptsPrev kptsCurr)
    (hnone : mandatedRatios norm kptsPrev kptsCurr ms = []) :
    computeTTCCamera norm kptsPrev kptsCurr ms frameRate = some Dbl.nan := by
  rw [computeTTCCamera_of_ratios norm kptsPrev kptsCurr ms frameRate _
    (distRatios_eq norm kptsPrev kptsCurr ms hne hv), hnone]
  rfl

/-! ## Claims on `computeTTCCamera` -/

/-- C11: for at least two valid matches and `frameRate > 0`, the ratios
`computeTTCCamera` collects are exactly the ratios `d_curr / d_prev` of the
unordered pairs of distinct list positions with `d_prev > epsilon` and
`d_curr ≥ 100` (each pair `i < j` once), and when at least one ratio is
collected the value stored is `-(1 / frameRate) / (1 - r)` for the median `r`
of the collected ratios. -/
theorem computeTTCCamera_median_of_pairs (norm : Point2f → ℚ)
    (kptsPrev kptsCurr : List KeyPoint) (kptMatches : List DMatch) (frameRate : ℚ)
    (hv : ∀ m ∈ kptMatches, m.valid kptsPrev kptsCurr) (hlen : 2 ≤ kptMatches.length)
    (hfr : 0 < frameRate) :
    (∀ i j, (i, j) ∈ pairPositions kptMatches.length ↔ i < j ∧ j < kptMatches.length) ∧
    (pairPositions kptMatches.length).Nodup ∧
    distRatios norm kptsPrev kptsCurr kptMatches =
      some (mandatedRatios norm kptsPrev kptsCurr kptMatches) ∧
    (mandatedRatios norm kptsPrev kptsCurr kptMatches ≠ [] →
      ∃ r, IsMedianOf r (mandatedRatios norm kptsPrev kptsCurr kptMatches) ∧
        computeTTCCamera norm kptsPrev kptsCurr kptMatches frameRate =
          some (Dbl.div (Dbl.fin (-(1 / frameRate))) (Dbl.fin (1 - r))) ∧
        (r ≠ 1 → computeTTCCamera norm kptsPrev kptsCurr kptMatches frameRate =
          some (Dbl.fin (-(1 / frameRate) / (1 - r))))) := by
  have hne : kptMatches ≠ [] := by
    intro h
    rw [h] at hlen
    exact absurd hlen (by decide)
  have hrs := distRatios_eq norm kptsPrev kptsCurr kptMatches hne hv
  refine ⟨mem_pairPositions _, pairPositions_nodup _, hrs, fun hsome => ?_⟩
  have hfr0 : frameRate ≠ 0 := ne_of_gt hfr
  have hlen0 : ¬ (mandatedRatios norm kptsPrev kptsCurr kptMatches).length = 0 :=
    fun h => hsome (List.eq_nil_of_length_eq_zero h)
  have hval : computeTTCCamera norm kptsPrev kptsCurr kptMatches frameRate =
      some (Dbl.div (Dbl.fin (-(1 / frameRate)))
        (Dbl.fin (1 - medDistRatio (mandatedRatios norm kptsPrev kptsCurr kptMatches)))) := by
    rw [computeTTCCamera_of_ratios norm kptsPrev kptsCurr kptMatches frameRate _ hrs,
      if_neg hlen0]
    simp only [Dbl.div, Dbl.neg, if_neg hfr0]
  refine ⟨_, medDistRatio_isMedian _, hval, fun hr => ?_⟩
  rw [hval]
  have hden : (1 : ℚ) - medDistRatio (mandatedRatios norm kptsPrev kptsCurr kptMatches) ≠ 0 :=
    sub_ne_zero.2 (Ne.symm hr)
  simp only [Dbl.div, if_neg hden]

/-- Witness of C11 on scenario S4: the one collected ratio is 1.1 and, at
`frameRate = 10`, the value stored is 1.0. -/
theorem computeTTCCamera_median_of_pairs_witness :
    (∀ m ∈ zoomMatches, m.valid zoomPrev zoomCurr) ∧ 2 ≤ zoomMatches.length ∧ (0 : ℚ) < 10 ∧
    mandatedRatios axisNorm zoomPrev zoomCurr zoomMatches = [11 / 10] ∧
    computeTTCCamera axisNorm zoomPrev zoomCurr zoomMatches 10 = some (Dbl.fin 1) ∧
    ((∀ i j, (i, j) ∈ pairPositions zoomMatches.length ↔ i < j ∧ j < zoomMatches.length) ∧
    (pairPositions zoomMatches.length).Nodup ∧
    distRatios axisNorm zoomPrev zoomCurr zoomMatches =
      some (mandatedRatios axisNorm zoomPrev zoomCurr zoomMatches) ∧
    (mandatedRatios axisNorm zoomPrev zoomCurr zoomMatches ≠ [] →
      ∃ r, IsMedianOf r (mandatedRatios axisNorm zoomPrev zoomCurr zoomMatches) ∧
        computeTTCCamera axisNorm zoomPrev zoomCurr zoomMatches 10 =
          some (Dbl.div (Dbl.fin (-(1 / 10))) (Dbl.fin (1 - r))) ∧
        (r ≠ 1 → computeTTCCamera axisNorm zoomPrev zoomCurr zoomMatches 10 =
          some (Dbl.fin (-(1 / 10) / (1 - r)))))) :=
  ⟨by decide!, by decide!, by decide!, by decide!, by decide!,
    computeTTCCamera_median_of_pairs axisNorm zoomPrev zoomCurr zoomMatches 10
      (by decide!) (by decide!) (by decide!)⟩

/-- C12, evaluated on the empty match list: the function stores no value (the
loop bound `end() - 1` of an empty vector is undefined), whatever the other
arguments. -/
theorem computeTTCCamera_empty_list_undefined (norm : Point2f → ℚ)
    (kptsPrev kptsCurr : List KeyPoint) (frameRate : ℚ) :
    computeTTCCamera norm kptsPrev kptsCurr [] frameRate = none :=
  rfl


/-! ## Lemmas on the order of the matches -/

theorem pairsBy_perm {α β : Type} (f : α → α → Option β) (hf : ∀ a b, f a b = f b a)
    {l l1 : List α} (h : l.Perm l1) : (pairsBy f l).Perm (pairsBy f l1) := by
  induction h with
  | nil => exact List.Perm.refl _
  | cons a hp ih =>
    simp only [pairsBy]
    exact List.Perm.append (List.Perm.filterMap _ hp) ih
  | swap a b t =>
    simp only [pairsBy, List.filterMap_cons, hf a b]
    cases f b a with
    | none =>
      simp only []
      rw [← List.append_assoc, ← List.append_assoc]
      exact List.Perm.append_right _ List.perm_append_comm
    | some r =>
      simp only [List.cons_append]
      apply List.Perm.cons
      rw [← List.append_assoc, ← List.append_assoc]
      exact List.Perm.append_right _ List.perm_append_comm
  | trans _ _ ih1 ih2 => exact ih1.trans ih2

theorem pairRatio_symm (norm : Point2f → ℚ)
    (hsym : ∀ a b : Point2f, norm (a.sub b) = norm (b.sub a))
    (kptsPrev kptsCurr : List KeyPoint) (m1 m2 : DMatch) :
    pairRatio norm kptsPrev kptsCurr m1 m2 = pairRatio norm kptsPrev kptsCurr m2 m1 := by
  unfold pairRatio
  cases matchKeypoints kptsPrev kptsCurr m1 <;> cases matchKeypoints kptsPrev kptsCurr m2 <;>
    simp only []
  rename_i a b
  rw [hsym a.2.pt b.2.pt, hsym a.1.pt b.1.pt]

theorem medDistRatio_perm {rs rs1 : List ℚ} (h : rs.Perm rs1) :
    medDistRatio rs = medDistRatio rs1 := by
  have hsort : rs.insertionSort (fun a b => a ≤ b) = rs1.insertionSort (fun a b => a ≤ b) := by
    apply List.eq_of_perm_of_sorted _ (List.sorted_insertionSort _ rs)
      (List.sorted_insertionSort _ rs1)
    exact ((List.perm_insertionSort _ rs).trans h).trans (List.perm_insertionSort _ rs1).symm
  unfold medDistRatio
  rw [hsort]

theorem pairsBy_eq_mandated (norm : Point2f → ℚ) (kptsPrev kptsCurr : List KeyPoint)
    (l : List DMatch) :
    pairsBy (pairRatio norm kptsPrev kptsCurr) l = mandatedRatios norm kptsPrev kptsCurr l := by
  rw [pairsBy_positions, mandatedRatios]
  apply List.filterMap_congr
  intro ij _
  cases l[ij.1]? <;> cases l[ij.2]? <;> rfl

/-! ## Claims on the order of the matches -/

/-- C19: for a `norm` with `norm (a - b) = norm (b - a)` and two lists of valid
matches that are permutations of each other, `computeTTCCamera` does the same
on both (NaN on both, the same value on both, or no value on both), and the
ratios it collects on one are a permutation of those it collects on the
other. -/
theorem computeTTCCamera_order_independent (norm : Point2f → ℚ)
    (hsym : ∀ a b : Point2f, norm (a.sub b) = norm (b.sub a))
    (kptsPrev kptsCurr : List KeyPoint) (ms ms1 : List DMatch) (hperm : ms.Perm ms1)
    (hv : ∀ m ∈ ms, m.valid kptsPrev kptsCurr) (frameRate : ℚ) :
    computeTTCCamera norm kptsPrev kptsCurr ms frameRate =
        computeTTCCamera norm kptsPrev kptsCurr ms1 frameRate ∧
      ∀ rs rs1, distRatios norm kptsPrev kptsCurr ms = some rs →
        distRatios norm kptsPrev kptsCurr ms1 = some rs1 → rs.Perm rs1 := by
  by_cases hne : ms = []
  · subst hne
    have h1 : ms1 = [] := List.Perm.eq_nil hperm.symm
    subst h1
    refine ⟨rfl, fun rs rs1 h _ => ?_⟩
    simp [distRatios, beginToEndMinusOne] at h
  · have hne1 : ms1 ≠ [] := fun h => hne (List.Perm.eq_nil (h ▸ hperm))
    have hv1 : ∀ m ∈ ms1, m.valid kptsPrev kptsCurr := fun m hm => hv m (hperm.mem_iff.2 hm)
    have hrs := distRatios_eq norm kptsPrev kptsCurr ms hne hv
    have hrs1 := distRatios_eq norm kptsPrev kptsCurr ms1 hne1 hv1
    have hp : (mandatedRatios norm kptsPrev kptsCurr ms).Perm
        (mandatedRatios norm kptsPrev kptsCurr ms1) := by
      rw [← pairsBy_eq_mandated, ← pairsBy_eq_mandated]
      exact pairsBy_perm _ (pairRatio_symm norm hsym kptsPrev kptsCurr) hperm
    constructor
    · rw [computeTTCCamera_of_ratios norm kptsPrev kptsCurr ms frameRate _ hrs,
        computeTTCCamera_of_ratios norm kptsPrev kptsCurr ms1 frameRate _ hrs1,
        hp.length_eq, medDistRatio_perm hp]
    · intro rs rs1 h h1
      rw [hrs] at h
      rw [hrs1] at h1
      cases h
      cases h1
      exact hp

/-- Witness of C19 on scenario S4 and the same two matches in the other
order. -/
theorem computeTTCCamera_order_independent_witness :
    (∀ a b : Point2f, axisNorm (a.sub b) = axisNorm (b.sub a)) ∧
    zoomMatches.Perm zoomMatchesSwapped ∧
    (∀ m ∈ zoomMatches, m.valid zoomPrev zoomCurr) ∧
    (computeTTCCamera axisNorm zoomPrev zoomCurr zoomMatches 10 =
        computeTTCCamera axisNorm zoomPrev zoomCurr zoomMatchesSwapped 10 ∧
      ∀ rs rs1, distRatios axisNorm zoomPrev zoomCurr zoomMatches = some rs →
        distRatios axisNorm zoomPrev zoomCurr zoomMatchesSwapped = some rs1 → rs.Perm rs1) :=
  ⟨fun a b => by simp only [axisNorm, Point2f.sub, abs_sub_comm],
    List.Perm.swap _ _ [], by decide!,
    computeTTCCamera_order_independent axisNorm
      (fun a b => by simp only [axisNorm, Point2f.sub, abs_sub_comm])
      zoomPrev zoomCurr zoomMatches zoomMatchesSwapped (List.Perm.swap _ _ []) (by decide!) 10⟩


end CamFusion
